import Mathlib

/-!
# UARTDevice: polling and interrupt driven serial channel

Shallow embedding of `src/UARTDevice/UARTDevice.cpp`.  The file is compiled for one of two
targets, selected by a preprocessor symbol; each target is embedded in a namespace of its own:

* `MiSTM32Fx`  - the register mapped USART of an STM32Fxx (`zz__MiSTM32Fx__zz`),
* `MiRaspbPi`  - the Raspberry Pi character device driven through wiringSerial
  (`zz__MiRaspbPi__zz`).

Bytes (`uint8_t`) are natural numbers.  Where the source narrows a wider value to `uint8_t`
(a 32 bit register, an `int`) the conversion is written `% 256`; a cast of a value that already
is a `uint8_t` is the identity.  The generic buffer class `GenBuffer` is used by the channel
but its source is not part of the sources at hand; it is modelled from the specification.
-/

/-! ## GenBuffer (the circular buffer owned by the channel) -/

/-- Modelled from the spec: the enumeration `_GenBufState` of the missing GenBuffer header.  The
channel source names only `GenBuffer_Empty`; the spec gives a read the outcomes "a value" or
`BufferEmpty` and a write the outcomes "done" or `BufferFull`. -/
inductive _GenBufState where
  | GenBuffer_Empty
  | GenBuffer_NewData
  | GenBuffer_FULL
  deriving DecidableEq

open _GenBufState

/-- Modelled from the spec: the class `GenBuffer<uint8_t>` (spec: CircularBuffer), whose source
is missing.  Spec section 3: `storage` is a sequence of fixed length `capacity`; `writeIndex` and
`readIndex` are positions into it, advanced modulo `capacity`.  One slot is sacrificed to tell
full from empty. -/
structure GenBuffer where
  storage    : List Nat
  capacity   : Nat
  writeIndex : Nat
  readIndex  : Nat
  deriving DecidableEq

namespace GenBuffer

/-- Modelled from the spec: constructor `GenBuffer(size)`; a buffer is created empty with the
requested capacity. -/
def create (size : Nat) : GenBuffer :=
  { storage := List.replicate size 0, capacity := size, writeIndex := 0, readIndex := 0 }

/-- Modelled from the spec: `isEmpty()`; the buffer is empty when `writeIndex == readIndex`. -/
def isEmpty (b : GenBuffer) : Bool := b.writeIndex == b.readIndex

/-- Modelled from the spec: `isFull()`; the buffer is full when advancing `writeIndex` would
make it equal to `readIndex`. -/
def isFull (b : GenBuffer) : Bool := (b.writeIndex + 1) % b.capacity == b.readIndex

/-- Modelled from the spec: `count()`, the number of queued elements, that is the number of
steps from `readIndex` walking forward to `writeIndex`. -/
def count (b : GenBuffer) : Nat := (b.writeIndex + b.capacity - b.readIndex) % b.capacity

/-- Modelled from the spec: `write(value)` (source name `InputWrite`).  Appends at `writeIndex`
and advances it; fails with BufferFull when the buffer is at capacity, and then no state
changes. -/
def InputWrite (b : GenBuffer) (newdata : Nat) : _GenBufState × GenBuffer :=
  if b.isFull then (GenBuffer_FULL, b)
  else (GenBuffer_NewData,
        { b with storage := b.storage.set b.writeIndex newdata,
                 writeIndex := (b.writeIndex + 1) % b.capacity })

/-- Modelled from the spec: `read()` (source name `OutputRead`).  Removes the element at
`readIndex` and advances it; fails with BufferEmpty when the buffer has no elements, and then
no state changes.  The second component is the value delivered through the out-pointer. -/
def OutputRead (b : GenBuffer) : _GenBufState × Option Nat × GenBuffer :=
  if b.isEmpty then (GenBuffer_Empty, none, b)
  else (GenBuffer_NewData, some (b.storage.getD b.readIndex 0),
        { b with readIndex := (b.readIndex + 1) % b.capacity })

/-- The queued elements, oldest first: the slots met from `readIndex` walking to `writeIndex`. -/
def queued (b : GenBuffer) : List Nat :=
  (List.range b.count).map (fun i => b.storage.getD ((b.readIndex + i) % b.capacity) 0)

/-- Modelled from the spec: `resize(newCapacity)` (source name `SizeUpdate`).  Fails when
`newCapacity` is zero (nothing changes).  Otherwise the queued elements are copied forward into
the new storage starting at index 0, `readIndex = 0` and `writeIndex = elementCount`; when more
than `newCapacity` elements are queued the oldest excess ones are dropped. -/
def SizeUpdate (b : GenBuffer) (size : Nat) : GenBuffer :=
  if size = 0 then b
  else
    let kept := b.queued.drop (b.count - size)
    { storage := kept ++ List.replicate (size - kept.length) 0,
      capacity := size, writeIndex := kept.length, readIndex := 0 }

/-- Performs `n` reads in a row; the list holds, for each read, the returned state and the value
delivered. -/
def OutputRead_times : Nat → GenBuffer → List (_GenBufState × Option Nat) × GenBuffer
  | 0, b => ([], b)
  | n + 1, b =>
    let r := b.OutputRead
    let rest := OutputRead_times n r.2.2
    ((r.1, r.2.1) :: rest.1, rest.2)

/-- Representation invariant of spec section 3: a positive capacity, a storage of exactly that
length and both indices inside `[0, capacity)`. -/
def WF (b : GenBuffer) : Prop :=
  0 < b.capacity ∧ b.storage.length = b.capacity ∧
    b.writeIndex < b.capacity ∧ b.readIndex < b.capacity

instance (b : GenBuffer) : Decidable b.WF :=
  inferInstanceAs (Decidable (_ ∧ _ ∧ _ ∧ _))

end GenBuffer


/-! ## The channel: declarations shared by both targets -/

/-- Fault state `_UARTDevFlt` of the channel; the source uses these three values. -/
inductive _UARTDevFlt where
  | UART_NoFault
  | UART_DataError
  | UART_Initialised
  deriving DecidableEq

open _UARTDevFlt

/-! ## Target STM32Fxx: register mapped USART -/

namespace MiSTM32Fx

/-- Value `RESET` of the vendor HAL (`FlagStatus`). -/
def RESET : Nat := 0
/-- Value `SET` of the vendor HAL (`FlagStatus`). -/
def SET : Nat := 1
/-- Status register bit "read data register not empty" (vendor device header). -/
def USART_SR_RXNE : Nat := 0x20
/-- Status register bit "transmit data register empty" (vendor device header). -/
def USART_SR_TXE : Nat := 0x80
/-- Control register 1 bit "USART enable" (vendor device header). -/
def USART_CR1_UE : Nat := 0x2000
/-- Control register 1 bit "RXNE interrupt enable" (vendor device header). -/
def USART_CR1_RXNEIE : Nat := 0x20
/-- Control register 1 bit "TXE interrupt enable" (vendor device header). -/
def USART_CR1_TXEIE : Nat := 0x80
/-- Status flag id of the HAL; it is the RXNE bit of the status register. -/
def UART_FLAG_RXNE : Nat := USART_SR_RXNE
/-- Status flag id of the HAL; it is the TXE bit of the status register. -/
def UART_FLAG_TXE : Nat := USART_SR_TXE
/-- Interrupt id of the HAL; it selects the RXNEIE bit of control register 1. -/
def UART_IT_RXNE : Nat := USART_CR1_RXNEIE
/-- Interrupt id of the HAL; it selects the TXEIE bit of control register 1. -/
def UART_IT_TXE : Nat := USART_CR1_TXEIE

/-- The register block `UART_Handle->Instance` together with the peripheral behind it.
`SR`, `DR` and `CR1` are the registers the source reads; `DR` is what a read of the data
register returns.  `TDR` records the values the source has written to the data register, oldest
first: this is the transport output.  `txeIn` and `rxneIn` count the status polls after which the
peripheral raises TXE or RXNE when that flag is low, `txLatency` is the value `txeIn` takes
after a write to the data register. -/
structure USART_TypeDef where
  SR        : Nat
  DR        : Nat
  CR1       : Nat
  TDR       : List Nat
  txeIn     : Nat
  rxneIn    : Nat
  txLatency : Nat
  deriving DecidableEq

/-- HAL macro `__HAL_UART_ENABLE`: sets the UE bit of CR1. -/
def __HAL_UART_ENABLE (h : USART_TypeDef) : USART_TypeDef :=
  { h with CR1 := h.CR1 ||| USART_CR1_UE }

/-- HAL macro `__HAL_UART_GET_FLAG`: `SET` when the flag is up in the status register. -/
def __HAL_UART_GET_FLAG (h : USART_TypeDef) (flag : Nat) : Nat :=
  if h.SR &&& flag = flag then SET else RESET

/-- HAL macro `__HAL_UART_ENABLE_IT`: sets the interrupt enable bit in CR1. -/
def __HAL_UART_ENABLE_IT (h : USART_TypeDef) (it : Nat) : USART_TypeDef :=
  { h with CR1 := h.CR1 ||| it }

/-- HAL macro `__HAL_UART_DISABLE_IT`: clears the interrupt enable bit in CR1 (a 32 bit register). -/
def __HAL_UART_DISABLE_IT (h : USART_TypeDef) (it : Nat) : USART_TypeDef :=
  { h with CR1 := h.CR1 &&& (0xFFFFFFFF ^^^ it) }

/-- A write of `data` to the data register: the value goes out on the wire, the peripheral
lowers TXE until the value has moved to the shift register. -/
def writeDR (h : USART_TypeDef) (data : Nat) : USART_TypeDef :=
  { h with TDR := h.TDR ++ [data], SR := h.SR &&& (0xFFFFFFFF ^^^ USART_SR_TXE),
           txeIn := h.txLatency }

/-- A read of the data register: delivers `DR`; the peripheral lowers RXNE. -/
def readDR (h : USART_TypeDef) : Nat × USART_TypeDef :=
  (h.DR, { h with SR := h.SR &&& (0xFFFFFFFF ^^^ USART_SR_RXNE) })

/-- The loop `while (__HAL_UART_GET_FLAG(h, UART_FLAG_TXE) == RESET) {}` with `polls` status
polls left before the peripheral raises TXE: each poll that finds the flag low lets the
peripheral advance. -/
def waitTXE_loop : Nat → USART_TypeDef → USART_TypeDef
  | 0, h =>
    if __HAL_UART_GET_FLAG h UART_FLAG_TXE = RESET then
      { h with SR := h.SR ||| USART_SR_TXE, txeIn := 0 }
    else h
  | polls + 1, h =>
    if __HAL_UART_GET_FLAG h UART_FLAG_TXE = RESET then waitTXE_loop polls { h with txeIn := polls }
    else h

/-- The busy wait for TXE of `PoleSingleTransmit`. -/
def waitTXE (h : USART_TypeDef) : USART_TypeDef := waitTXE_loop h.txeIn h

/-- The loop `while (__HAL_UART_GET_FLAG(h, UART_FLAG_RXNE) != SET) {}` with `polls` status
polls left before the peripheral raises RXNE. -/
def waitRXNE_loop : Nat → USART_TypeDef → USART_TypeDef
  | 0, h =>
    if __HAL_UART_GET_FLAG h UART_FLAG_RXNE ≠ SET then
      { h with SR := h.SR ||| USART_SR_RXNE, rxneIn := 0 }
    else h
  | polls + 1, h =>
    if __HAL_UART_GET_FLAG h UART_FLAG_RXNE ≠ SET then
      waitRXNE_loop polls { h with rxneIn := polls }
    else h

/-- The busy wait for RXNE of `PoleSingleRead`. -/
def waitRXNE (h : USART_TypeDef) : USART_TypeDef := waitRXNE_loop h.rxneIn h

/-- The class `UARTDevice` as compiled for the STM32Fxx. -/
structure UARTDevice where
  UART_Handle : USART_TypeDef
  Flt         : _UARTDevFlt
  Receive     : GenBuffer
  Transmit    : GenBuffer
  deriving DecidableEq

end MiSTM32Fx

namespace MiSTM32Fx

/-- Constructor `UARTDevice::UARTDevice(UART_HandleTypeDef*)`: buffers of the default size 128. -/
def UARTDevice.construct (UART_Handle : USART_TypeDef) : UARTDevice :=
  { UART_Handle := UART_Handle, Flt := UART_Initialised,
    Receive := GenBuffer.create 128, Transmit := GenBuffer.create 128 }

/-- Constructor `UARTDevice::UARTDevice(UART_HandleTypeDef*, uint32_t Buffersize)`. -/
def UARTDevice.constructSized (UART_Handle : USART_TypeDef) (Buffersize : Nat) : UARTDevice :=
  { UART_Handle := UART_Handle, Flt := UART_Initialised,
    Receive := GenBuffer.create Buffersize, Transmit := GenBuffer.create Buffersize }

/-- Method `UARTDevice::PoleSingleRead`: enables the USART when it is not, waits for RXNE, returns
the data register converted to `uint8_t`. -/
def PoleSingleRead (u : UARTDevice) : Nat × UARTDevice :=
  let h := u.UART_Handle
  let h := if h.CR1 &&& USART_CR1_UE ≠ USART_CR1_UE then __HAL_UART_ENABLE h else h
  let h := waitRXNE h
  ((readDR h).1 % 256, { u with UART_Handle := (readDR h).2 })

/-- Method `UARTDevice::PoleSingleTransmit`: enables the USART when it is not, waits for TXE, puts
`data` onto the data register. -/
def PoleSingleTransmit (u : UARTDevice) (data : Nat) : UARTDevice :=
  let h := u.UART_Handle
  let h := if h.CR1 &&& USART_CR1_UE ≠ USART_CR1_UE then __HAL_UART_ENABLE h else h
  let h := waitTXE h
  { u with UART_Handle := writeDR h data }

/-- The loop `while (size > 0)` of `PoleTransmit`: transmits `*pData`, advances the pointer,
decrements `size`.  `pData` is the memory the pointer refers to; `none` is a read past the end
of the caller's array. -/
def PoleTransmit_loop : Nat → List Nat → UARTDevice → Option UARTDevice
  | 0, _, u => some u
  | _ + 1, [], _ => none
  | size + 1, d :: pData, u => PoleTransmit_loop size pData (PoleSingleTransmit u d)

/-- Method `UARTDevice::PoleTransmit(uint8_t *pData, uint16_t size)`; `pData = none` is the null
pointer.  Returns the fault code and the channel. -/
def PoleTransmit (u : UARTDevice) (pData : Option (List Nat)) (size : Nat) :
    Option (_UARTDevFlt × UARTDevice) :=
  match pData with
  | none => some (UART_DataError, { u with Flt := UART_DataError })
  | some p =>
    if size = 0 then some (UART_DataError, { u with Flt := UART_DataError })
    else
      match PoleTransmit_loop size p u with
      | none => none
      | some u1 => some (UART_NoFault, { u1 with Flt := UART_NoFault })

/-- Method `UARTDevice::UpdateBufferSize(uint32_t newsize)`. -/
def UpdateBufferSize (u : UARTDevice) (newsize : Nat) : UARTDevice :=
  let u := { u with Receive := u.Receive.SizeUpdate newsize }
  { u with Transmit := u.Transmit.SizeUpdate newsize }

/-- Method `UARTDevice::ReceiveITEnable`. -/
def ReceiveITEnable (u : UARTDevice) : UARTDevice :=
  { u with UART_Handle := __HAL_UART_ENABLE_IT u.UART_Handle UART_IT_RXNE }

/-- Method `UARTDevice::TransmitITEnable`. -/
def TransmitITEnable (u : UARTDevice) : UARTDevice :=
  { u with UART_Handle := __HAL_UART_ENABLE_IT u.UART_Handle UART_IT_TXE }

/-- Method `UARTDevice::TransmitITDisable`. -/
def TransmitITDisable (u : UARTDevice) : UARTDevice :=
  { u with UART_Handle := __HAL_UART_DISABLE_IT u.UART_Handle UART_IT_TXE }

/-- Method `UARTDevice::SingleTransmit_IT`: adds `data` to the Transmit buffer (the result of the
write is not looked at) and enables the transmit interrupt. -/
def SingleTransmit_IT (u : UARTDevice) (data : Nat) : UARTDevice :=
  let u := { u with Transmit := (u.Transmit.InputWrite data).2 }
  TransmitITEnable u

/-- Method `UARTDevice::SingleRead_IT(uint8_t *pData)`: the result of `OutputRead` on the Receive
buffer; the second component is the value stored through `pData`. -/
def SingleRead_IT (u : UARTDevice) : _GenBufState × Option Nat × UARTDevice :=
  let r := u.Receive.OutputRead
  (r.1, r.2.1, { u with Receive := r.2.2 })

/-- Receive step of `IRQHandle`: returns the local `tempdata` and the channel. -/
def IRQHandle_receive (isrflags cr1its tempdata : Nat) (u : UARTDevice) : Nat × UARTDevice :=
  if isrflags &&& USART_SR_RXNE ≠ RESET ∧ cr1its &&& USART_CR1_RXNEIE ≠ RESET then
    let r := readDR u.UART_Handle
    let tempdata := r.1 % 256
    (tempdata, { u with UART_Handle := r.2, Receive := (u.Receive.InputWrite tempdata).2 })
  else (tempdata, u)

/-- Transmit step of `IRQHandle`. -/
def IRQHandle_transmit (isrflags cr1its tempdata : Nat) (u : UARTDevice) : UARTDevice :=
  if isrflags &&& USART_SR_TXE ≠ RESET ∧ cr1its &&& USART_CR1_TXEIE ≠ RESET then
    let r := u.Transmit.OutputRead
    let u := { u with Transmit := r.2.2 }
    if r.1 ≠ GenBuffer_Empty then
      { u with UART_Handle := writeDR u.UART_Handle (r.2.1.getD tempdata) }
    else TransmitITDisable u
  else u

/-- Method `UARTDevice::IRQHandle`: the status register and CR1 are read once on entry. -/
def IRQHandle (u : UARTDevice) : UARTDevice :=
  let isrflags := u.UART_Handle.SR
  let cr1its := u.UART_Handle.CR1
  let tempdata := 0x00
  let r := IRQHandle_receive isrflags cr1its tempdata u
  IRQHandle_transmit isrflags cr1its r.1 r.2

/-- The receive direction is armed: RXNEIE is set in CR1. -/
def receiveArmed (u : UARTDevice) : Prop := u.UART_Handle.CR1 &&& USART_CR1_RXNEIE ≠ RESET

/-- The transmit direction is armed: TXEIE is set in CR1. -/
def transmitArmed (u : UARTDevice) : Prop := u.UART_Handle.CR1 &&& USART_CR1_TXEIE ≠ RESET

instance (u : UARTDevice) : Decidable (receiveArmed u) := inferInstanceAs (Decidable (_ ≠ _))
instance (u : UARTDevice) : Decidable (transmitArmed u) := inferInstanceAs (Decidable (_ ≠ _))

/-- The transport is ready to send: TXE is up in the status register. -/
def transmitReady (u : UARTDevice) : Prop := u.UART_Handle.SR &&& USART_SR_TXE ≠ RESET

/-- The transport reports a received byte: RXNE is up in the status register. -/
def dataAvailable (u : UARTDevice) : Prop := u.UART_Handle.SR &&& USART_SR_RXNE ≠ RESET

instance (u : UARTDevice) : Decidable (transmitReady u) := inferInstanceAs (Decidable (_ ≠ _))
instance (u : UARTDevice) : Decidable (dataAvailable u) := inferInstanceAs (Decidable (_ ≠ _))

/-- What the peripheral does by itself between two calls into the channel: it presents new
status flags and a new received value. -/
def peripheral (sr dr : Nat) (u : UARTDevice) : UARTDevice :=
  { u with UART_Handle := { u.UART_Handle with SR := sr, DR := dr } }

/-- One invocation of `IRQHandle` per entry of the list; the entry gives the status flags and
the data register the peripheral presents at that invocation. -/
def IRQHandle_run : List (Nat × Nat) → UARTDevice → UARTDevice
  | [], u => u
  | e :: es, u => IRQHandle_run es (IRQHandle (peripheral e.1 e.2 u))

/-- Invocations of `IRQHandle`, one per entry of the list, repeated until the transmit
direction is found disarmed. -/
def IRQHandle_untilDisarmed : List (Nat × Nat) → UARTDevice → UARTDevice
  | [], u => u
  | e :: es, u =>
    if transmitArmed u then IRQHandle_untilDisarmed es (IRQHandle (peripheral e.1 e.2 u))
    else u

/-- Performs `n` calls of `SingleRead_IT` in a row; the list holds what each call returned. -/
def SingleRead_IT_times : Nat → UARTDevice → List (_GenBufState × Option Nat) × UARTDevice
  | 0, u => ([], u)
  | n + 1, u =>
    let r := SingleRead_IT u
    let rest := SingleRead_IT_times n r.2.2
    ((r.1, r.2.1) :: rest.1, rest.2)

/-- A call of `SingleTransmit_IT` for each byte of the list, in order. -/
def SingleTransmit_IT_each : List Nat → UARTDevice → UARTDevice
  | [], u => u
  | d :: ds, u => SingleTransmit_IT_each ds (SingleTransmit_IT u d)

end MiSTM32Fx

/-! ## Target Raspberry Pi: character device through wiringSerial -/

namespace MiRaspbPi

/-- The serial device behind the file descriptor `UART_Handle`.  `rx` holds the bytes the
driver has received and not yet handed out, oldest first; `tx` records the bytes written to the
device, oldest first: this is the transport output.  `later` lists, for each coming time-out of
a read on an empty `rx`, the bytes that arrive during it. -/
structure SerialPort where
  rx    : List Nat
  tx    : List Nat
  later : List (List Nat)
  deriving DecidableEq

/-- wiringSerial `serialPutchar`: sends one byte. -/
def serialPutchar (fd : SerialPort) (c : Nat) : SerialPort :=
  { fd with tx := fd.tx ++ [c] }

/-- The characters of a C string: the bytes before the first NUL of the memory at the pointer;
`none` when the memory at hand holds no NUL. -/
def cString : List Nat → Option (List Nat)
  | [] => none
  | c :: mem => if c = 0 then some [] else (cString mem).map (fun s => c :: s)

/-- wiringSerial `serialPuts`: sends the NUL terminated string `s` (`write (fd, s, strlen (s))`).
`s` is the memory from the pointer on. -/
def serialPuts (fd : SerialPort) (s : List Nat) : Option SerialPort :=
  (cString s).map (fun str => { fd with tx := fd.tx ++ str })

/-- wiringSerial `serialDataAvail`: the number of bytes waiting to be read. -/
def serialDataAvail (fd : SerialPort) : Int := fd.rx.length

/-- wiringSerial `serialGetchar`: the next waiting byte; when none is waiting the call times
out and returns -1, and the bytes arriving meanwhile become the waiting ones. -/
def serialGetchar (fd : SerialPort) : Int × SerialPort :=
  match fd.rx with
  | c :: rx => (((c % 256 : Nat) : Int), { fd with rx := rx })
  | [] => (-1, { fd with rx := fd.later.headD [], later := fd.later.tail })

/-- Conversion of an `int` to `uint8_t`. -/
def toUInt8 (x : Int) : Nat := (x % 256).toNat

/-- Modelled from the spec: the macro `UARTD_EnabInter(reg, bit)` of the missing header
UARTDevice.h.  The spec has arming set the flag of the direction; the flag is bit `bit` of the
pseudo interrupt register, as `IRQHandle` tests it. -/
def UARTD_EnabInter (reg bit : Nat) : Nat := reg ||| (0x01 <<< bit)

/-- Modelled from the spec: the macro `UARTD_DisaInter(reg, bit)` of the missing header
UARTDevice.h.  The spec has disarming clear the flag of the direction. -/
def UARTD_DisaInter (reg bit : Nat) : Nat := reg ^^^ (reg &&& (0x01 <<< bit))

/-- The class `UARTDevice` as compiled for the Raspberry Pi.  The device path and the baud
rate are only handed to `serialOpen` and are left out. -/
structure UARTDevice where
  UART_Handle      : SerialPort
  pseudo_interrupt : Nat
  Flt              : _UARTDevFlt
  Receive          : GenBuffer
  Transmit         : GenBuffer
  deriving DecidableEq

/-- Constructor `UARTDevice::UARTDevice(const char *deviceloc, int baud)`; `port` is the device that
`serialOpen` opens. -/
def UARTDevice.construct (port : SerialPort) : UARTDevice :=
  { pseudo_interrupt := 0x00, Flt := UART_Initialised,
    Receive := GenBuffer.create 128, Transmit := GenBuffer.create 128,
    UART_Handle := port }

/-- Constructor `UARTDevice::UARTDevice(const char *deviceloc, int baud, uint32_t Buffersize)`. -/
def UARTDevice.constructSized (port : SerialPort) (Buffersize : Nat) : UARTDevice :=
  { pseudo_interrupt := 0x00, Flt := UART_Initialised,
    Receive := GenBuffer.create Buffersize, Transmit := GenBuffer.create Buffersize,
    UART_Handle := port }

/-- The loop `while (readbackdata == -1)` of `PoleSingleRead`, at most `fuel` rounds. -/
def PoleSingleRead_loop : Nat → SerialPort → Option (Int × SerialPort)
  | 0, _ => none
  | fuel + 1, fd =>
    let r := serialGetchar fd
    if r.1 = -1 then PoleSingleRead_loop fuel r.2 else some r

/-- Method `UARTDevice::PoleSingleRead`; `none` when `fuel` rounds of the wait do not bring a byte. -/
def PoleSingleRead (fuel : Nat) (u : UARTDevice) : Option (Nat × UARTDevice) :=
  (PoleSingleRead_loop fuel u.UART_Handle).map
    (fun r => (toUInt8 r.1, { u with UART_Handle := r.2 }))

/-- Method `UARTDevice::PoleSingleTransmit`. -/
def PoleSingleTransmit (u : UARTDevice) (data : Nat) : UARTDevice :=
  { u with UART_Handle := serialPutchar u.UART_Handle data }

/-- The loop `for (i = 0; i != size; i++)` of `PoleTransmit`: copies `size` bytes from
`pData` into the new array; `none` is a read past the end of the caller's array. -/
def PoleTransmit_copy : Nat → List Nat → Option (List Nat)
  | 0, _ => some []
  | _ + 1, [] => none
  | size + 1, d :: pData => (PoleTransmit_copy size pData).map (fun newpa => d :: newpa)

/-- Method `UARTDevice::PoleTransmit(uint8_t *pData, uint16_t size)`; `pData = none` is the null
pointer.  `heap` is the memory that follows the array `newpa` allocated by the function:
`serialPuts` reads on into it when `newpa` holds no NUL. -/
def PoleTransmit (heap : List Nat) (u : UARTDevice) (pData : Option (List Nat)) (size : Nat) :
    Option (_UARTDevFlt × UARTDevice) :=
  match pData with
  | none => some (UART_DataError, { u with Flt := UART_DataError })
  | some p =>
    if size = 0 then some (UART_DataError, { u with Flt := UART_DataError })
    else
      match PoleTransmit_copy size p with
      | none => none
      | some newpa =>
        match serialPuts u.UART_Handle (newpa ++ heap) with
        | none => none
        | some fd => some (UART_NoFault, { u with UART_Handle := fd, Flt := UART_NoFault })

/-- Method `UARTDevice::UpdateBufferSize(uint32_t newsize)`. -/
def UpdateBufferSize (u : UARTDevice) (newsize : Nat) : UARTDevice :=
  let u := { u with Receive := u.Receive.SizeUpdate newsize }
  { u with Transmit := u.Transmit.SizeUpdate newsize }

/-- Method `UARTDevice::ReceiveITEnable`. -/
def ReceiveITEnable (UARTD_ReceiveIntBit : Nat) (u : UARTDevice) : UARTDevice :=
  { u with pseudo_interrupt := UARTD_EnabInter u.pseudo_interrupt UARTD_ReceiveIntBit }

/-- Method `UARTDevice::TransmitITEnable`. -/
def TransmitITEnable (UARTD_TransmtIntBit : Nat) (u : UARTDevice) : UARTDevice :=
  { u with pseudo_interrupt := UARTD_EnabInter u.pseudo_interrupt UARTD_TransmtIntBit }

/-- Method `UARTDevice::TransmitITDisable`. -/
def TransmitITDisable (UARTD_TransmtIntBit : Nat) (u : UARTDevice) : UARTDevice :=
  { u with pseudo_interrupt := UARTD_DisaInter u.pseudo_interrupt UARTD_TransmtIntBit }

/-- Method `UARTDevice::SingleTransmit_IT`. -/
def SingleTransmit_IT (UARTD_TransmtIntBit : Nat) (u : UARTDevice) (data : Nat) : UARTDevice :=
  let u := { u with Transmit := (u.Transmit.InputWrite data).2 }
  TransmitITEnable UARTD_TransmtIntBit u

/-- Method `UARTDevice::SingleRead_IT(uint8_t *pData)`. -/
def SingleRead_IT (u : UARTDevice) : _GenBufState × Option Nat × UARTDevice :=
  let r := u.Receive.OutputRead
  (r.1, r.2.1, { u with Receive := r.2.2 })

/-- The loop `while (BufferContents > 0)` of `IRQHandle`. -/
def IRQHandle_receiveLoop : Nat → UARTDevice → UARTDevice
  | 0, u => u
  | BufferContents + 1, u =>
    let r := serialGetchar u.UART_Handle
    let u := { u with UART_Handle := r.2, Receive := (u.Receive.InputWrite (toUInt8 r.1)).2 }
    IRQHandle_receiveLoop BufferContents u

/-- The loop `while (Transmit->OutputRead(&tempdata) != GenBuffer_Empty)` of `IRQHandle`, at
most `fuel` reads; returns the local `tempdata` and the channel. -/
def IRQHandle_transmitLoop : Nat → Nat → UARTDevice → Option (Nat × UARTDevice)
  | 0, _, _ => none
  | fuel + 1, tempdata, u =>
    let r := u.Transmit.OutputRead
    let u := { u with Transmit := r.2.2 }
    let tempdata := r.2.1.getD tempdata
    if r.1 ≠ GenBuffer_Empty then
      IRQHandle_transmitLoop fuel tempdata (PoleSingleTransmit u tempdata)
    else some (tempdata, u)

/-- Receive step of `IRQHandle`: when the receive bit of the pseudo interrupt register is set,
as many bytes as `serialDataAvail` reports are read and written to the Receive buffer. -/
def IRQHandle_receive (UARTD_ReceiveIntBit : Nat) (u : UARTDevice) : UARTDevice :=
  if u.pseudo_interrupt &&& (0x01 <<< UARTD_ReceiveIntBit) = (0x01 <<< UARTD_ReceiveIntBit) then
    let BufferContents := serialDataAvail u.UART_Handle
    IRQHandle_receiveLoop BufferContents.toNat u
  else u

/-- Transmit step of `IRQHandle`: when the transmit bit of the pseudo interrupt register is
set, the Transmit buffer is drained onto the device and the transmit interrupt is disabled. -/
def IRQHandle_transmit (UARTD_TransmtIntBit : Nat) (fuel tempdata : Nat) (u : UARTDevice) :
    Option UARTDevice :=
  if u.pseudo_interrupt &&& (0x01 <<< UARTD_TransmtIntBit) = (0x01 <<< UARTD_TransmtIntBit) then
    (IRQHandle_transmitLoop fuel tempdata u).map
      (fun r => TransmitITDisable UARTD_TransmtIntBit r.2)
  else some u

/-- Method `UARTDevice::IRQHandle`.  `tempdata` is the value the uninitialised local of that name
starts with; `none` when `fuel` reads do not drain the Transmit buffer. -/
def IRQHandle (UARTD_ReceiveIntBit UARTD_TransmtIntBit : Nat) (fuel tempdata : Nat)
    (u : UARTDevice) : Option UARTDevice :=
  IRQHandle_transmit UARTD_TransmtIntBit fuel tempdata (IRQHandle_receive UARTD_ReceiveIntBit u)

/-- The receive direction is armed: the receive bit of the pseudo interrupt register is set. -/
def receiveArmed (UARTD_ReceiveIntBit : Nat) (u : UARTDevice) : Prop :=
  u.pseudo_interrupt &&& (0x01 <<< UARTD_ReceiveIntBit) = (0x01 <<< UARTD_ReceiveIntBit)

/-- The transmit direction is armed: the transmit bit of the pseudo interrupt register is
set. -/
def transmitArmed (UARTD_TransmtIntBit : Nat) (u : UARTDevice) : Prop :=
  u.pseudo_interrupt &&& (0x01 <<< UARTD_TransmtIntBit) = (0x01 <<< UARTD_TransmtIntBit)

instance (b : Nat) (u : UARTDevice) : Decidable (receiveArmed b u) :=
  inferInstanceAs (Decidable (_ = _))
instance (b : Nat) (u : UARTDevice) : Decidable (transmitArmed b u) :=
  inferInstanceAs (Decidable (_ = _))

/-- What the device does by itself between two calls into the channel: further bytes are
received. -/
def arrival (bytes : List Nat) (u : UARTDevice) : UARTDevice :=
  { u with UART_Handle := { u.UART_Handle with rx := u.UART_Handle.rx ++ bytes } }

/-- One invocation of `IRQHandle` per entry of the list; the entry gives the bytes that have
arrived since the invocation before. -/
def IRQHandle_run (UARTD_ReceiveIntBit UARTD_TransmtIntBit : Nat) (fuel tempdata : Nat) :
    List (List Nat) → UARTDevice → Option UARTDevice
  | [], u => some u
  | e :: es, u =>
    match IRQHandle UARTD_ReceiveIntBit UARTD_TransmtIntBit fuel tempdata (arrival e u) with
    | none => none
    | some u1 => IRQHandle_run UARTD_ReceiveIntBit UARTD_TransmtIntBit fuel tempdata es u1

/-- Invocations of `IRQHandle`, one per entry of the list, repeated until the transmit
direction is found disarmed. -/
def IRQHandle_untilDisarmed (UARTD_ReceiveIntBit UARTD_TransmtIntBit : Nat)
    (fuel tempdata : Nat) : List (List Nat) → UARTDevice → Option UARTDevice
  | [], u => some u
  | e :: es, u =>
    if transmitArmed UARTD_TransmtIntBit u then
      match IRQHandle UARTD_ReceiveIntBit UARTD_TransmtIntBit fuel tempdata (arrival e u) with
      | none => none
      | some u1 =>
        IRQHandle_untilDisarmed UARTD_ReceiveIntBit UARTD_TransmtIntBit fuel tempdata es u1
    else some u

/-- Performs `n` calls of `SingleRead_IT` in a row; the list holds what each call returned. -/
def SingleRead_IT_times : Nat → UARTDevice → List (_GenBufState × Option Nat) × UARTDevice
  | 0, u => ([], u)
  | n + 1, u =>
    let r := SingleRead_IT u
    let rest := SingleRead_IT_times n r.2.2
    ((r.1, r.2.1) :: rest.1, rest.2)

/-- A call of `SingleTransmit_IT` for each byte of the list, in order. -/
def SingleTransmit_IT_each (UARTD_TransmtIntBit : Nat) : List Nat → UARTDevice → UARTDevice
  | [], u => u
  | d :: ds, u =>
    SingleTransmit_IT_each UARTD_TransmtIntBit ds (SingleTransmit_IT UARTD_TransmtIntBit u d)

end MiRaspbPi

/-! ## Concrete channels used as inputs -/

/-- A channel on the STM32Fxx with two bytes queued for transmission, used as a concrete
input. -/
def stm32Sample : MiSTM32Fx.UARTDevice :=
  { UART_Handle := { SR := 0x80, DR := 0, CR1 := 0x2000, TDR := [9], txeIn := 2, rxneIn := 1,
                     txLatency := 3 },
    Flt := UART_Initialised,
    Receive := GenBuffer.create 8,
    Transmit := { storage := [5, 6, 0, 0], capacity := 4, writeIndex := 2, readIndex := 0 } }

/-- A channel on the Raspberry Pi with two bytes queued for transmission, used as a concrete
input. -/
def raspbPiSample : MiRaspbPi.UARTDevice :=
  { UART_Handle := { rx := [], tx := [9], later := [] },
    pseudo_interrupt := 0, Flt := UART_Initialised,
    Receive := GenBuffer.create 8,
    Transmit := { storage := [5, 6, 0, 0], capacity := 4, writeIndex := 2, readIndex := 0 } }


/-- A channel on the STM32Fxx with the transmit direction armed and exactly the three bytes
0x11, 0x22, 0x33 queued for transmission; the queue wraps around the end of the storage. -/
def stm32Armed3 : MiSTM32Fx.UARTDevice :=
  { UART_Handle := { SR := 0x80, DR := 0, CR1 := 0x2080, TDR := [], txeIn := 0, rxneIn := 0,
                     txLatency := 0 },
    Flt := UART_Initialised,
    Receive := GenBuffer.create 8,
    Transmit := { storage := [0x33, 0, 0x11, 0x22], capacity := 4, writeIndex := 1,
                  readIndex := 2 } }

/-- A channel on the Raspberry Pi, for a header with receive bit 0 and transmit bit 1, with the
transmit direction armed and exactly the three bytes 0x11, 0x22, 0x33 queued. -/
def raspbPiArmed3 : MiRaspbPi.UARTDevice :=
  { UART_Handle := { rx := [], tx := [], later := [] },
    pseudo_interrupt := 0x02, Flt := UART_Initialised,
    Receive := GenBuffer.create 8,
    Transmit := { storage := [0x33, 0, 0x11, 0x22], capacity := 4, writeIndex := 1,
                  readIndex := 2 } }

/-- A channel on the STM32Fxx with both directions armed, TXE up, nothing queued for
transmission and one byte queued in the Receive buffer. -/
def stm32ArmedEmpty : MiSTM32Fx.UARTDevice :=
  { UART_Handle := { SR := 0x80, DR := 0x5A, CR1 := 0x20A0, TDR := [7], txeIn := 0, rxneIn := 0,
                     txLatency := 0 },
    Flt := UART_DataError,
    Receive := { storage := [0, 0x61, 0, 0], capacity := 4, writeIndex := 2, readIndex := 1 },
    Transmit := { storage := [1, 2, 3, 4], capacity := 4, writeIndex := 3, readIndex := 3 } }

/-- A channel on the Raspberry Pi, for a header with receive bit 0 and transmit bit 1, with
both directions armed, nothing queued for transmission, one byte queued in the Receive buffer
and two bytes waiting in the device. -/
def raspbPiArmedEmpty : MiRaspbPi.UARTDevice :=
  { UART_Handle := { rx := [0x62, 0x63], tx := [7], later := [] },
    pseudo_interrupt := 0x03, Flt := UART_DataError,
    Receive := { storage := [0, 0x61, 0, 0], capacity := 4, writeIndex := 2, readIndex := 1 },
    Transmit := { storage := [1, 2, 3, 4], capacity := 4, writeIndex := 3, readIndex := 3 } }

/-- A Receive buffer of capacity 16 holding the ten bytes 1, 2, .., 10; the queue wraps
around the end of the storage. -/
def tenQueued : GenBuffer :=
  { storage := [5, 6, 7, 8, 9, 10, 0, 0, 0, 0, 0, 0, 1, 2, 3, 4], capacity := 16,
    writeIndex := 6, readIndex := 12 }

/-! ## No target selected: the `#else` branches -/

namespace MiNoTarget

/-- The class `UARTDevice` as compiled when neither target symbol is defined, reduced to the
members the common code uses.  `Receive` and `Transmit` are what the two buffer pointers
refer to. -/
structure UARTDevice where
  Flt      : _UARTDevFlt
  Receive  : GenBuffer
  Transmit : GenBuffer
  deriving DecidableEq

/-- Constructor `UARTDevice::UARTDevice()` of the `#else` branch.  Its body is empty: every
member keeps the value `object` that the storage of the new object happens to hold. -/
def UARTDevice.construct (object : UARTDevice) : UARTDevice := object

end MiNoTarget

/-! ## Reachable channel states -/

namespace MiSTM32Fx

/-- The channel states reached from `u0` by whole calls of `SingleTransmit_IT` and
`IRQHandle` in any order, the peripheral acting in between. -/
inductive Reachable (u0 : UARTDevice) : UARTDevice → Prop where
  | start : Reachable u0 u0
  | enqueue (u : UARTDevice) (data : Nat) :
      Reachable u0 u → Reachable u0 (SingleTransmit_IT u data)
  | interrupt (u : UARTDevice) : Reachable u0 u → Reachable u0 (IRQHandle u)
  | hardware (u : UARTDevice) (sr dr : Nat) :
      Reachable u0 u → Reachable u0 (peripheral sr dr u)

end MiSTM32Fx

namespace MiRaspbPi

/-- The channel states reached from `u0` by whole calls of `SingleTransmit_IT` and
`IRQHandle` (those that return) in any order, bytes arriving at the device in between. -/
inductive Reachable (UARTD_ReceiveIntBit UARTD_TransmtIntBit : Nat) (u0 : UARTDevice) :
    UARTDevice → Prop where
  | start : Reachable UARTD_ReceiveIntBit UARTD_TransmtIntBit u0 u0
  | enqueue (u : UARTDevice) (data : Nat) :
      Reachable UARTD_ReceiveIntBit UARTD_TransmtIntBit u0 u →
      Reachable UARTD_ReceiveIntBit UARTD_TransmtIntBit u0
        (SingleTransmit_IT UARTD_TransmtIntBit u data)
  | interrupt (u u1 : UARTDevice) (fuel tempdata : Nat) :
      Reachable UARTD_ReceiveIntBit UARTD_TransmtIntBit u0 u →
      IRQHandle UARTD_ReceiveIntBit UARTD_TransmtIntBit fuel tempdata u = some u1 →
      Reachable UARTD_ReceiveIntBit UARTD_TransmtIntBit u0 u1
  | hardware (u : UARTDevice) (bytes : List Nat) :
      Reachable UARTD_ReceiveIntBit UARTD_TransmtIntBit u0 u →
      Reachable UARTD_ReceiveIntBit UARTD_TransmtIntBit u0 (arrival bytes u)

end MiRaspbPi

/-! ## Further concrete channels -/

/-- An object storage for the `#else` build that holds a fault state other than
`UART_Initialised` and buffers with bytes queued. -/
def noTargetStorage : MiNoTarget.UARTDevice :=
  { Flt := UART_NoFault, Receive := tenQueued, Transmit := tenQueued }

/-- The Raspberry Pi channel, for a header with receive bit 0 and transmit bit 1, that one
invocation of `IRQHandle` leaves after the byte 0x41 was enqueued on a freshly constructed
channel with buffers of size 4: the byte is on the transport, the Transmit buffer is empty
and the transmit direction disarmed. -/
def raspbPiAfterSend : MiRaspbPi.UARTDevice :=
  { UART_Handle := { rx := [], tx := [9, 0x41], later := [] },
    pseudo_interrupt := 0x00, Flt := UART_Initialised,
    Receive := GenBuffer.create 4,
    Transmit := { storage := [0x41, 0, 0, 0], capacity := 4, writeIndex := 1, readIndex := 1 } }

/-! # Lemmas -/
namespace GenBuffer

theorem add_mod_cases (c r i : Nat) (hr : r < c) (hi : i < c) :
    (r + i) % c = if r + i < c then r + i else r + i - c := by
  split
  · exact Nat.mod_eq_of_lt (by assumption)
  · rw [Nat.mod_eq_sub_mod (by omega)]
    exact Nat.mod_eq_of_lt (by omega)

theorem count_cases (b : GenBuffer) (h : b.WF) :
    b.count = if b.readIndex ≤ b.writeIndex then b.writeIndex - b.readIndex
              else b.writeIndex + b.capacity - b.readIndex := by
  obtain ⟨hc, _, hw, hr⟩ := h
  unfold count
  split
  · rw [Nat.mod_eq_sub_mod (by omega)]
    rw [Nat.mod_eq_of_lt (by omega)]; omega
  · exact Nat.mod_eq_of_lt (by omega)

theorem count_lt (b : GenBuffer) (h : b.WF) : b.count < b.capacity := by
  unfold count; exact Nat.mod_lt _ h.1

theorem queued_length (b : GenBuffer) : b.queued.length = b.count := by
  simp [queued]

theorem isEmpty_iff (b : GenBuffer) (h : b.WF) : b.isEmpty = true ↔ b.count = 0 := by
  rw [count_cases b h]
  obtain ⟨hc, _, hw, hr⟩ := h
  simp only [isEmpty, beq_iff_eq]
  split <;> omega

theorem isFull_iff (b : GenBuffer) (h : b.WF) : b.isFull = true ↔ b.count + 1 = b.capacity := by
  rw [count_cases b h]
  obtain ⟨hc, _, hw, hr⟩ := h
  simp only [isFull, beq_iff_eq]
  by_cases h1 : b.capacity = 1
  · have : b.writeIndex = 0 := by omega
    have : b.readIndex = 0 := by omega
    simp [*]
  · rw [add_mod_cases _ _ 1 hw (by omega)]
    split <;> split <;> omega

end GenBuffer
namespace GenBuffer

theorem InputWrite_full (b : GenBuffer) (v : Nat) (h : b.WF) (hf : b.count + 1 = b.capacity) :
    b.InputWrite v = (GenBuffer_FULL, b) := by
  have := (isFull_iff b h).2 hf
  simp [InputWrite, this]

theorem InputWrite_WF (b : GenBuffer) (v : Nat) (h : b.WF) : (b.InputWrite v).2.WF := by
  unfold InputWrite
  split
  · exact h
  · obtain ⟨hc, hl, hw, hr⟩ := h
    refine ⟨hc, ?_, Nat.mod_lt _ hc, hr⟩
    simp [hl]

theorem InputWrite_count (b : GenBuffer) (v : Nat) (h : b.WF) (hroom : b.count + 1 < b.capacity) :
    (b.InputWrite v).2.count = b.count + 1 := by
  have hnf : ¬ b.isFull = true := by rw [isFull_iff b h]; omega
  have hwf := InputWrite_WF b v h
  rw [count_cases _ hwf]
  rw [count_cases b h] at hroom ⊢
  obtain ⟨hc, hl, hw, hr⟩ := h
  simp only [InputWrite, hnf, if_false, Bool.false_eq_true]
  rw [add_mod_cases _ _ 1 hw (by omega)]
  split at hroom <;> split <;> split <;> omega

theorem InputWrite_queued (b : GenBuffer) (v : Nat) (h : b.WF) (hroom : b.count + 1 < b.capacity) :
    (b.InputWrite v).2.queued = b.queued ++ [v] := by
  have hcnt := InputWrite_count b v h hroom
  have hnf : ¬ b.isFull = true := by rw [isFull_iff b h]; omega
  have hcc := count_cases b h
  obtain ⟨hc, hl, hw, hr⟩ := h
  unfold queued
  rw [hcnt, List.range_succ, List.map_append]
  have hcap : (b.InputWrite v).2.capacity = b.capacity := by simp [InputWrite, hnf]
  have hrd : (b.InputWrite v).2.readIndex = b.readIndex := by simp [InputWrite, hnf]
  have hst : (b.InputWrite v).2.storage = b.storage.set b.writeIndex v := by simp [InputWrite, hnf]
  rw [hcap, hrd, hst]
  congr 1
  · apply List.map_congr_left
    intro i hi
    rw [List.mem_range] at hi
    have hne : b.writeIndex ≠ (b.readIndex + i) % b.capacity := by
      rw [add_mod_cases _ _ i hr (by omega)]
      split at hcc <;> split <;> omega
    simp [List.getD_eq_getElem?_getD, List.getElem?_set, hne]
  · have he : (b.readIndex + b.count) % b.capacity = b.writeIndex := by
      rw [add_mod_cases _ _ _ hr (by omega)]
      split at hcc <;> split <;> omega
    simp [he, List.getD_eq_getElem?_getD, List.getElem?_set, hl, hw]

end GenBuffer
namespace GenBuffer

theorem OutputRead_empty (b : GenBuffer) (h : b.WF) (he : b.count = 0) :
    b.OutputRead = (GenBuffer_Empty, none, b) := by
  have := (isEmpty_iff b h).2 he
  simp [OutputRead, this]

theorem OutputRead_WF (b : GenBuffer) (h : b.WF) : b.OutputRead.2.2.WF := by
  unfold OutputRead
  split
  · exact h
  · obtain ⟨hc, hl, hw, hr⟩ := h
    exact ⟨hc, hl, hw, Nat.mod_lt _ hc⟩

theorem OutputRead_count (b : GenBuffer) (h : b.WF) (hne : b.count ≠ 0) :
    b.OutputRead.2.2.count + 1 = b.count := by
  have hnf : ¬ b.isEmpty = true := by rw [isEmpty_iff b h]; exact hne
  have hwf := OutputRead_WF b h
  have hc1 : 1 < b.capacity := by have := count_lt b h; omega
  rw [count_cases _ hwf]
  rw [count_cases b h] at hne ⊢
  obtain ⟨hc, hl, hw, hr⟩ := h
  simp only [OutputRead, hnf, if_false, Bool.false_eq_true]
  rw [add_mod_cases _ _ 1 hr hc1]
  split_ifs at hne ⊢ <;> omega

theorem OutputRead_queued (b : GenBuffer) (h : b.WF) (hne : b.count ≠ 0) :
    ∃ x, b.OutputRead = (GenBuffer_NewData, some x, b.OutputRead.2.2) ∧
      b.queued = x :: b.OutputRead.2.2.queued := by
  have hcnt := OutputRead_count b h hne
  have hnf : ¬ b.isEmpty = true := by rw [isEmpty_iff b h]; exact hne
  have hlt := count_lt b h
  obtain ⟨hc, hl, hw, hr⟩ := h
  refine ⟨b.storage.getD b.readIndex 0, by simp [OutputRead, hnf], ?_⟩
  have hcap : b.OutputRead.2.2.capacity = b.capacity := by simp [OutputRead, hnf]
  have hrd : b.OutputRead.2.2.readIndex = (b.readIndex + 1) % b.capacity := by
    simp [OutputRead, hnf]
  have hst : b.OutputRead.2.2.storage = b.storage := by simp [OutputRead, hnf]
  unfold queued
  rw [← hcnt, List.range_succ_eq_map, List.map_cons, List.map_map, hcap, hrd, hst]
  congr 1
  · simp [Nat.mod_eq_of_lt hr]
  · apply List.map_congr_left
    intro i _
    simp only [Function.comp, Nat.succ_eq_add_one]
    congr 1
    rw [Nat.mod_add_mod]
    congr 1
    omega

end GenBuffer
namespace GenBuffer

theorem SizeUpdate_eq (b : GenBuffer) (size : Nat) (hs : b.count < size) :
    b.SizeUpdate size =
      { storage := b.queued ++ List.replicate (size - b.count) 0,
        capacity := size, writeIndex := b.count, readIndex := 0 } := by
  have h0 : size ≠ 0 := by omega
  have hd : b.count - size = 0 := by omega
  simp [SizeUpdate, h0, hd, queued_length]

theorem SizeUpdate_WF (b : GenBuffer) (size : Nat) (hs : b.count < size) :
    (b.SizeUpdate size).WF := by
  rw [SizeUpdate_eq b size hs]
  refine ⟨?_, ?_, hs, ?_⟩
  · show 0 < size
    omega
  · show (b.queued ++ List.replicate (size - b.count) 0).length = size
    simp [queued_length]; omega
  · show 0 < size
    omega

theorem SizeUpdate_count (b : GenBuffer) (size : Nat) (hs : b.count < size) :
    (b.SizeUpdate size).count = b.count := by
  rw [SizeUpdate_eq b size hs]
  simp only [count, Nat.sub_zero]
  rw [Nat.add_mod_right]
  exact Nat.mod_eq_of_lt hs

theorem SizeUpdate_queued (b : GenBuffer) (size : Nat) (hs : b.count < size) :
    (b.SizeUpdate size).queued = b.queued := by
  have hcnt := SizeUpdate_count b size hs
  apply List.ext_getElem
  · simp [queued_length, hcnt]
  · intro i h1 h2
    have hi : i < b.count := by rw [queued_length] at h2; exact h2
    conv_lhs => unfold queued
    rw [List.getElem_map, List.getElem_range, SizeUpdate_eq b size hs]
    simp only [Nat.zero_add]
    rw [Nat.mod_eq_of_lt (by omega), List.getD_eq_getElem?_getD,
      List.getElem?_append_left (by rw [queued_length]; exact hi)]
    simp [List.getElem?_eq_getElem h2]

theorem create_WF (size : Nat) (h : 0 < size) : (create size).WF := by
  simp [create, WF, h]

theorem create_count (size : Nat) : (create size).count = 0 := by
  simp [create, count]

end GenBuffer

/-! ## Bit masks -/

theorem or_pow_and_self (c i : Nat) : (c ||| 2 ^ i) &&& 2 ^ i = 2 ^ i := by
  rw [Nat.and_two_pow, Nat.testBit_or, Nat.testBit_two_pow_self]; simp

theorem or_pow_and_other (c i j : Nat) (h : i ≠ j) : (c ||| 2 ^ i) &&& 2 ^ j = c &&& 2 ^ j := by
  rw [Nat.and_two_pow, Nat.and_two_pow, Nat.testBit_or, Nat.testBit_two_pow]; simp [h]

theorem and_not_pow_and_self (c m i : Nat) :
    (c &&& (m ^^^ 2 ^ i)) &&& 2 ^ i = (c &&& 2 ^ i) - (m &&& 2 ^ i) := by
  rw [Nat.and_two_pow, Nat.and_two_pow, Nat.and_two_pow, Nat.testBit_and, Nat.testBit_xor,
    Nat.testBit_two_pow_self]
  cases c.testBit i <;> cases m.testBit i <;> simp

theorem and_not_pow_and_other (c m i j : Nat) (h : i ≠ j) (hm : m.testBit j = true) :
    (c &&& (m ^^^ 2 ^ i)) &&& 2 ^ j = c &&& 2 ^ j := by
  rw [Nat.and_two_pow, Nat.and_two_pow, Nat.testBit_and, Nat.testBit_xor, Nat.testBit_two_pow]
  simp [h, hm]

theorem xor_and_pow_and_self (c i : Nat) : (c ^^^ (c &&& 2 ^ i)) &&& 2 ^ i = 0 := by
  rw [Nat.and_two_pow, Nat.testBit_xor, Nat.testBit_and, Nat.testBit_two_pow_self]
  cases c.testBit i <;> simp

theorem xor_and_pow_and_other (c i j : Nat) (h : i ≠ j) :
    (c ^^^ (c &&& 2 ^ i)) &&& 2 ^ j = c &&& 2 ^ j := by
  apply Nat.eq_of_testBit_eq
  intro k
  simp only [Nat.testBit_and, Nat.testBit_xor, Nat.testBit_two_pow]
  by_cases hjk : j = k
  · have hik : ¬ i = k := by omega
    simp [hik]
  · simp [hjk]

namespace MiSTM32Fx

theorem TXEIE_after_enable (c : Nat) : (c ||| USART_CR1_TXEIE) &&& USART_CR1_TXEIE ≠ RESET := by
  have h := or_pow_and_self c 7
  show (c ||| 2 ^ 7) &&& 2 ^ 7 ≠ 0
  rw [h]; decide

theorem RXNEIE_after_TXEIE_enable (c : Nat) :
    (c ||| USART_CR1_TXEIE) &&& USART_CR1_RXNEIE = c &&& USART_CR1_RXNEIE :=
  or_pow_and_other c 7 5 (by decide)

theorem TXEIE_after_disable (c : Nat) :
    (c &&& (0xFFFFFFFF ^^^ USART_CR1_TXEIE)) &&& USART_CR1_TXEIE = RESET := by
  have h := and_not_pow_and_self c 0xFFFFFFFF 7
  have h2 : (0xFFFFFFFF : Nat) &&& 2 ^ 7 = 2 ^ 7 := by decide
  have h3 : c &&& 2 ^ 7 ≤ 2 ^ 7 := Nat.and_le_right
  rw [h2] at h
  show (c &&& (0xFFFFFFFF ^^^ 2 ^ 7)) &&& 2 ^ 7 = 0
  omega

theorem RXNEIE_after_TXEIE_disable (c : Nat) :
    (c &&& (0xFFFFFFFF ^^^ USART_CR1_TXEIE)) &&& USART_CR1_RXNEIE = c &&& USART_CR1_RXNEIE :=
  and_not_pow_and_other c 0xFFFFFFFF 7 5 (by decide) (by decide)

theorem TXEIE_after_UE (c : Nat) :
    (c ||| USART_CR1_UE) &&& USART_CR1_TXEIE = c &&& USART_CR1_TXEIE :=
  or_pow_and_other c 13 7 (by decide)

theorem RXNEIE_after_UE (c : Nat) :
    (c ||| USART_CR1_UE) &&& USART_CR1_RXNEIE = c &&& USART_CR1_RXNEIE :=
  or_pow_and_other c 13 5 (by decide)

theorem waitTXE_loop_frame (n : Nat) (h : USART_TypeDef) :
    (waitTXE_loop n h).TDR = h.TDR ∧ (waitTXE_loop n h).CR1 = h.CR1 ∧
      (waitTXE_loop n h).DR = h.DR ∧ (waitTXE_loop n h).txLatency = h.txLatency := by
  induction n generalizing h with
  | zero => unfold waitTXE_loop; split <;> simp
  | succ n ih =>
    unfold waitTXE_loop
    split
    · have := ih { h with txeIn := n }
      simpa using this
    · simp

theorem waitTXE_loop_ready (n : Nat) (h : USART_TypeDef) :
    __HAL_UART_GET_FLAG (waitTXE_loop n h) UART_FLAG_TXE ≠ RESET := by
  induction n generalizing h with
  | zero =>
    unfold waitTXE_loop
    split
    · have h1 := or_pow_and_self h.SR 7
      have : (h.SR ||| USART_SR_TXE) &&& UART_FLAG_TXE = UART_FLAG_TXE := h1
      simp [__HAL_UART_GET_FLAG, this, SET, RESET]
    · assumption
  | succ n ih =>
    unfold waitTXE_loop
    split
    · exact ih _
    · assumption

theorem PoleSingleTransmit_TDR (u : UARTDevice) (d : Nat) :
    (PoleSingleTransmit u d).UART_Handle.TDR = u.UART_Handle.TDR ++ [d] := by
  simp only [PoleSingleTransmit, writeDR, waitTXE]
  rw [(waitTXE_loop_frame _ _).1]
  split <;> simp [__HAL_UART_ENABLE]

theorem PoleSingleTransmit_frame (u : UARTDevice) (d : Nat) :
    (PoleSingleTransmit u d).Flt = u.Flt ∧ (PoleSingleTransmit u d).Receive = u.Receive ∧
      (PoleSingleTransmit u d).Transmit = u.Transmit := ⟨rfl, rfl, rfl⟩

theorem PoleSingleTransmit_armed (u : UARTDevice) (d : Nat) :
    (transmitArmed (PoleSingleTransmit u d) ↔ transmitArmed u) ∧
      (receiveArmed (PoleSingleTransmit u d) ↔ receiveArmed u) := by
  simp only [transmitArmed, receiveArmed, PoleSingleTransmit, writeDR, waitTXE]
  rw [(waitTXE_loop_frame _ _).2.1]
  split
  · simp [__HAL_UART_ENABLE, TXEIE_after_UE, RXNEIE_after_UE]
  · simp

theorem PoleTransmit_loop_eq (p : List Nat) (u : UARTDevice) :
    PoleTransmit_loop p.length p u = some (p.foldl PoleSingleTransmit u) := by
  induction p generalizing u with
  | nil => rfl
  | cons d p ih => simp [PoleTransmit_loop, ih]

theorem foldl_PoleSingleTransmit_TDR (p : List Nat) (u : UARTDevice) :
    (p.foldl PoleSingleTransmit u).UART_Handle.TDR = u.UART_Handle.TDR ++ p := by
  induction p generalizing u with
  | nil => simp
  | cons d p ih => simp [ih, PoleSingleTransmit_TDR]

theorem foldl_PoleSingleTransmit_frame (p : List Nat) (u : UARTDevice) :
    (p.foldl PoleSingleTransmit u).Receive = u.Receive ∧
      (p.foldl PoleSingleTransmit u).Transmit = u.Transmit ∧
      ((transmitArmed (p.foldl PoleSingleTransmit u) ↔ transmitArmed u) ∧
       (receiveArmed (p.foldl PoleSingleTransmit u) ↔ receiveArmed u)) := by
  induction p generalizing u with
  | nil => simp
  | cons d p ih =>
    obtain ⟨h1, h2, h3, h4⟩ := ih (PoleSingleTransmit u d)
    have ha := PoleSingleTransmit_armed u d
    simp only [List.foldl_cons]
    exact ⟨h1, h2, h3.trans ha.1, h4.trans ha.2⟩

end MiSTM32Fx

namespace MiRaspbPi

theorem EnabInter_self (reg bit : Nat) :
    UARTD_EnabInter reg bit &&& (0x01 <<< bit) = (0x01 <<< bit) := by
  simp only [UARTD_EnabInter, Nat.one_shiftLeft]
  exact or_pow_and_self reg bit

theorem EnabInter_other (reg bit other : Nat) (h : bit ≠ other) :
    UARTD_EnabInter reg bit &&& (0x01 <<< other) = reg &&& (0x01 <<< other) := by
  simp only [UARTD_EnabInter, Nat.one_shiftLeft]
  exact or_pow_and_other reg bit other h

theorem DisaInter_self (reg bit : Nat) :
    UARTD_DisaInter reg bit &&& (0x01 <<< bit) ≠ (0x01 <<< bit) := by
  simp only [UARTD_DisaInter, Nat.one_shiftLeft]
  rw [xor_and_pow_and_self]
  exact (Nat.pos_pow_of_pos bit (by decide)).ne

theorem DisaInter_other (reg bit other : Nat) (h : bit ≠ other) :
    UARTD_DisaInter reg bit &&& (0x01 <<< other) = reg &&& (0x01 <<< other) := by
  simp only [UARTD_DisaInter, Nat.one_shiftLeft]
  exact xor_and_pow_and_other reg bit other h

theorem PoleTransmit_copy_eq (p : List Nat) :
    PoleTransmit_copy p.length p = some p := by
  induction p with
  | nil => rfl
  | cons d p ih => simp [PoleTransmit_copy, ih]

end MiRaspbPi

namespace GenBuffer

theorem OutputRead_Empty_unchanged (b : GenBuffer) (h : b.OutputRead.1 = GenBuffer_Empty) :
    b.OutputRead = (GenBuffer_Empty, none, b) := by
  unfold OutputRead at h ⊢
  split
  · rfl
  · rename_i hne
    simp [hne] at h

theorem OutputRead_Empty_iff (b : GenBuffer) (h : b.WF) :
    b.OutputRead.1 = GenBuffer_Empty ↔ b.count = 0 := by
  constructor
  · intro he
    by_contra hne
    obtain ⟨x, hx, _⟩ := OutputRead_queued b h hne
    rw [hx] at he
    simp at he
  · intro hc
    rw [OutputRead_empty b h hc]

theorem queued_eq_nil_iff (b : GenBuffer) : b.queued = [] ↔ b.count = 0 := by
  rw [← List.length_eq_zero, queued_length]

end GenBuffer

namespace MiSTM32Fx

theorem IRQHandle_receive_frame_stm32 (isrflags cr1its tempdata : Nat) (u : UARTDevice) :
    (IRQHandle_receive isrflags cr1its tempdata u).2.Transmit = u.Transmit ∧
      (IRQHandle_receive isrflags cr1its tempdata u).2.Flt = u.Flt ∧
      (IRQHandle_receive isrflags cr1its tempdata u).2.UART_Handle.TDR = u.UART_Handle.TDR ∧
      (IRQHandle_receive isrflags cr1its tempdata u).2.UART_Handle.CR1 = u.UART_Handle.CR1 := by
  unfold IRQHandle_receive
  split <;> simp [readDR]

theorem IRQHandle_transmit_byte_eq (isrflags cr1its tempdata : Nat) (u : UARTDevice)
    (hc : isrflags &&& USART_SR_TXE ≠ RESET ∧ cr1its &&& USART_CR1_TXEIE ≠ RESET)
    (x : Nat) (b : GenBuffer) (hx : u.Transmit.OutputRead = (GenBuffer_NewData, some x, b)) :
    IRQHandle_transmit isrflags cr1its tempdata u
      = { u with Transmit := b, UART_Handle := writeDR u.UART_Handle x } := by
  unfold IRQHandle_transmit
  rw [if_pos hc, hx]
  simp

theorem IRQHandle_transmit_empty_eq (isrflags cr1its tempdata : Nat) (u : UARTDevice)
    (hc : isrflags &&& USART_SR_TXE ≠ RESET ∧ cr1its &&& USART_CR1_TXEIE ≠ RESET)
    (hx : u.Transmit.OutputRead.1 = GenBuffer_Empty) :
    IRQHandle_transmit isrflags cr1its tempdata u = TransmitITDisable u := by
  unfold IRQHandle_transmit
  rw [if_pos hc, GenBuffer.OutputRead_Empty_unchanged _ hx]
  simp

theorem IRQHandle_transmit_idle_eq (isrflags cr1its tempdata : Nat) (u : UARTDevice)
    (hc : ¬ (isrflags &&& USART_SR_TXE ≠ RESET ∧ cr1its &&& USART_CR1_TXEIE ≠ RESET)) :
    IRQHandle_transmit isrflags cr1its tempdata u = u := by
  unfold IRQHandle_transmit
  rw [if_neg hc]

theorem OutputRead_cases (b : GenBuffer) :
    b.OutputRead.1 = GenBuffer_Empty ∨
      ∃ x, b.OutputRead = (GenBuffer_NewData, some x, b.OutputRead.2.2) := by
  unfold GenBuffer.OutputRead
  split
  · exact Or.inl rfl
  · exact Or.inr ⟨_, rfl⟩

theorem IRQHandle_transmit_frame (isrflags cr1its tempdata : Nat) (u : UARTDevice) :
    (IRQHandle_transmit isrflags cr1its tempdata u).Receive = u.Receive ∧
      (IRQHandle_transmit isrflags cr1its tempdata u).Flt = u.Flt ∧
      (IRQHandle_transmit isrflags cr1its tempdata u).UART_Handle.DR = u.UART_Handle.DR ∧
      (receiveArmed (IRQHandle_transmit isrflags cr1its tempdata u) ↔ receiveArmed u) := by
  by_cases hc : isrflags &&& USART_SR_TXE ≠ RESET ∧ cr1its &&& USART_CR1_TXEIE ≠ RESET
  · rcases OutputRead_cases u.Transmit with he | ⟨x, hx⟩
    · rw [IRQHandle_transmit_empty_eq _ _ _ _ hc he]
      simp [TransmitITDisable, __HAL_UART_DISABLE_IT, receiveArmed, UART_IT_TXE,
        RXNEIE_after_TXEIE_disable]
    · rw [IRQHandle_transmit_byte_eq _ _ _ _ hc x _ hx]
      simp [writeDR, receiveArmed]
  · rw [IRQHandle_transmit_idle_eq _ _ _ _ hc]
    simp

theorem IRQHandle_eq (u : UARTDevice) :
    IRQHandle u = IRQHandle_transmit u.UART_Handle.SR u.UART_Handle.CR1
      (IRQHandle_receive u.UART_Handle.SR u.UART_Handle.CR1 0x00 u).1
      (IRQHandle_receive u.UART_Handle.SR u.UART_Handle.CR1 0x00 u).2 := rfl

/-- Transmit step of one invocation when the direction is armed, the transport ready and the
Transmit buffer empty. -/
theorem IRQHandle_transmit_empty (u : UARTDevice) (hr : transmitReady u) (ha : transmitArmed u)
    (hwf : u.Transmit.WF) (he : u.Transmit.count = 0) :
    (IRQHandle u).UART_Handle.TDR = u.UART_Handle.TDR ∧ (IRQHandle u).Transmit = u.Transmit ∧
      ¬ transmitArmed (IRQHandle u) := by
  obtain ⟨h1, _, h3, h4⟩ := IRQHandle_receive_frame_stm32 u.UART_Handle.SR u.UART_Handle.CR1 0x00 u
  have hc : u.UART_Handle.SR &&& USART_SR_TXE ≠ RESET ∧
      u.UART_Handle.CR1 &&& USART_CR1_TXEIE ≠ RESET := ⟨hr, ha⟩
  have hrd : (IRQHandle_receive u.UART_Handle.SR u.UART_Handle.CR1 0x00 u).2.Transmit.OutputRead.1
      = GenBuffer_Empty := by
    rw [h1, GenBuffer.OutputRead_empty _ hwf he]
  rw [IRQHandle_eq, IRQHandle_transmit_empty_eq _ _ _ _ hc hrd]
  refine ⟨h3, h1, ?_⟩
  simp [TransmitITDisable, __HAL_UART_DISABLE_IT, transmitArmed, UART_IT_TXE,
    TXEIE_after_disable]

/-- Transmit step of one invocation when the direction is armed, the transport ready and the
Transmit buffer holds a byte. -/
theorem IRQHandle_transmit_byte (u : UARTDevice) (hr : transmitReady u) (ha : transmitArmed u)
    (hwf : u.Transmit.WF) (hne : u.Transmit.count ≠ 0) :
    ∃ x, u.Transmit.queued = x :: (IRQHandle u).Transmit.queued ∧
      (IRQHandle u).UART_Handle.TDR = u.UART_Handle.TDR ++ [x] ∧
      transmitArmed (IRQHandle u) ∧ (IRQHandle u).Transmit.WF := by
  obtain ⟨h1, _, h3, h4⟩ := IRQHandle_receive_frame_stm32 u.UART_Handle.SR u.UART_Handle.CR1 0x00 u
  obtain ⟨x, hx, hq⟩ := GenBuffer.OutputRead_queued _ hwf hne
  have hw := GenBuffer.OutputRead_WF _ hwf
  have hc : u.UART_Handle.SR &&& USART_SR_TXE ≠ RESET ∧
      u.UART_Handle.CR1 &&& USART_CR1_TXEIE ≠ RESET := ⟨hr, ha⟩
  rw [← h1] at hx
  rw [IRQHandle_eq, IRQHandle_transmit_byte_eq _ _ _ _ hc x _ hx]
  refine ⟨x, ?_, ?_, ?_, ?_⟩
  · simpa [h1] using hq
  · simp [writeDR, h3]
  · simpa [transmitArmed, writeDR, h4] using ha
  · simpa [h1] using hw

/-- An invocation that finds the transmit direction disarmed or the transport not ready
leaves the transport output, the Transmit buffer and the transmit arm flag alone. -/
theorem IRQHandle_transmit_idle (u : UARTDevice) (h : ¬ (transmitReady u ∧ transmitArmed u)) :
    (IRQHandle u).UART_Handle.TDR = u.UART_Handle.TDR ∧ (IRQHandle u).Transmit = u.Transmit ∧
      (transmitArmed (IRQHandle u) ↔ transmitArmed u) := by
  obtain ⟨h1, _, h3, h4⟩ := IRQHandle_receive_frame_stm32 u.UART_Handle.SR u.UART_Handle.CR1 0x00 u
  have hc : ¬ (u.UART_Handle.SR &&& USART_SR_TXE ≠ RESET ∧
      u.UART_Handle.CR1 &&& USART_CR1_TXEIE ≠ RESET) := h
  rw [IRQHandle_eq, IRQHandle_transmit_idle_eq _ _ _ _ hc]
  exact ⟨h3, h1, by simp only [transmitArmed]; rw [h4]⟩

theorem peripheral_frame (sr dr : Nat) (u : UARTDevice) :
    (peripheral sr dr u).Transmit = u.Transmit ∧ (peripheral sr dr u).Receive = u.Receive ∧
      (peripheral sr dr u).Flt = u.Flt ∧
      (peripheral sr dr u).UART_Handle.TDR = u.UART_Handle.TDR ∧
      (peripheral sr dr u).UART_Handle.CR1 = u.UART_Handle.CR1 ∧
      (peripheral sr dr u).UART_Handle.SR = sr ∧ (peripheral sr dr u).UART_Handle.DR = dr :=
  ⟨rfl, rfl, rfl, rfl, rfl, rfl, rfl⟩

end MiSTM32Fx

namespace MiRaspbPi

theorem toUInt8_byte (c : Nat) : toUInt8 ((c % 256 : Nat) : Int) = c % 256 := by
  unfold toUInt8
  omega

theorem IRQHandle_receiveLoop_frame (n : Nat) (u : UARTDevice) :
    (IRQHandle_receiveLoop n u).Transmit = u.Transmit ∧
      (IRQHandle_receiveLoop n u).pseudo_interrupt = u.pseudo_interrupt ∧
      (IRQHandle_receiveLoop n u).Flt = u.Flt ∧
      (IRQHandle_receiveLoop n u).UART_Handle.tx = u.UART_Handle.tx := by
  induction n generalizing u with
  | zero => exact ⟨rfl, rfl, rfl, rfl⟩
  | succ n ih =>
    unfold IRQHandle_receiveLoop
    obtain ⟨h1, h2, h3, h4⟩ := ih
      { u with UART_Handle := (serialGetchar u.UART_Handle).2,
               Receive := (u.Receive.InputWrite (toUInt8 (serialGetchar u.UART_Handle).1)).2 }
    refine ⟨h1, h2, h3, ?_⟩
    rw [h4]
    unfold serialGetchar
    split <;> rfl

/-- The receive loop run for `n` bytes that are waiting: it takes them from the device in
arrival order and writes each, converted to `uint8_t`, to the Receive buffer. -/
theorem IRQHandle_receiveLoop_eq (n : Nat) (u : UARTDevice) (h : n ≤ u.UART_Handle.rx.length) :
    (IRQHandle_receiveLoop n u).UART_Handle.rx = u.UART_Handle.rx.drop n ∧
      (IRQHandle_receiveLoop n u).Receive =
        ((u.UART_Handle.rx.take n).map (fun c => c % 256)).foldl
          (fun b d => (b.InputWrite d).2) u.Receive := by
  induction n generalizing u with
  | zero => exact ⟨rfl, rfl⟩
  | succ n ih =>
    cases hrx : u.UART_Handle.rx with
    | nil => rw [hrx] at h; simp at h
    | cons c rest =>
      have hg : serialGetchar u.UART_Handle
          = (((c % 256 : Nat) : Int), { u.UART_Handle with rx := rest }) := by
        simp [serialGetchar, hrx]
      unfold IRQHandle_receiveLoop
      simp only [hg, toUInt8_byte]
      have hl : n ≤ rest.length := by rw [hrx] at h; simpa using h
      obtain ⟨h1, h2⟩ := ih
        { u with UART_Handle := { u.UART_Handle with rx := rest },
                 Receive := (u.Receive.InputWrite (c % 256)).2 } hl
      exact ⟨by simpa using h1, by simpa using h2⟩

end MiRaspbPi

namespace GenBuffer

/-- Writing a list of values one after the other into a buffer that has room for all of them
queues them behind what is already queued. -/
theorem foldl_InputWrite_queued (ds : List Nat) (b : GenBuffer) (h : b.WF)
    (hroom : b.count + ds.length < b.capacity) :
    (ds.foldl (fun b d => (b.InputWrite d).2) b).queued = b.queued ++ ds ∧
      (ds.foldl (fun b d => (b.InputWrite d).2) b).WF ∧
      (ds.foldl (fun b d => (b.InputWrite d).2) b).count = b.count + ds.length ∧
      (ds.foldl (fun b d => (b.InputWrite d).2) b).capacity = b.capacity := by
  induction ds generalizing b with
  | nil => simp [h]
  | cons d ds ih =>
    simp only [List.length_cons] at hroom
    have hw := InputWrite_WF b d h
    have hc := InputWrite_count b d h (by omega)
    have hq := InputWrite_queued b d h (by omega)
    have hcap : (b.InputWrite d).2.capacity = b.capacity := by
      unfold InputWrite; split <;> rfl
    obtain ⟨h1, h2, h3, h4⟩ := ih (b.InputWrite d).2 hw (by rw [hc, hcap]; omega)
    simp only [List.foldl_cons, List.length_cons]
    refine ⟨?_, h2, ?_, ?_⟩
    · rw [h1, hq]; simp
    · rw [h3, hc]; omega
    · rw [h4, hcap]

end GenBuffer

namespace MiRaspbPi

theorem IRQHandle_transmitLoop_empty (fuel tempdata : Nat) (u : UARTDevice)
    (h : u.Transmit.isEmpty = true) :
    IRQHandle_transmitLoop (fuel + 1) tempdata u = some (tempdata, u) := by
  unfold IRQHandle_transmitLoop
  simp [GenBuffer.OutputRead, h]

/-- When the transmit loop ends, the read it ended on returned `GenBuffer_Empty`: the buffer it
leaves is one on which a read returns `GenBuffer_Empty`. -/
theorem IRQHandle_transmitLoop_last (fuel tempdata : Nat) (u : UARTDevice)
    (r : Nat × UARTDevice) (h : IRQHandle_transmitLoop fuel tempdata u = some r) :
    r.2.Transmit.OutputRead.1 = GenBuffer_Empty := by
  induction fuel generalizing tempdata u with
  | zero => simp [IRQHandle_transmitLoop] at h
  | succ fuel ih =>
    unfold IRQHandle_transmitLoop at h
    simp only [] at h
    split at h
    · exact ih _ _ h
    · rename_i hne
      have he : u.Transmit.OutputRead.1 = GenBuffer_Empty := by simpa using hne
      have := GenBuffer.OutputRead_Empty_unchanged _ he
      simp only [Option.some.injEq] at h
      rw [← h]
      simp [this]

/-- The transmit loop on a well formed Transmit buffer, with more fuel than bytes queued: it
ends, every queued byte has gone to the device in queue order, and the buffer is empty. -/
theorem IRQHandle_transmitLoop_drain (fuel tempdata : Nat) (u : UARTDevice)
    (hwf : u.Transmit.WF) (hf : u.Transmit.count < fuel) :
    ∃ r, IRQHandle_transmitLoop fuel tempdata u = some r ∧
      r.2.UART_Handle.tx = u.UART_Handle.tx ++ u.Transmit.queued ∧
      r.2.Transmit.count = 0 ∧ r.2.Transmit.WF ∧
      r.2.Transmit.capacity = u.Transmit.capacity ∧
      r.2.Receive = u.Receive ∧ r.2.pseudo_interrupt = u.pseudo_interrupt ∧
      r.2.Flt = u.Flt ∧ r.2.UART_Handle.rx = u.UART_Handle.rx ∧
      r.2.UART_Handle.later = u.UART_Handle.later := by
  induction fuel generalizing tempdata u with
  | zero => omega
  | succ fuel ih =>
    by_cases hc : u.Transmit.count = 0
    · have he := GenBuffer.OutputRead_empty _ hwf hc
      have hq := (GenBuffer.queued_eq_nil_iff _).2 hc
      refine ⟨(tempdata, u), ?_, ?_, hc, hwf, rfl, rfl, rfl, rfl, rfl, rfl⟩
      · unfold IRQHandle_transmitLoop
        simp [he]
      · simp [hq]
    · obtain ⟨x, hx, hq⟩ := GenBuffer.OutputRead_queued _ hwf hc
      have hw := GenBuffer.OutputRead_WF _ hwf
      have hcnt := GenBuffer.OutputRead_count _ hwf hc
      have hcap : u.Transmit.OutputRead.2.2.capacity = u.Transmit.capacity := by
        unfold GenBuffer.OutputRead; split <;> rfl
      obtain ⟨r, h1, h2, h3, h4, h5, h6, h7, h8, h9, h10⟩ := ih x
        (PoleSingleTransmit { u with Transmit := u.Transmit.OutputRead.2.2 } x) hw
        (by simp only [PoleSingleTransmit]; omega)
      refine ⟨r, ?_, ?_, h3, h4, ?_, h6, h7, h8, h9, h10⟩
      · unfold IRQHandle_transmitLoop
        simp only []
        rw [hx]
        simpa using h1
      · rw [h2, hq]
        simp [PoleSingleTransmit, serialPutchar]
      · rw [h5]; exact hcap

end MiRaspbPi

namespace MiRaspbPi

theorem IRQHandle_receive_frame_rpi (rxBit : Nat) (u : UARTDevice) :
    (IRQHandle_receive rxBit u).Transmit = u.Transmit ∧
      (IRQHandle_receive rxBit u).pseudo_interrupt = u.pseudo_interrupt ∧
      (IRQHandle_receive rxBit u).Flt = u.Flt ∧
      (IRQHandle_receive rxBit u).UART_Handle.tx = u.UART_Handle.tx := by
  unfold IRQHandle_receive
  split
  · exact IRQHandle_receiveLoop_frame _ u
  · exact ⟨rfl, rfl, rfl, rfl⟩

/-- Receive step with the direction armed: every waiting byte is taken from the device and
written, in arrival order, to the Receive buffer. -/
theorem IRQHandle_receive_armed_rpi (rxBit : Nat) (u : UARTDevice) (h : receiveArmed rxBit u) :
    (IRQHandle_receive rxBit u).UART_Handle.rx = [] ∧
      (IRQHandle_receive rxBit u).Receive =
        (u.UART_Handle.rx.map (fun c => c % 256)).foldl
          (fun b d => (b.InputWrite d).2) u.Receive := by
  unfold IRQHandle_receive
  rw [if_pos (show u.pseudo_interrupt &&& (0x01 <<< rxBit) = (0x01 <<< rxBit) from h)]
  have := IRQHandle_receiveLoop_eq u.UART_Handle.rx.length u (Nat.le_refl _)
  simpa [serialDataAvail] using this

theorem IRQHandle_receive_disarmed (rxBit : Nat) (u : UARTDevice) (h : ¬ receiveArmed rxBit u) :
    IRQHandle_receive rxBit u = u := by
  unfold IRQHandle_receive
  rw [if_neg (show ¬ u.pseudo_interrupt &&& (0x01 <<< rxBit) = (0x01 <<< rxBit) from h)]

theorem IRQHandle_transmit_disarmed (txBit fuel tempdata : Nat) (u : UARTDevice)
    (h : ¬ transmitArmed txBit u) : IRQHandle_transmit txBit fuel tempdata u = some u := by
  unfold IRQHandle_transmit
  rw [if_neg (show ¬ u.pseudo_interrupt &&& (0x01 <<< txBit) = (0x01 <<< txBit) from h)]

theorem TransmitITDisable_disarmed (txBit : Nat) (u : UARTDevice) :
    ¬ transmitArmed txBit (TransmitITDisable txBit u) :=
  DisaInter_self u.pseudo_interrupt txBit

/-- Transmit step with the direction armed, on a well formed Transmit buffer and with more
fuel than bytes queued. -/
theorem IRQHandle_transmit_armed (txBit fuel tempdata : Nat) (u : UARTDevice)
    (ha : transmitArmed txBit u) (hwf : u.Transmit.WF) (hf : u.Transmit.count < fuel) :
    ∃ u1, IRQHandle_transmit txBit fuel tempdata u = some u1 ∧
      u1.UART_Handle.tx = u.UART_Handle.tx ++ u.Transmit.queued ∧
      u1.Transmit.count = 0 ∧ u1.Transmit.WF ∧ u1.Transmit.capacity = u.Transmit.capacity ∧
      ¬ transmitArmed txBit u1 ∧
      u1.Receive = u.Receive ∧ u1.Flt = u.Flt ∧ u1.UART_Handle.rx = u.UART_Handle.rx ∧
      u1.pseudo_interrupt = UARTD_DisaInter u.pseudo_interrupt txBit := by
  obtain ⟨r, h1, h2, h3, h4, h5, h6, h7, h8, h9, _⟩ :=
    IRQHandle_transmitLoop_drain fuel tempdata u hwf hf
  refine ⟨TransmitITDisable txBit r.2, ?_, h2, h3, h4, h5, TransmitITDisable_disarmed _ _,
    h6, h8, h9, ?_⟩
  · unfold IRQHandle_transmit
    rw [if_pos (show u.pseudo_interrupt &&& (0x01 <<< txBit) = (0x01 <<< txBit) from ha), h1]
    rfl
  · simp [TransmitITDisable, h7]

/-- An invocation that finds the transmit direction disarmed ends, and leaves the transport
output, the Transmit buffer and the pseudo interrupt register alone. -/
theorem IRQHandle_disarmed (rxBit txBit fuel tempdata : Nat) (u : UARTDevice)
    (h : ¬ transmitArmed txBit u) :
    IRQHandle rxBit txBit fuel tempdata u = some (IRQHandle_receive rxBit u) ∧
      (IRQHandle_receive rxBit u).UART_Handle.tx = u.UART_Handle.tx ∧
      (IRQHandle_receive rxBit u).Transmit = u.Transmit ∧
      ¬ transmitArmed txBit (IRQHandle_receive rxBit u) := by
  obtain ⟨h1, h2, _, h4⟩ := IRQHandle_receive_frame_rpi rxBit u
  have hn : ¬ transmitArmed txBit (IRQHandle_receive rxBit u) := by
    simpa only [transmitArmed, h2] using h
  exact ⟨IRQHandle_transmit_disarmed _ _ _ _ hn, h4, h1, hn⟩

/-- An invocation that finds the transmit direction armed, on a well formed Transmit buffer
and with more fuel than bytes queued. -/
theorem IRQHandle_armed (rxBit txBit fuel tempdata : Nat) (u : UARTDevice)
    (ha : transmitArmed txBit u) (hwf : u.Transmit.WF) (hf : u.Transmit.count < fuel) :
    ∃ u1, IRQHandle rxBit txBit fuel tempdata u = some u1 ∧
      u1.UART_Handle.tx = u.UART_Handle.tx ++ u.Transmit.queued ∧
      u1.Transmit.count = 0 ∧ u1.Transmit.WF ∧ u1.Transmit.capacity = u.Transmit.capacity ∧
      ¬ transmitArmed txBit u1 ∧
      u1.Receive = (IRQHandle_receive rxBit u).Receive ∧ u1.Flt = u.Flt ∧
      u1.pseudo_interrupt = UARTD_DisaInter u.pseudo_interrupt txBit := by
  obtain ⟨h1, h2, h3, h4⟩ := IRQHandle_receive_frame_rpi rxBit u
  have ha1 : transmitArmed txBit (IRQHandle_receive rxBit u) := by
    simpa only [transmitArmed, h2] using ha
  obtain ⟨u1, e1, e2, e3, e4, e5, e6, e7, e8, _, e10⟩ :=
    IRQHandle_transmit_armed txBit fuel tempdata _ ha1 (by rw [h1]; exact hwf)
      (by rw [h1]; exact hf)
  exact ⟨u1, e1, by rw [e2, h4, h1], e3, e4, by rw [e5, h1], e6, e7, by rw [e8, h3],
    by rw [e10, h2]⟩

theorem arrival_frame (bytes : List Nat) (u : UARTDevice) :
    (arrival bytes u).Transmit = u.Transmit ∧ (arrival bytes u).Receive = u.Receive ∧
      (arrival bytes u).Flt = u.Flt ∧ (arrival bytes u).pseudo_interrupt = u.pseudo_interrupt ∧
      (arrival bytes u).UART_Handle.tx = u.UART_Handle.tx ∧
      (arrival bytes u).UART_Handle.rx = u.UART_Handle.rx ++ bytes :=
  ⟨rfl, rfl, rfl, rfl, rfl, rfl⟩

end MiRaspbPi

namespace MiSTM32Fx

/-- Invocations with the transport ready, one per queued byte: the bytes go out in queue
order, the buffer ends empty and the transmit direction is still armed. -/
theorem IRQHandle_run_drain (bs : List Nat) (es : List (Nat × Nat)) (u : UARTDevice)
    (hl : es.length = bs.length) (hr : ∀ e ∈ es, e.1 &&& USART_SR_TXE ≠ RESET)
    (hwf : u.Transmit.WF) (hq : u.Transmit.queued = bs) (ha : transmitArmed u) :
    (IRQHandle_run es u).Transmit.queued = [] ∧
      (IRQHandle_run es u).UART_Handle.TDR = u.UART_Handle.TDR ++ bs ∧
      transmitArmed (IRQHandle_run es u) ∧ (IRQHandle_run es u).Transmit.WF := by
  induction bs generalizing es u with
  | nil =>
    have : es = [] := List.length_eq_zero.mp hl
    subst this
    simp [IRQHandle_run, hq, ha, hwf]
  | cons b bs ih =>
    cases es with
    | nil => simp at hl
    | cons e es =>
      have hne : (peripheral e.1 e.2 u).Transmit.count ≠ 0 := by
        show u.Transmit.count ≠ 0
        rw [← GenBuffer.queued_length, hq]; simp
      obtain ⟨x, h1, h2, h3, h4⟩ := IRQHandle_transmit_byte (peripheral e.1 e.2 u)
        (hr e (List.mem_cons_self _ _)) ha hwf hne
      have hq1 : (peripheral e.1 e.2 u).Transmit.queued = b :: bs := hq
      rw [hq1] at h1
      injection h1 with hx hrest
      obtain ⟨i1, i2, i3, i4⟩ := ih es (IRQHandle (peripheral e.1 e.2 u))
        (by simpa using hl) (fun e' he' => hr e' (List.mem_cons_of_mem _ he')) h4 hrest.symm h3
      refine ⟨i1, ?_, i3, i4⟩
      show (IRQHandle_run es (IRQHandle (peripheral e.1 e.2 u))).UART_Handle.TDR = _
      rw [i2, h2, ← hx]
      show (u.UART_Handle.TDR ++ [b]) ++ bs = _
      simp

theorem IRQHandle_untilDisarmed_of_disarmed_stm32 (es : List (Nat × Nat)) (u : UARTDevice)
    (h : ¬ transmitArmed u) : IRQHandle_untilDisarmed es u = u := by
  cases es with
  | nil => rfl
  | cons e es => simp [IRQHandle_untilDisarmed, h]

/-- Invocations with the transport ready, repeated until the transmit direction is disarmed,
when there is at least one more invocation than bytes queued: the bytes go out in queue
order, each once, and the direction ends disarmed with the buffer empty. -/
theorem IRQHandle_untilDisarmed_drain_stm32 (bs : List Nat) (es : List (Nat × Nat)) (u : UARTDevice)
    (hl : bs.length < es.length) (hr : ∀ e ∈ es, e.1 &&& USART_SR_TXE ≠ RESET)
    (hwf : u.Transmit.WF) (hq : u.Transmit.queued = bs) (ha : transmitArmed u) :
    (IRQHandle_untilDisarmed es u).Transmit.queued = [] ∧
      (IRQHandle_untilDisarmed es u).UART_Handle.TDR = u.UART_Handle.TDR ++ bs ∧
      ¬ transmitArmed (IRQHandle_untilDisarmed es u) := by
  induction bs generalizing es u with
  | nil =>
    cases es with
    | nil => simp at hl
    | cons e es =>
      have hc : (peripheral e.1 e.2 u).Transmit.count = 0 :=
        (GenBuffer.queued_eq_nil_iff _).1 hq
      obtain ⟨h1, h2, h3⟩ := IRQHandle_transmit_empty (peripheral e.1 e.2 u)
        (hr e (List.mem_cons_self _ _)) ha hwf hc
      have : IRQHandle_untilDisarmed (e :: es) u = IRQHandle (peripheral e.1 e.2 u) := by
        simp only [IRQHandle_untilDisarmed, ha, if_true]
        exact IRQHandle_untilDisarmed_of_disarmed_stm32 _ _ h3
      rw [this]
      refine ⟨by rw [h2]; exact hq, by rw [h1]; simp [peripheral], h3⟩
  | cons b bs ih =>
    cases es with
    | nil => simp at hl
    | cons e es =>
      have hne : (peripheral e.1 e.2 u).Transmit.count ≠ 0 := by
        show u.Transmit.count ≠ 0
        rw [← GenBuffer.queued_length, hq]; simp
      obtain ⟨x, h1, h2, h3, h4⟩ := IRQHandle_transmit_byte (peripheral e.1 e.2 u)
        (hr e (List.mem_cons_self _ _)) ha hwf hne
      have hq1 : (peripheral e.1 e.2 u).Transmit.queued = b :: bs := hq
      rw [hq1] at h1
      injection h1 with hx hrest
      obtain ⟨i1, i2, i3⟩ := ih es (IRQHandle (peripheral e.1 e.2 u))
        (by simpa using hl) (fun e' he' => hr e' (List.mem_cons_of_mem _ he')) h4 hrest.symm h3
      have : IRQHandle_untilDisarmed (e :: es) u
          = IRQHandle_untilDisarmed es (IRQHandle (peripheral e.1 e.2 u)) := by
        simp only [IRQHandle_untilDisarmed, ha, if_true]
      rw [this]
      refine ⟨i1, ?_, i3⟩
      rw [i2, h2, ← hx]
      show (u.UART_Handle.TDR ++ [b]) ++ bs = _
      simp

theorem SingleTransmit_IT_frame_stm32 (u : UARTDevice) (d : Nat) :
    (SingleTransmit_IT u d).Transmit = (u.Transmit.InputWrite d).2 ∧
      transmitArmed (SingleTransmit_IT u d) ∧
      (receiveArmed (SingleTransmit_IT u d) ↔ receiveArmed u) ∧
      (SingleTransmit_IT u d).Receive = u.Receive ∧
      (SingleTransmit_IT u d).Flt = u.Flt ∧
      (SingleTransmit_IT u d).UART_Handle.TDR = u.UART_Handle.TDR ∧
      (SingleTransmit_IT u d).UART_Handle.SR = u.UART_Handle.SR ∧
      (SingleTransmit_IT u d).UART_Handle.DR = u.UART_Handle.DR := by
  refine ⟨rfl, ?_, ?_, rfl, rfl, rfl, rfl, rfl⟩
  · exact TXEIE_after_enable _
  · simp only [receiveArmed, SingleTransmit_IT, TransmitITEnable, __HAL_UART_ENABLE_IT,
      UART_IT_TXE, RXNEIE_after_TXEIE_enable]

/-- A call of `SingleTransmit_IT` per byte, on a well formed Transmit buffer with room for
all of them: the bytes are queued in call order behind what was queued. -/
theorem SingleTransmit_IT_each_queued_stm32 (bs : List Nat) (u : UARTDevice) (hwf : u.Transmit.WF)
    (hroom : u.Transmit.count + bs.length < u.Transmit.capacity) :
    (SingleTransmit_IT_each bs u).Transmit.queued = u.Transmit.queued ++ bs ∧
      (SingleTransmit_IT_each bs u).Transmit.WF ∧
      (SingleTransmit_IT_each bs u).UART_Handle.TDR = u.UART_Handle.TDR ∧
      (bs ≠ [] → transmitArmed (SingleTransmit_IT_each bs u)) ∧
      (bs = [] → SingleTransmit_IT_each bs u = u) := by
  induction bs generalizing u with
  | nil => simp [SingleTransmit_IT_each, hwf]
  | cons b bs ih =>
    simp only [List.length_cons] at hroom
    obtain ⟨f1, f2, _, _, _, f6, _, _⟩ := SingleTransmit_IT_frame_stm32 u b
    have hw := GenBuffer.InputWrite_WF u.Transmit b hwf
    have hc := GenBuffer.InputWrite_count u.Transmit b hwf (by omega)
    have hq := GenBuffer.InputWrite_queued u.Transmit b hwf (by omega)
    have hcap : (u.Transmit.InputWrite b).2.capacity = u.Transmit.capacity := by
      unfold GenBuffer.InputWrite; split <;> rfl
    obtain ⟨i1, i2, i3, i4, i5⟩ := ih (SingleTransmit_IT u b) (by rw [f1]; exact hw)
      (by rw [f1, hc, hcap]; omega)
    refine ⟨?_, i2, ?_, ?_, by simp⟩
    · show (SingleTransmit_IT_each bs (SingleTransmit_IT u b)).Transmit.queued = _
      rw [i1, f1, hq]; simp
    · show (SingleTransmit_IT_each bs (SingleTransmit_IT u b)).UART_Handle.TDR = _
      rw [i3, f6]
    · intro _
      show transmitArmed (SingleTransmit_IT_each bs (SingleTransmit_IT u b))
      by_cases hb : bs = []
      · rw [i5 hb]; exact f2
      · exact i4 hb

end MiSTM32Fx

namespace MiRaspbPi

theorem SingleTransmit_IT_frame_rpi (txBit : Nat) (u : UARTDevice) (d : Nat) :
    (SingleTransmit_IT txBit u d).Transmit = (u.Transmit.InputWrite d).2 ∧
      transmitArmed txBit (SingleTransmit_IT txBit u d) ∧
      (SingleTransmit_IT txBit u d).Receive = u.Receive ∧
      (SingleTransmit_IT txBit u d).Flt = u.Flt ∧
      (SingleTransmit_IT txBit u d).UART_Handle = u.UART_Handle ∧
      (∀ rxBit, rxBit ≠ txBit →
        (receiveArmed rxBit (SingleTransmit_IT txBit u d) ↔ receiveArmed rxBit u)) := by
  refine ⟨rfl, EnabInter_self _ _, rfl, rfl, rfl, ?_⟩
  intro rxBit h
  simp only [receiveArmed, SingleTransmit_IT, TransmitITEnable]
  rw [EnabInter_other _ _ _ (Ne.symm h)]

/-- A call of `SingleTransmit_IT` per byte, on a well formed Transmit buffer with room for
all of them: the bytes are queued in call order behind what was queued. -/
theorem SingleTransmit_IT_each_queued_rpi (txBit : Nat) (bs : List Nat) (u : UARTDevice)
    (hwf : u.Transmit.WF) (hroom : u.Transmit.count + bs.length < u.Transmit.capacity) :
    (SingleTransmit_IT_each txBit bs u).Transmit.queued = u.Transmit.queued ++ bs ∧
      (SingleTransmit_IT_each txBit bs u).Transmit.WF ∧
      (SingleTransmit_IT_each txBit bs u).UART_Handle = u.UART_Handle ∧
      (bs ≠ [] → transmitArmed txBit (SingleTransmit_IT_each txBit bs u)) ∧
      (bs = [] → SingleTransmit_IT_each txBit bs u = u) := by
  induction bs generalizing u with
  | nil => simp [SingleTransmit_IT_each, hwf]
  | cons b bs ih =>
    simp only [List.length_cons] at hroom
    obtain ⟨f1, f2, _, _, f5, _⟩ := SingleTransmit_IT_frame_rpi txBit u b
    have hw := GenBuffer.InputWrite_WF u.Transmit b hwf
    have hc := GenBuffer.InputWrite_count u.Transmit b hwf (by omega)
    have hq := GenBuffer.InputWrite_queued u.Transmit b hwf (by omega)
    have hcap : (u.Transmit.InputWrite b).2.capacity = u.Transmit.capacity := by
      unfold GenBuffer.InputWrite; split <;> rfl
    obtain ⟨i1, i2, i3, i4, i5⟩ := ih (SingleTransmit_IT txBit u b) (by rw [f1]; exact hw)
      (by rw [f1, hc, hcap]; omega)
    refine ⟨?_, i2, ?_, ?_, by simp⟩
    · show (SingleTransmit_IT_each txBit bs (SingleTransmit_IT txBit u b)).Transmit.queued = _
      rw [i1, f1, hq]; simp
    · show (SingleTransmit_IT_each txBit bs (SingleTransmit_IT txBit u b)).UART_Handle = _
      rw [i3, f5]
    · intro _
      show transmitArmed txBit (SingleTransmit_IT_each txBit bs (SingleTransmit_IT txBit u b))
      by_cases hb : bs = []
      · rw [i5 hb]; exact f2
      · exact i4 hb

/-- Invocations that start with the transmit direction disarmed all end, and none of them
writes to the transport or touches the Transmit buffer. -/
theorem IRQHandle_run_disarmed (rxBit txBit fuel tempdata : Nat) (as : List (List Nat))
    (u : UARTDevice) (h : ¬ transmitArmed txBit u) :
    ∃ u1, IRQHandle_run rxBit txBit fuel tempdata as u = some u1 ∧
      u1.UART_Handle.tx = u.UART_Handle.tx ∧ u1.Transmit = u.Transmit ∧
      ¬ transmitArmed txBit u1 := by
  induction as generalizing u with
  | nil => exact ⟨u, rfl, rfl, rfl, h⟩
  | cons a as ih =>
    obtain ⟨e1, e2, e3, e4⟩ := IRQHandle_disarmed rxBit txBit fuel tempdata (arrival a u) h
    obtain ⟨u1, i1, i2, i3, i4⟩ := ih (IRQHandle_receive rxBit (arrival a u)) e4
    refine ⟨u1, ?_, by rw [i2, e2]; rfl, by rw [i3, e3]; rfl, i4⟩
    simp only [IRQHandle_run, e1]
    exact i1

theorem IRQHandle_untilDisarmed_of_disarmed_rpi (rxBit txBit fuel tempdata : Nat)
    (as : List (List Nat)) (u : UARTDevice) (h : ¬ transmitArmed txBit u) :
    IRQHandle_untilDisarmed rxBit txBit fuel tempdata as u = some u := by
  cases as with
  | nil => rfl
  | cons a as => simp [IRQHandle_untilDisarmed, h]

/-- Invocations repeated until the transmit direction is disarmed, at least one of them, on a
well formed Transmit buffer and with more fuel than bytes queued: the first one sends every
queued byte in queue order and disarms the direction. -/
theorem IRQHandle_untilDisarmed_drain_rpi (rxBit txBit fuel tempdata : Nat)
    (as : List (List Nat)) (u : UARTDevice) (hne : as ≠ []) (ha : transmitArmed txBit u)
    (hwf : u.Transmit.WF) (hf : u.Transmit.count < fuel) :
    ∃ u1, IRQHandle_untilDisarmed rxBit txBit fuel tempdata as u = some u1 ∧
      u1.UART_Handle.tx = u.UART_Handle.tx ++ u.Transmit.queued ∧
      u1.Transmit.count = 0 ∧ ¬ transmitArmed txBit u1 := by
  cases as with
  | nil => exact absurd rfl hne
  | cons a as =>
    obtain ⟨u1, e1, e2, e3, _, _, e6, _⟩ :=
      IRQHandle_armed rxBit txBit fuel tempdata (arrival a u) ha hwf hf
    refine ⟨u1, ?_, e2, e3, e6⟩
    simp only [IRQHandle_untilDisarmed, ha, if_true, e1]
    exact IRQHandle_untilDisarmed_of_disarmed_rpi _ _ _ _ _ _ e6

end MiRaspbPi

namespace GenBuffer

theorem OutputRead_of_isEmpty (b : GenBuffer) (h : b.isEmpty = true) :
    b.OutputRead = (GenBuffer_Empty, none, b) := by
  simp [OutputRead, h]

/-- A read of a well formed buffer that is not empty delivers the oldest queued element and
removes only that element. -/
theorem OutputRead_of_not_isEmpty (b : GenBuffer) (hwf : b.WF) (h : b.isEmpty = false) :
    ∃ x rest, b.queued = x :: rest ∧ b.OutputRead.1 = GenBuffer_NewData ∧
      b.OutputRead.2.1 = some x ∧ b.OutputRead.2.2.queued = rest ∧ b.OutputRead.2.2.WF ∧
      b.OutputRead.2.2.capacity = b.capacity := by
  have hne : b.count ≠ 0 := by
    intro hc
    rw [(isEmpty_iff b hwf).2 hc] at h
    exact absurd h (by decide)
  obtain ⟨x, hx, hq⟩ := OutputRead_queued b hwf hne
  refine ⟨x, _, hq, by rw [hx], by rw [hx], rfl, OutputRead_WF b hwf, ?_⟩
  unfold OutputRead; split <;> rfl

end GenBuffer

namespace GenBuffer

/-- As many reads as elements are queued return the queued elements, oldest first, and leave
the buffer empty. -/
theorem OutputRead_times_queued (n : Nat) (b : GenBuffer) (hwf : b.WF) (hn : b.count = n) :
    (OutputRead_times n b).1 = b.queued.map (fun x => (GenBuffer_NewData, some x)) ∧
      (OutputRead_times n b).2.count = 0 ∧ (OutputRead_times n b).2.WF := by
  induction n generalizing b with
  | zero =>
    have := (queued_eq_nil_iff b).2 hn
    simp [OutputRead_times, this, hn, hwf]
  | succ n ih =>
    have hne : b.count ≠ 0 := by omega
    obtain ⟨x, hx, hq⟩ := OutputRead_queued b hwf hne
    have hc := OutputRead_count b hwf hne
    obtain ⟨i1, i2, i3⟩ := ih b.OutputRead.2.2 (OutputRead_WF b hwf) (by omega)
    unfold OutputRead_times
    refine ⟨?_, i2, i3⟩
    simp only []
    rw [i1, hq]
    rw [hx]
    simp

end GenBuffer

namespace MiSTM32Fx

theorem SingleRead_IT_times_eq_stm32 (n : Nat) (u : UARTDevice) :
    SingleRead_IT_times n u
      = ((GenBuffer.OutputRead_times n u.Receive).1,
          { u with Receive := (GenBuffer.OutputRead_times n u.Receive).2 }) := by
  induction n generalizing u with
  | zero => rfl
  | succ n ih =>
    unfold SingleRead_IT_times
    simp only []
    rw [ih]
    rfl

theorem SingleRead_IT_times_fst_stm32 (n : Nat) (u : UARTDevice) :
    (SingleRead_IT_times n u).1 = (GenBuffer.OutputRead_times n u.Receive).1 := by
  rw [SingleRead_IT_times_eq_stm32]

theorem IRQHandle_receive_armed_stm32 (u : UARTDevice) (tempdata : Nat)
    (ha : receiveArmed u) (hd : dataAvailable u) :
    (IRQHandle_receive u.UART_Handle.SR u.UART_Handle.CR1 tempdata u).2.Receive
        = (u.Receive.InputWrite (u.UART_Handle.DR % 256)).2 ∧
      (IRQHandle_receive u.UART_Handle.SR u.UART_Handle.CR1 tempdata u).2.UART_Handle.SR
        = u.UART_Handle.SR &&& (0xFFFFFFFF ^^^ USART_SR_RXNE) := by
  have hc : u.UART_Handle.SR &&& USART_SR_RXNE ≠ RESET ∧
      u.UART_Handle.CR1 &&& USART_CR1_RXNEIE ≠ RESET := ⟨hd, ha⟩
  unfold IRQHandle_receive
  rw [if_pos hc]
  exact ⟨rfl, rfl⟩

theorem RXNE_after_read (s : Nat) :
    (s &&& (0xFFFFFFFF ^^^ USART_SR_RXNE)) &&& USART_SR_RXNE = RESET := by
  have h := and_not_pow_and_self s 0xFFFFFFFF 5
  have h2 : (0xFFFFFFFF : Nat) &&& 2 ^ 5 = 2 ^ 5 := by decide
  have h3 : s &&& 2 ^ 5 ≤ 2 ^ 5 := Nat.and_le_right
  rw [h2] at h
  show (s &&& (0xFFFFFFFF ^^^ 2 ^ 5)) &&& 2 ^ 5 = 0
  omega

theorem RXNE_after_write (s : Nat) :
    (s &&& (0xFFFFFFFF ^^^ USART_SR_TXE)) &&& USART_SR_RXNE = s &&& USART_SR_RXNE :=
  and_not_pow_and_other s 0xFFFFFFFF 7 5 (by decide) (by decide)

theorem IRQHandle_transmit_SR (isrflags cr1its tempdata : Nat) (u : UARTDevice) :
    (IRQHandle_transmit isrflags cr1its tempdata u).UART_Handle.SR &&& USART_SR_RXNE
      = u.UART_Handle.SR &&& USART_SR_RXNE := by
  by_cases hc : isrflags &&& USART_SR_TXE ≠ RESET ∧ cr1its &&& USART_CR1_TXEIE ≠ RESET
  · rcases OutputRead_cases u.Transmit with he | ⟨x, hx⟩
    · rw [IRQHandle_transmit_empty_eq _ _ _ _ hc he]
      rfl
    · rw [IRQHandle_transmit_byte_eq _ _ _ _ hc x _ hx]
      exact RXNE_after_write _
  · rw [IRQHandle_transmit_idle_eq _ _ _ _ hc]

end MiSTM32Fx

namespace MiRaspbPi

theorem SingleRead_IT_times_eq_rpi (n : Nat) (u : UARTDevice) :
    SingleRead_IT_times n u
      = ((GenBuffer.OutputRead_times n u.Receive).1,
          { u with Receive := (GenBuffer.OutputRead_times n u.Receive).2 }) := by
  induction n generalizing u with
  | zero => rfl
  | succ n ih =>
    unfold SingleRead_IT_times
    simp only []
    rw [ih]
    rfl

theorem SingleRead_IT_times_fst_rpi (n : Nat) (u : UARTDevice) :
    (SingleRead_IT_times n u).1 = (GenBuffer.OutputRead_times n u.Receive).1 := by
  rw [SingleRead_IT_times_eq_rpi]

theorem map_mod_of_bytes (l : List Nat) (h : ∀ c ∈ l, c < 256) :
    l.map (fun c => c % 256) = l := by
  induction l with
  | nil => rfl
  | cons c l ih =>
    have hc : c % 256 = c := Nat.mod_eq_of_lt (h c (List.mem_cons_self _ _))
    simp only [List.map_cons, hc]
    rw [ih (fun x hx => h x (List.mem_cons_of_mem _ hx))]

/-- An invocation ends once its transmit step ends: with the transmit direction disarmed at
once, with it armed when the Transmit buffer is well formed and the fuel exceeds the number of
bytes queued.  The Receive buffer and the waiting bytes are those the receive step left. -/
theorem IRQHandle_ends (rxBit txBit fuel tempdata : Nat) (u : UARTDevice)
    (hwf : u.Transmit.WF) (hf : u.Transmit.count < fuel) :
    ∃ u1, IRQHandle rxBit txBit fuel tempdata u = some u1 ∧
      u1.Receive = (IRQHandle_receive rxBit u).Receive ∧
      u1.UART_Handle.rx = (IRQHandle_receive rxBit u).UART_Handle.rx := by
  obtain ⟨h1, h2, _, _⟩ := IRQHandle_receive_frame_rpi rxBit u
  by_cases ha : transmitArmed txBit u
  · have ha1 : transmitArmed txBit (IRQHandle_receive rxBit u) := by
      simpa only [transmitArmed, h2] using ha
    obtain ⟨u1, e1, _, _, _, _, _, e7, _, e9, _⟩ :=
      IRQHandle_transmit_armed txBit fuel tempdata _ ha1 (by rw [h1]; exact hwf)
        (by rw [h1]; exact hf)
    exact ⟨u1, e1, e7, e9⟩
  · obtain ⟨e1, _, _, _⟩ := IRQHandle_disarmed rxBit txBit fuel tempdata u ha
    exact ⟨_, e1, rfl, rfl⟩

end MiRaspbPi

namespace GenBuffer

theorem OutputRead_Empty_iff_isEmpty (b : GenBuffer) :
    b.OutputRead.1 = GenBuffer_Empty ↔ b.isEmpty = true := by
  unfold OutputRead
  split
  · simp [*]
  · simp [*]

end GenBuffer

namespace MiSTM32Fx

theorem IRQHandle_Flt_stm32 (u : UARTDevice) : (IRQHandle u).Flt = u.Flt := by
  rw [IRQHandle_eq, (IRQHandle_transmit_frame _ _ _ _).2.1,
    (IRQHandle_receive_frame_stm32 _ _ _ _).2.1]

/-- After an invocation the Transmit buffer is the one found or the one a read of it
leaves. -/
theorem IRQHandle_Transmit_cases (u : UARTDevice) :
    (IRQHandle u).Transmit = u.Transmit ∨ (IRQHandle u).Transmit = u.Transmit.OutputRead.2.2 := by
  obtain ⟨h1, _, _, _⟩ := IRQHandle_receive_frame_stm32 u.UART_Handle.SR u.UART_Handle.CR1 0x00 u
  rw [IRQHandle_eq]
  by_cases hc : u.UART_Handle.SR &&& USART_SR_TXE ≠ RESET ∧
      u.UART_Handle.CR1 &&& USART_CR1_TXEIE ≠ RESET
  · rcases OutputRead_cases u.Transmit with he | ⟨x, hx⟩
    · rw [← h1] at he
      rw [IRQHandle_transmit_empty_eq _ _ _ _ hc he]
      exact Or.inl h1
    · have hx1 := hx
      rw [← h1] at hx1
      rw [IRQHandle_transmit_byte_eq _ _ _ _ hc x _ hx1]
      right
      show (IRQHandle_receive u.UART_Handle.SR u.UART_Handle.CR1 0x00 u).2.Transmit.OutputRead.2.2
        = _
      rw [h1]
  · rw [IRQHandle_transmit_idle_eq _ _ _ _ hc]
    exact Or.inl h1

theorem IRQHandle_Transmit_WF (u : UARTDevice) (h : u.Transmit.WF) :
    (IRQHandle u).Transmit.WF := by
  rcases IRQHandle_Transmit_cases u with e | e <;> rw [e]
  · exact h
  · exact GenBuffer.OutputRead_WF _ h

/-- One invocation keeps: a disarmed transmit direction has an empty Transmit buffer. -/
theorem IRQHandle_keeps_stm32 (u : UARTDevice)
    (h : ¬ transmitArmed u → u.Transmit.isEmpty = true) :
    ¬ transmitArmed (IRQHandle u) → (IRQHandle u).Transmit.isEmpty = true := by
  obtain ⟨h1, _, _, h4⟩ :=
    IRQHandle_receive_frame_stm32 u.UART_Handle.SR u.UART_Handle.CR1 0x00 u
  intro hd
  by_cases hc : transmitReady u ∧ transmitArmed u
  · rcases OutputRead_cases u.Transmit with he | ⟨x, hx⟩
    · have he1 := he
      rw [← h1] at he1
      have : (IRQHandle u).Transmit = u.Transmit := by
        rw [IRQHandle_eq, IRQHandle_transmit_empty_eq _ _ _ _ hc he1]
        exact h1
      rw [this]
      exact (GenBuffer.OutputRead_Empty_iff_isEmpty _).1 he
    · exfalso
      apply hd
      rw [← h1] at hx
      rw [IRQHandle_eq, IRQHandle_transmit_byte_eq _ _ _ _ hc x _ hx]
      simpa [transmitArmed, writeDR, h4] using hc.2
  · obtain ⟨_, i2, i3⟩ := IRQHandle_transmit_idle u hc
    rw [i2]
    exact h (fun ha => hd (i3.2 ha))

/-- An invocation that finds both directions disarmed changes nothing at all. -/
theorem IRQHandle_noop_stm32 (u : UARTDevice) (hr : ¬ receiveArmed u)
    (ht : ¬ transmitArmed u) : IRQHandle u = u := by
  have h1 : ¬ (u.UART_Handle.SR &&& USART_SR_RXNE ≠ RESET ∧
      u.UART_Handle.CR1 &&& USART_CR1_RXNEIE ≠ RESET) := fun h => hr h.2
  have h2 : ¬ (u.UART_Handle.SR &&& USART_SR_TXE ≠ RESET ∧
      u.UART_Handle.CR1 &&& USART_CR1_TXEIE ≠ RESET) := fun h => ht h.2
  have hrec : IRQHandle_receive u.UART_Handle.SR u.UART_Handle.CR1 0x00 u = (0x00, u) := by
    unfold IRQHandle_receive
    rw [if_neg h1]
  rw [IRQHandle_eq, IRQHandle_transmit_idle_eq _ _ _ _ h2, hrec]

theorem RXNEIE_after_enable (c : Nat) : (c ||| USART_CR1_RXNEIE) &&& USART_CR1_RXNEIE ≠ RESET := by
  have h := or_pow_and_self c 5
  show (c ||| 2 ^ 5) &&& 2 ^ 5 ≠ 0
  rw [h]; decide

theorem TXEIE_after_RXNEIE_enable (c : Nat) :
    (c ||| USART_CR1_RXNEIE) &&& USART_CR1_TXEIE = c &&& USART_CR1_TXEIE :=
  or_pow_and_other c 5 7 (by decide)

end MiSTM32Fx

namespace MiRaspbPi

theorem IRQHandle_transmitLoop_keeps (fuel tempdata : Nat) (u : UARTDevice)
    (r : Nat × UARTDevice) (h : IRQHandle_transmitLoop fuel tempdata u = some r) :
    r.2.Flt = u.Flt ∧ r.2.pseudo_interrupt = u.pseudo_interrupt ∧ r.2.Receive = u.Receive ∧
      (u.Transmit.WF → r.2.Transmit.WF) := by
  induction fuel generalizing tempdata u with
  | zero => simp [IRQHandle_transmitLoop] at h
  | succ fuel ih =>
    unfold IRQHandle_transmitLoop at h
    simp only [] at h
    split at h
    · obtain ⟨i1, i2, i3, i4⟩ := ih _ _ h
      exact ⟨i1, i2, i3, fun hw => i4 (GenBuffer.OutputRead_WF _ hw)⟩
    · simp only [Option.some.injEq] at h
      rw [← h]
      exact ⟨rfl, rfl, rfl, fun hw => GenBuffer.OutputRead_WF _ hw⟩

/-- What an invocation that returns leaves: the fault state as before; and with the transmit
direction armed on entry, the direction disarmed and a Transmit buffer on which a read
returns `GenBuffer_Empty`; with it disarmed on entry, the Transmit buffer and the pseudo
interrupt register as before. -/
theorem IRQHandle_returns (rxBit txBit fuel tempdata : Nat) (u u1 : UARTDevice)
    (h : IRQHandle rxBit txBit fuel tempdata u = some u1) :
    u1.Flt = u.Flt ∧ (u.Transmit.WF → u1.Transmit.WF) ∧
      (transmitArmed txBit u →
        ¬ transmitArmed txBit u1 ∧ u1.Transmit.OutputRead.1 = GenBuffer_Empty) ∧
      (¬ transmitArmed txBit u →
        u1.Transmit = u.Transmit ∧ u1.pseudo_interrupt = u.pseudo_interrupt) := by
  obtain ⟨f1, f2, f3, _⟩ := IRQHandle_receive_frame_rpi rxBit u
  by_cases ha : transmitArmed txBit u
  · have ha1 : (IRQHandle_receive rxBit u).pseudo_interrupt &&& (0x01 <<< txBit)
        = (0x01 <<< txBit) := by rw [f2]; exact ha
    unfold IRQHandle IRQHandle_transmit at h
    rw [if_pos ha1] at h
    cases hl : IRQHandle_transmitLoop fuel tempdata (IRQHandle_receive rxBit u) with
    | none => rw [hl] at h; simp at h
    | some r =>
      rw [hl] at h
      simp only [Option.map_some', Option.some.injEq] at h
      obtain ⟨k1, _, _, k4⟩ := IRQHandle_transmitLoop_keeps _ _ _ r hl
      rw [← h]
      refine ⟨by rw [← f3, ← k1]; rfl, fun hw => k4 (by rw [f1]; exact hw),
        fun _ => ⟨TransmitITDisable_disarmed _ _, IRQHandle_transmitLoop_last _ _ _ r hl⟩,
        fun hn => absurd ha hn⟩
  · obtain ⟨e1, _, e3, _⟩ := IRQHandle_disarmed rxBit txBit fuel tempdata u ha
    rw [e1] at h
    simp only [Option.some.injEq] at h
    rw [← h]
    exact ⟨f3, fun hw => by rw [f1]; exact hw, fun hy => absurd hy ha, fun _ => ⟨f1, f2⟩⟩

/-- An invocation that finds both directions disarmed returns the channel it was given. -/
theorem IRQHandle_noop_rpi (rxBit txBit fuel tempdata : Nat) (u : UARTDevice)
    (hr : ¬ receiveArmed rxBit u) (ht : ¬ transmitArmed txBit u) :
    IRQHandle rxBit txBit fuel tempdata u = some u := by
  unfold IRQHandle
  rw [IRQHandle_receive_disarmed rxBit u hr, IRQHandle_transmit_disarmed _ _ _ _ ht]

/-- The wait of `PoleSingleRead` ends when a byte is waiting or arrives during one of the
coming time-outs, and the fuel exceeds the number of those time-outs. -/
theorem PoleSingleRead_loop_ends (later : List (List Nat)) (rx tx : List Nat) (fuel : Nat)
    (hb : rx ≠ [] ∨ ∃ b ∈ later, b ≠ []) (hf : later.length < fuel) :
    ∃ r, PoleSingleRead_loop fuel { rx := rx, tx := tx, later := later } = some r := by
  induction later generalizing rx fuel with
  | nil =>
    obtain ⟨n, rfl⟩ : ∃ n, fuel = n + 1 := ⟨fuel - 1, by simp at hf; omega⟩
    cases rx with
    | nil => simp at hb
    | cons c rest =>
      refine ⟨serialGetchar { rx := c :: rest, tx := tx, later := [] }, ?_⟩
      unfold PoleSingleRead_loop
      have hne : ¬ (((c % 256 : Nat) : Int) = -1) := by omega
      simp only [serialGetchar, hne, if_false]
  | cons a later ih =>
    obtain ⟨n, rfl⟩ : ∃ n, fuel = n + 1 := ⟨fuel - 1, by simp at hf; omega⟩
    cases rx with
    | cons c rest =>
      refine ⟨serialGetchar { rx := c :: rest, tx := tx, later := a :: later }, ?_⟩
      unfold PoleSingleRead_loop
      have hne : ¬ (((c % 256 : Nat) : Int) = -1) := by omega
      simp only [serialGetchar, hne, if_false]
    | nil =>
      have hb1 : a ≠ [] ∨ ∃ b ∈ later, b ≠ [] := by
        rcases hb with hb | ⟨b, hm, hne⟩
        · exact absurd rfl hb
        · rcases List.mem_cons.1 hm with rfl | hm
          · exact Or.inl hne
          · exact Or.inr ⟨b, hm, hne⟩
      obtain ⟨r, hr⟩ := ih a n hb1 (by simpa using hf)
      refine ⟨r, ?_⟩
      unfold PoleSingleRead_loop
      simpa [serialGetchar] using hr

theorem cString_ends (mem : List Nat) (h : 0 ∈ mem) : ∃ s, cString mem = some s := by
  induction mem with
  | nil => simp at h
  | cons c mem ih =>
    unfold cString
    by_cases hc : c = 0
    · exact ⟨[], by simp [hc]⟩
    · have hm : 0 ∈ mem := by
        rcases List.mem_cons.1 h with h0 | hm
        · exact absurd h0.symm hc
        · exact hm
      obtain ⟨s, hs⟩ := ih hm
      exact ⟨c :: s, by simp [hc, hs]⟩

end MiRaspbPi

namespace MiSTM32Fx

/-- Along every run: when the transmit direction is disarmed the Transmit buffer is empty,
provided this holds at the start. -/
theorem Reachable_keeps_stm32 (u0 u : UARTDevice)
    (h0 : ¬ transmitArmed u0 → u0.Transmit.isEmpty = true) (hr : Reachable u0 u) :
    ¬ transmitArmed u → u.Transmit.isEmpty = true := by
  induction hr with
  | start => exact h0
  | enqueue w data _ _ =>
    intro hd
    exact absurd (SingleTransmit_IT_frame_stm32 w data).2.1 hd
  | interrupt w _ ih => exact IRQHandle_keeps_stm32 w ih
  | hardware w sr dr _ ih => exact ih

theorem Reachable_WF_stm32 (u0 u : UARTDevice) (h0 : u0.Transmit.WF) (hr : Reachable u0 u) :
    u.Transmit.WF := by
  induction hr with
  | start => exact h0
  | enqueue w data _ ih => exact GenBuffer.InputWrite_WF _ data ih
  | interrupt w _ ih => exact IRQHandle_Transmit_WF w ih
  | hardware w sr dr _ ih => exact ih

end MiSTM32Fx

namespace MiRaspbPi

/-- Along every run: when the transmit direction is disarmed the Transmit buffer is empty,
provided this holds at the start. -/
theorem Reachable_keeps_rpi (rxBit txBit : Nat) (u0 u : UARTDevice)
    (h0 : ¬ transmitArmed txBit u0 → u0.Transmit.isEmpty = true)
    (hr : Reachable rxBit txBit u0 u) :
    ¬ transmitArmed txBit u → u.Transmit.isEmpty = true := by
  induction hr with
  | start => exact h0
  | enqueue w data _ _ =>
    intro hd
    exact absurd (SingleTransmit_IT_frame_rpi txBit w data).2.1 hd
  | interrupt w w1 fuel tempdata _ hcall ih =>
    obtain ⟨_, _, k3, k4⟩ := IRQHandle_returns rxBit txBit fuel tempdata w w1 hcall
    intro hd
    by_cases ha : transmitArmed txBit w
    · exact (GenBuffer.OutputRead_Empty_iff_isEmpty _).1 (k3 ha).2
    · rw [(k4 ha).1]
      exact ih ha
  | hardware w bytes _ ih => exact ih

theorem Reachable_WF_rpi (rxBit txBit : Nat) (u0 u : UARTDevice) (h0 : u0.Transmit.WF)
    (hr : Reachable rxBit txBit u0 u) : u.Transmit.WF := by
  induction hr with
  | start => exact h0
  | enqueue w data _ ih => exact GenBuffer.InputWrite_WF _ data ih
  | interrupt w w1 fuel tempdata _ hcall ih =>
    exact (IRQHandle_returns rxBit txBit fuel tempdata w w1 hcall).2.1 ih
  | hardware w bytes _ ih => exact ih

end MiRaspbPi

/-! ## Claims -/

/-- C1: on both targets `PoleTransmit` called with a null pointer or with `size == 0` returns
`UART_DataError` and yields the channel it was given with only the fault state set to
`UART_DataError`: the transport (hence its output), both buffers and the arm flags are as
before.  And a call that returns `UART_DataError` had a null pointer or `size == 0`. -/
theorem C1_PoleTransmit_DataError (u : MiSTM32Fx.UARTDevice) (v : MiRaspbPi.UARTDevice)
    (heap : List Nat) (pData : Option (List Nat)) (size : Nat) :
    ((pData = none ∨ size = 0) →
      MiSTM32Fx.PoleTransmit u pData size
          = some (UART_DataError, { u with Flt := UART_DataError }) ∧
        MiRaspbPi.PoleTransmit heap v pData size
          = some (UART_DataError, { v with Flt := UART_DataError })) ∧
    (∀ u1, MiSTM32Fx.PoleTransmit u pData size = some (UART_DataError, u1) →
      pData = none ∨ size = 0) ∧
    (∀ v1, MiRaspbPi.PoleTransmit heap v pData size = some (UART_DataError, v1) →
      pData = none ∨ size = 0) := by
  refine ⟨?_, ?_, ?_⟩
  · rintro (h | h)
    · subst h; exact ⟨rfl, rfl⟩
    · subst h
      cases pData <;> simp [MiSTM32Fx.PoleTransmit, MiRaspbPi.PoleTransmit]
  · intro u1 h
    cases pData with
    | none => exact Or.inl rfl
    | some p =>
      by_cases hs : size = 0
      · exact Or.inr hs
      · simp only [MiSTM32Fx.PoleTransmit, hs, if_false] at h
        split at h <;> simp at h
  · intro v1 h
    cases pData with
    | none => exact Or.inl rfl
    | some p =>
      by_cases hs : size = 0
      · exact Or.inr hs
      · simp only [MiRaspbPi.PoleTransmit, hs, if_false] at h
        split at h
        · simp at h
        · split at h <;> simp at h

/-- C1 at a concrete input: a three byte array passed with `size == 0`. -/
theorem C1_PoleTransmit_DataError_witness :
    MiSTM32Fx.PoleTransmit stm32Sample (some [1, 2, 3]) 0
        = some (UART_DataError, { stm32Sample with Flt := UART_DataError }) ∧
      MiRaspbPi.PoleTransmit [] raspbPiSample (some [1, 2, 3]) 0
        = some (UART_DataError, { raspbPiSample with Flt := UART_DataError }) :=
  (C1_PoleTransmit_DataError stm32Sample raspbPiSample [] (some [1, 2, 3]) 0).1 (Or.inr rfl)

/-- C2: on the STM32Fxx, `PoleTransmit` on an array of `n` bytes, `1 <= n <= 65535`, returns
`UART_NoFault`; the channel it yields is the one reached by one `PoleSingleTransmit` per byte,
in index order, with the fault state set to `UART_NoFault`; the transport output has grown by
exactly the `n` bytes in their order, whatever the fault state was before. -/
theorem C2_PoleTransmit_STM32 (u : MiSTM32Fx.UARTDevice) (payload : List Nat)
    (h1 : 1 ≤ payload.length) (_h2 : payload.length ≤ 65535) :
    MiSTM32Fx.PoleTransmit u (some payload) payload.length
        = some (UART_NoFault,
            { payload.foldl MiSTM32Fx.PoleSingleTransmit u with Flt := UART_NoFault }) ∧
      (payload.foldl MiSTM32Fx.PoleSingleTransmit u).UART_Handle.TDR
        = u.UART_Handle.TDR ++ payload ∧
      (∀ d w, (MiSTM32Fx.PoleSingleTransmit w d).UART_Handle.TDR = w.UART_Handle.TDR ++ [d]) := by
  refine ⟨?_, MiSTM32Fx.foldl_PoleSingleTransmit_TDR payload u,
    fun d w => MiSTM32Fx.PoleSingleTransmit_TDR w d⟩
  have hs : payload.length ≠ 0 := by omega
  simp [MiSTM32Fx.PoleTransmit, hs, MiSTM32Fx.PoleTransmit_loop_eq]

/-- C2 at a concrete input: three bytes, one of them 0x00, sent from a channel whose
peripheral needs several status polls before it is ready. -/
theorem C2_PoleTransmit_STM32_witness :
    MiSTM32Fx.PoleTransmit stm32Sample (some [0x41, 0x00, 0x42]) 3
        = some (UART_NoFault,
            { [0x41, 0x00, 0x42].foldl MiSTM32Fx.PoleSingleTransmit stm32Sample with
              Flt := UART_NoFault }) ∧
      ([0x41, 0x00, 0x42].foldl MiSTM32Fx.PoleSingleTransmit stm32Sample).UART_Handle.TDR
        = [9, 0x41, 0x00, 0x42] :=
  ⟨(C2_PoleTransmit_STM32 stm32Sample [0x41, 0x00, 0x42] (by decide) (by decide)).1,
   (C2_PoleTransmit_STM32 stm32Sample [0x41, 0x00, 0x42] (by decide) (by decide)).2.1⟩

/-- C3 (evaluation of the code): on the Raspberry Pi `PoleTransmit` hands the copied array to
`serialPuts`, which sends a NUL terminated string.  For the three byte payload
`0x41 0x00 0x42` only `0x41` reaches the transport although `UART_NoFault` is returned; and for
the one byte payload `0x41` followed in memory by `0x42 0x00` the transport receives
`0x41 0x42`, one byte more than the payload. -/
theorem C3_PoleTransmit_RaspbPi_serialPuts (heap : List Nat) (v : MiRaspbPi.UARTDevice) :
    MiRaspbPi.PoleTransmit heap v (some [0x41, 0x00, 0x42]) 3
        = some (UART_NoFault,
            { v with UART_Handle := { v.UART_Handle with tx := v.UART_Handle.tx ++ [0x41] },
                     Flt := UART_NoFault }) ∧
      MiRaspbPi.PoleTransmit [0x42, 0x00] v (some [0x41]) 1
        = some (UART_NoFault,
            { v with UART_Handle := { v.UART_Handle with tx := v.UART_Handle.tx ++ [0x41, 0x42] },
                     Flt := UART_NoFault }) := by
  constructor <;>
    simp [MiRaspbPi.PoleTransmit, MiRaspbPi.PoleTransmit_copy, MiRaspbPi.serialPuts,
      MiRaspbPi.cString]

/-- C4, the claim as stated fails on the STM32Fxx: the channel `stm32Armed3` has the transmit
direction armed and exactly 0x11, 0x22, 0x33 queued; after three invocations of `IRQHandle`,
each with TXE up, the buffer is empty and the three bytes are on the transport in order, but
the transmit direction is still armed. -/
theorem C4_IRQHandle_three_bytes_counterexample :
    MiSTM32Fx.transmitArmed stm32Armed3 ∧
      stm32Armed3.Transmit.queued = [0x11, 0x22, 0x33] ∧
      (MiSTM32Fx.IRQHandle_run [(0x80, 0), (0x80, 0), (0x80, 0)] stm32Armed3).Transmit.queued
        = [] ∧
      (MiSTM32Fx.IRQHandle_run [(0x80, 0), (0x80, 0), (0x80, 0)] stm32Armed3).UART_Handle.TDR
        = [0x11, 0x22, 0x33] ∧
      ¬ ¬ MiSTM32Fx.transmitArmed
        (MiSTM32Fx.IRQHandle_run [(0x80, 0), (0x80, 0), (0x80, 0)] stm32Armed3) := by
  decide

/-- C4 (amended): from a channel with the transmit direction armed and exactly `b1, b2, b3`
queued in a well formed Transmit buffer, three invocations of `IRQHandle` leave the buffer
empty with exactly `b1, b2, b3` written to the transport in that order.  On the Raspberry Pi
the direction is then disarmed.  On the STM32Fxx (TXE up at every invocation) it is still armed
after the third invocation, and the fourth disarms it.  On both targets the fourth invocation
writes nothing to the transport. -/
theorem C4_IRQHandle_three_bytes (u : MiSTM32Fx.UARTDevice) (v : MiRaspbPi.UARTDevice)
    (rxBit txBit fuel tempdata b1 b2 b3 : Nat) (e1 e2 e3 e4 : Nat × Nat)
    (a1 a2 a3 a4 : List Nat)
    (hu : u.Transmit.WF) (huq : u.Transmit.queued = [b1, b2, b3])
    (hua : MiSTM32Fx.transmitArmed u)
    (h1 : e1.1 &&& MiSTM32Fx.USART_SR_TXE ≠ MiSTM32Fx.RESET)
    (h2 : e2.1 &&& MiSTM32Fx.USART_SR_TXE ≠ MiSTM32Fx.RESET)
    (h3 : e3.1 &&& MiSTM32Fx.USART_SR_TXE ≠ MiSTM32Fx.RESET)
    (h4 : e4.1 &&& MiSTM32Fx.USART_SR_TXE ≠ MiSTM32Fx.RESET)
    (hv : v.Transmit.WF) (hvq : v.Transmit.queued = [b1, b2, b3])
    (hva : MiRaspbPi.transmitArmed txBit v) (hf : 3 < fuel) :
    ((MiSTM32Fx.IRQHandle_run [e1, e2, e3] u).Transmit.queued = [] ∧
      (MiSTM32Fx.IRQHandle_run [e1, e2, e3] u).UART_Handle.TDR
        = u.UART_Handle.TDR ++ [b1, b2, b3] ∧
      MiSTM32Fx.transmitArmed (MiSTM32Fx.IRQHandle_run [e1, e2, e3] u) ∧
      (MiSTM32Fx.IRQHandle_run [e1, e2, e3, e4] u).UART_Handle.TDR
        = (MiSTM32Fx.IRQHandle_run [e1, e2, e3] u).UART_Handle.TDR ∧
      ¬ MiSTM32Fx.transmitArmed (MiSTM32Fx.IRQHandle_run [e1, e2, e3, e4] u)) ∧
    (∃ v3 v4,
      MiRaspbPi.IRQHandle_run rxBit txBit fuel tempdata [a1, a2, a3] v = some v3 ∧
      v3.Transmit.queued = [] ∧
      v3.UART_Handle.tx = v.UART_Handle.tx ++ [b1, b2, b3] ∧
      ¬ MiRaspbPi.transmitArmed txBit v3 ∧
      MiRaspbPi.IRQHandle rxBit txBit fuel tempdata (MiRaspbPi.arrival a4 v3) = some v4 ∧
      v4.UART_Handle.tx = v3.UART_Handle.tx) := by
  constructor
  · have hr : ∀ e ∈ [e1, e2, e3], e.1 &&& MiSTM32Fx.USART_SR_TXE ≠ MiSTM32Fx.RESET := by
      intro e he
      simp only [List.mem_cons, List.mem_singleton, List.not_mem_nil, or_false] at he
      rcases he with rfl | rfl | rfl <;> assumption
    obtain ⟨d1, d2, d3, d4⟩ :=
      MiSTM32Fx.IRQHandle_run_drain [b1, b2, b3] [e1, e2, e3] u rfl hr hu huq hua
    have hrun : MiSTM32Fx.IRQHandle_run [e1, e2, e3, e4] u
        = MiSTM32Fx.IRQHandle
            (MiSTM32Fx.peripheral e4.1 e4.2 (MiSTM32Fx.IRQHandle_run [e1, e2, e3] u)) := rfl
    obtain ⟨g1, _, g3⟩ := MiSTM32Fx.IRQHandle_transmit_empty
      (MiSTM32Fx.peripheral e4.1 e4.2 (MiSTM32Fx.IRQHandle_run [e1, e2, e3] u)) h4 d3 d4
      ((GenBuffer.queued_eq_nil_iff _).1 d1)
    exact ⟨d1, d2, d3, by rw [hrun, g1]; rfl, by rw [hrun]; exact g3⟩
  · have hcnt : v.Transmit.count < fuel := by
      rw [← GenBuffer.queued_length, hvq]; simpa using hf
    obtain ⟨v1, e1', e2', e3', _, _, e6', _⟩ :=
      MiRaspbPi.IRQHandle_armed rxBit txBit fuel tempdata (MiRaspbPi.arrival a1 v) hva hv hcnt
    obtain ⟨v3, r1, r2, r3, r4⟩ :=
      MiRaspbPi.IRQHandle_run_disarmed rxBit txBit fuel tempdata [a2, a3] v1 e6'
    obtain ⟨s1, s2, _, _⟩ :=
      MiRaspbPi.IRQHandle_disarmed rxBit txBit fuel tempdata (MiRaspbPi.arrival a4 v3) r4
    refine ⟨v3, _, ?_, ?_, ?_, r4, s1, s2⟩
    · simp only [MiRaspbPi.IRQHandle_run, e1']
      exact r1
    · rw [r3]; exact (GenBuffer.queued_eq_nil_iff _).2 e3'
    · rw [r2, e2']
      show v.UART_Handle.tx ++ v.Transmit.queued = _
      rw [hvq]

/-- C4 (amended) at the concrete channels `stm32Armed3` and `raspbPiArmed3`. -/
theorem C4_IRQHandle_three_bytes_witness :
    (MiSTM32Fx.IRQHandle_run [(0x80, 0), (0xA0, 7), (0x80, 0)] stm32Armed3).UART_Handle.TDR
        = [0x11, 0x22, 0x33] ∧
      MiSTM32Fx.transmitArmed
        (MiSTM32Fx.IRQHandle_run [(0x80, 0), (0xA0, 7), (0x80, 0)] stm32Armed3) ∧
      ¬ MiSTM32Fx.transmitArmed
        (MiSTM32Fx.IRQHandle_run [(0x80, 0), (0xA0, 7), (0x80, 0), (0xC0, 0)] stm32Armed3) :=
  have h := C4_IRQHandle_three_bytes stm32Armed3 raspbPiArmed3 0 1 4 0 0x11 0x22 0x33
    (0x80, 0) (0xA0, 7) (0x80, 0) (0xC0, 0) [] [1] [] []
    (by decide) (by decide) (by decide) (by decide) (by decide) (by decide) (by decide)
    (by decide) (by decide) (by decide) (by decide)
  ⟨h.1.2.1, h.1.2.2.1, h.1.2.2.2.2⟩

/-- C5: on both targets, when the transmit direction is armed (on the STM32Fxx also TXE up)
and the Transmit buffer is empty, one invocation of `IRQHandle` writes nothing to the
transport, leaves the Transmit buffer as it is and disarms the transmit direction.  And an
invocation disarms only behind a read of the Transmit buffer that returned `GenBuffer_Empty`:
on the STM32Fxx an invocation that turns armed into disarmed read `GenBuffer_Empty` from the
buffer it found; on the Raspberry Pi an invocation that found the direction armed leaves a
buffer whose read returns `GenBuffer_Empty` (its loop ended on that read). -/
theorem C5_IRQHandle_empty_disarms (u : MiSTM32Fx.UARTDevice) (v : MiRaspbPi.UARTDevice)
    (rxBit txBit fuel tempdata : Nat)
    (hue : u.Transmit.isEmpty = true) (hua : MiSTM32Fx.transmitArmed u)
    (hur : MiSTM32Fx.transmitReady u)
    (hve : v.Transmit.isEmpty = true) (hva : MiRaspbPi.transmitArmed txBit v)
    (hf : 0 < fuel) :
    ((MiSTM32Fx.IRQHandle u).UART_Handle.TDR = u.UART_Handle.TDR ∧
      (MiSTM32Fx.IRQHandle u).Transmit = u.Transmit ∧
      ¬ MiSTM32Fx.transmitArmed (MiSTM32Fx.IRQHandle u)) ∧
    (∃ v1, MiRaspbPi.IRQHandle rxBit txBit fuel tempdata v = some v1 ∧
      v1.UART_Handle.tx = v.UART_Handle.tx ∧ v1.Transmit = v.Transmit ∧
      ¬ MiRaspbPi.transmitArmed txBit v1) ∧
    (∀ w : MiSTM32Fx.UARTDevice, MiSTM32Fx.transmitArmed w →
      ¬ MiSTM32Fx.transmitArmed (MiSTM32Fx.IRQHandle w) →
      w.Transmit.OutputRead.1 = GenBuffer_Empty) ∧
    (∀ (w w1 : MiRaspbPi.UARTDevice) (fuel1 tempdata1 : Nat), MiRaspbPi.transmitArmed txBit w →
      MiRaspbPi.IRQHandle rxBit txBit fuel1 tempdata1 w = some w1 →
      ¬ MiRaspbPi.transmitArmed txBit w1 ∧ w1.Transmit.OutputRead.1 = GenBuffer_Empty) := by
  refine ⟨?_, ?_, ?_, ?_⟩
  · obtain ⟨h1, _, h3, h4⟩ :=
      MiSTM32Fx.IRQHandle_receive_frame_stm32 u.UART_Handle.SR u.UART_Handle.CR1 0x00 u
    have hrd : (MiSTM32Fx.IRQHandle_receive u.UART_Handle.SR u.UART_Handle.CR1 0x00
        u).2.Transmit.OutputRead.1 = GenBuffer_Empty := by
      rw [h1]; simp [GenBuffer.OutputRead, hue]
    rw [MiSTM32Fx.IRQHandle_eq, MiSTM32Fx.IRQHandle_transmit_empty_eq _ _ _ _ ⟨hur, hua⟩ hrd]
    refine ⟨h3, h1, ?_⟩
    simp [MiSTM32Fx.TransmitITDisable, MiSTM32Fx.__HAL_UART_DISABLE_IT,
      MiSTM32Fx.transmitArmed, MiSTM32Fx.UART_IT_TXE, MiSTM32Fx.TXEIE_after_disable]
  · obtain ⟨h1, h2, _, h4⟩ := MiRaspbPi.IRQHandle_receive_frame_rpi rxBit v
    have ha1 : (MiRaspbPi.IRQHandle_receive rxBit v).pseudo_interrupt &&& (0x01 <<< txBit)
        = (0x01 <<< txBit) := by rw [h2]; exact hva
    obtain ⟨n, hn⟩ : ∃ n, fuel = n + 1 := ⟨fuel - 1, by omega⟩
    refine ⟨MiRaspbPi.TransmitITDisable txBit (MiRaspbPi.IRQHandle_receive rxBit v), ?_, h4, h1,
      MiRaspbPi.TransmitITDisable_disarmed _ _⟩
    unfold MiRaspbPi.IRQHandle MiRaspbPi.IRQHandle_transmit
    rw [if_pos ha1, hn, MiRaspbPi.IRQHandle_transmitLoop_empty _ _ _ (by rw [h1]; exact hve)]
    rfl
  · intro w hwa hwd
    obtain ⟨h1, _, _, h4⟩ :=
      MiSTM32Fx.IRQHandle_receive_frame_stm32 w.UART_Handle.SR w.UART_Handle.CR1 0x00 w
    by_cases hc : MiSTM32Fx.transmitReady w ∧ MiSTM32Fx.transmitArmed w
    · rcases MiSTM32Fx.OutputRead_cases w.Transmit with he | ⟨x, hx⟩
      · exact he
      · exfalso
        apply hwd
        rw [← h1] at hx
        rw [MiSTM32Fx.IRQHandle_eq, MiSTM32Fx.IRQHandle_transmit_byte_eq _ _ _ _ hc x _ hx]
        simpa [MiSTM32Fx.transmitArmed, MiSTM32Fx.writeDR, h4] using hwa
    · exact absurd ((MiSTM32Fx.IRQHandle_transmit_idle w hc).2.2.2 hwa) hwd
  · intro w w1 fuel1 tempdata1 hwa hrun
    obtain ⟨_, h2, _, _⟩ := MiRaspbPi.IRQHandle_receive_frame_rpi rxBit w
    have ha1 : (MiRaspbPi.IRQHandle_receive rxBit w).pseudo_interrupt &&& (0x01 <<< txBit)
        = (0x01 <<< txBit) := by rw [h2]; exact hwa
    unfold MiRaspbPi.IRQHandle MiRaspbPi.IRQHandle_transmit at hrun
    rw [if_pos ha1] at hrun
    cases hl : MiRaspbPi.IRQHandle_transmitLoop fuel1 tempdata1
        (MiRaspbPi.IRQHandle_receive rxBit w) with
    | none => rw [hl] at hrun; simp at hrun
    | some r =>
      rw [hl] at hrun
      simp only [Option.map_some', Option.some.injEq] at hrun
      rw [← hrun]
      exact ⟨MiRaspbPi.TransmitITDisable_disarmed _ _,
        MiRaspbPi.IRQHandle_transmitLoop_last _ _ _ r hl⟩

/-- C5 at the concrete channels `stm32ArmedEmpty` and `raspbPiArmedEmpty`. -/
theorem C5_IRQHandle_empty_disarms_witness :
    ((MiSTM32Fx.IRQHandle stm32ArmedEmpty).UART_Handle.TDR = [7] ∧
      (MiSTM32Fx.IRQHandle stm32ArmedEmpty).Transmit = stm32ArmedEmpty.Transmit ∧
      ¬ MiSTM32Fx.transmitArmed (MiSTM32Fx.IRQHandle stm32ArmedEmpty)) ∧
    (∃ v1, MiRaspbPi.IRQHandle 0 1 1 0 raspbPiArmedEmpty = some v1 ∧
      v1.UART_Handle.tx = [7] ∧ v1.Transmit = raspbPiArmedEmpty.Transmit ∧
      ¬ MiRaspbPi.transmitArmed 1 v1) :=
  have h := C5_IRQHandle_empty_disarms stm32ArmedEmpty raspbPiArmedEmpty 0 1 1 0
    (by decide) (by decide) (by decide) (by decide) (by decide) (by decide)
  ⟨h.1, h.2.1⟩

/-- C6: on both targets `SingleTransmit_IT(b)` leaves as Transmit buffer the result of one
`InputWrite` of `b` on the previous Transmit buffer, leaves the transmit direction armed
whatever that write returned, and changes neither the Receive buffer, nor the receive arm
flag, nor the transport output.  On a well formed buffer that is not full the write makes `b`
the newest queued element; on a full one it changes nothing.  The Raspberry Pi part takes the
two bit positions of the missing header as parameters, distinct from each other. -/
theorem C6_SingleTransmit_IT (u : MiSTM32Fx.UARTDevice) (v : MiRaspbPi.UARTDevice)
    (rxBit txBit b : Nat) (hbits : rxBit ≠ txBit) :
    ((MiSTM32Fx.SingleTransmit_IT u b).Transmit = (u.Transmit.InputWrite b).2 ∧
      MiSTM32Fx.transmitArmed (MiSTM32Fx.SingleTransmit_IT u b) ∧
      (MiSTM32Fx.SingleTransmit_IT u b).Receive = u.Receive ∧
      (MiSTM32Fx.receiveArmed (MiSTM32Fx.SingleTransmit_IT u b) ↔ MiSTM32Fx.receiveArmed u) ∧
      (MiSTM32Fx.SingleTransmit_IT u b).UART_Handle.TDR = u.UART_Handle.TDR) ∧
    ((MiRaspbPi.SingleTransmit_IT txBit v b).Transmit = (v.Transmit.InputWrite b).2 ∧
      MiRaspbPi.transmitArmed txBit (MiRaspbPi.SingleTransmit_IT txBit v b) ∧
      (MiRaspbPi.SingleTransmit_IT txBit v b).Receive = v.Receive ∧
      (MiRaspbPi.receiveArmed rxBit (MiRaspbPi.SingleTransmit_IT txBit v b) ↔
        MiRaspbPi.receiveArmed rxBit v) ∧
      (MiRaspbPi.SingleTransmit_IT txBit v b).UART_Handle = v.UART_Handle) ∧
    (∀ buf : GenBuffer, buf.WF →
      (buf.isFull = false → (buf.InputWrite b).2.queued = buf.queued ++ [b]) ∧
      (buf.isFull = true → (buf.InputWrite b).2 = buf)) := by
  obtain ⟨s1, s2, s3, s4, _, s6, _, _⟩ := MiSTM32Fx.SingleTransmit_IT_frame_stm32 u b
  obtain ⟨r1, r2, r3, _, r5, r6⟩ := MiRaspbPi.SingleTransmit_IT_frame_rpi txBit v b
  refine ⟨⟨s1, s2, s4, s3, s6⟩, ⟨r1, r2, r3, r6 rxBit hbits, r5⟩, ?_⟩
  intro buf hwf
  constructor
  · intro hnf
    have hlt := GenBuffer.count_lt buf hwf
    have hne : ¬ buf.count + 1 = buf.capacity := by
      intro h
      rw [(GenBuffer.isFull_iff buf hwf).2 h] at hnf
      exact absurd hnf (by decide)
    exact GenBuffer.InputWrite_queued buf b hwf (by omega)
  · intro hf
    simp [GenBuffer.InputWrite, hf]

/-- C6 at the concrete channels `stm32Sample` and `raspbPiSample`, for a header with receive
bit 0 and transmit bit 1. -/
theorem C6_SingleTransmit_IT_witness :
    (MiSTM32Fx.SingleTransmit_IT stm32Sample 0x41).Transmit
        = (stm32Sample.Transmit.InputWrite 0x41).2 ∧
      MiSTM32Fx.transmitArmed (MiSTM32Fx.SingleTransmit_IT stm32Sample 0x41) ∧
      MiRaspbPi.transmitArmed 1 (MiRaspbPi.SingleTransmit_IT 1 raspbPiSample 0x41) ∧
      (MiRaspbPi.receiveArmed 0 (MiRaspbPi.SingleTransmit_IT 1 raspbPiSample 0x41) ↔
        MiRaspbPi.receiveArmed 0 raspbPiSample) ∧
      (stm32Sample.Transmit.InputWrite 0x41).2.queued = [5, 6, 0x41] :=
  have h := C6_SingleTransmit_IT stm32Sample raspbPiSample 0 1 0x41 (by decide)
  ⟨h.1.1, h.1.2.1, h.2.1.2.1, h.2.1.2.2.2.1,
    (h.2.2 stm32Sample.Transmit (by decide)).1 (by decide)⟩

/-- C7: on both targets `SingleRead_IT` returns exactly the result of one `OutputRead` of the
Receive buffer and changes nothing but that buffer: the transport, the arm flags, the Transmit
buffer and the fault state are as before.  When the Receive buffer is empty the call returns
`GenBuffer_Empty` and the whole channel is unchanged; when it is not (and well formed) the call
delivers the oldest queued byte and removes only that byte. -/
theorem C7_SingleRead_IT (u : MiSTM32Fx.UARTDevice) (v : MiRaspbPi.UARTDevice) :
    (MiSTM32Fx.SingleRead_IT u
        = (u.Receive.OutputRead.1, u.Receive.OutputRead.2.1,
            { u with Receive := u.Receive.OutputRead.2.2 }) ∧
      (u.Receive.isEmpty = true → MiSTM32Fx.SingleRead_IT u = (GenBuffer_Empty, none, u)) ∧
      (u.Receive.WF → u.Receive.isEmpty = false →
        ∃ x rest, u.Receive.queued = x :: rest ∧
          (MiSTM32Fx.SingleRead_IT u).1 = GenBuffer_NewData ∧
          (MiSTM32Fx.SingleRead_IT u).2.1 = some x ∧
          (MiSTM32Fx.SingleRead_IT u).2.2.Receive.queued = rest)) ∧
    (MiRaspbPi.SingleRead_IT v
        = (v.Receive.OutputRead.1, v.Receive.OutputRead.2.1,
            { v with Receive := v.Receive.OutputRead.2.2 }) ∧
      (v.Receive.isEmpty = true → MiRaspbPi.SingleRead_IT v = (GenBuffer_Empty, none, v)) ∧
      (v.Receive.WF → v.Receive.isEmpty = false →
        ∃ x rest, v.Receive.queued = x :: rest ∧
          (MiRaspbPi.SingleRead_IT v).1 = GenBuffer_NewData ∧
          (MiRaspbPi.SingleRead_IT v).2.1 = some x ∧
          (MiRaspbPi.SingleRead_IT v).2.2.Receive.queued = rest)) := by
  refine ⟨⟨rfl, ?_, ?_⟩, ⟨rfl, ?_, ?_⟩⟩
  · intro h
    simp [MiSTM32Fx.SingleRead_IT, GenBuffer.OutputRead_of_isEmpty _ h]
  · intro hwf h
    obtain ⟨x, rest, h1, h2, h3, h4, _, _⟩ := GenBuffer.OutputRead_of_not_isEmpty _ hwf h
    exact ⟨x, rest, h1, h2, h3, h4⟩
  · intro h
    simp [MiRaspbPi.SingleRead_IT, GenBuffer.OutputRead_of_isEmpty _ h]
  · intro hwf h
    obtain ⟨x, rest, h1, h2, h3, h4, _, _⟩ := GenBuffer.OutputRead_of_not_isEmpty _ hwf h
    exact ⟨x, rest, h1, h2, h3, h4⟩

/-- C7 at concrete channels: the empty Receive buffer of `stm32Sample` and the Receive buffer
of `raspbPiArmedEmpty`, which holds one byte. -/
theorem C7_SingleRead_IT_witness :
    MiSTM32Fx.SingleRead_IT stm32Sample = (GenBuffer_Empty, none, stm32Sample) ∧
      (∃ x rest, raspbPiArmedEmpty.Receive.queued = x :: rest ∧
        (MiRaspbPi.SingleRead_IT raspbPiArmedEmpty).1 = GenBuffer_NewData ∧
        (MiRaspbPi.SingleRead_IT raspbPiArmedEmpty).2.1 = some x ∧
        (MiRaspbPi.SingleRead_IT raspbPiArmedEmpty).2.2.Receive.queued = rest) :=
  have h := C7_SingleRead_IT stm32Sample raspbPiArmedEmpty
  ⟨h.1.2.1 (by decide), h.2.2.2 (by decide) (by decide)⟩

/-- C8: one invocation of `IRQHandle` with the receive direction armed and data available.
On the STM32Fxx (RXNE up, one byte) the data register is read once, RXNE is down afterwards,
and the byte, converted to `uint8_t`, is written to the Receive buffer.  On the Raspberry Pi
all `k` waiting bytes are taken from the device, none stays behind, and they are written to
the Receive buffer one by one in arrival order.  When the Receive buffer is well formed and
had room for them, reading as many times as bytes are then queued returns the bytes queued
before followed by the new bytes, in arrival order. -/
theorem C8_IRQHandle_receive (u : MiSTM32Fx.UARTDevice) (v : MiRaspbPi.UARTDevice)
    (rxBit txBit fuel tempdata : Nat)
    (hua : MiSTM32Fx.receiveArmed u) (hud : MiSTM32Fx.dataAvailable u)
    (hva : MiRaspbPi.receiveArmed rxBit v) (hvb : ∀ c ∈ v.UART_Handle.rx, c < 256)
    (hvt : v.Transmit.WF) (hf : v.Transmit.count < fuel) :
    ((MiSTM32Fx.IRQHandle u).Receive = (u.Receive.InputWrite (u.UART_Handle.DR % 256)).2 ∧
      ¬ MiSTM32Fx.dataAvailable (MiSTM32Fx.IRQHandle u) ∧
      (u.Receive.WF → u.Receive.count + 1 < u.Receive.capacity →
        (MiSTM32Fx.SingleRead_IT_times (u.Receive.count + 1) (MiSTM32Fx.IRQHandle u)).1
          = (u.Receive.queued ++ [u.UART_Handle.DR % 256]).map
              (fun x => (GenBuffer_NewData, some x)))) ∧
    (∃ v1, MiRaspbPi.IRQHandle rxBit txBit fuel tempdata v = some v1 ∧
      v1.UART_Handle.rx = [] ∧
      v1.Receive = v.UART_Handle.rx.foldl (fun b d => (b.InputWrite d).2) v.Receive ∧
      (v.Receive.WF → v.Receive.count + v.UART_Handle.rx.length < v.Receive.capacity →
        (MiRaspbPi.SingleRead_IT_times (v.Receive.count + v.UART_Handle.rx.length) v1).1
          = (v.Receive.queued ++ v.UART_Handle.rx).map
              (fun x => (GenBuffer_NewData, some x)))) := by
  constructor
  · obtain ⟨r1, r2⟩ := MiSTM32Fx.IRQHandle_receive_armed_stm32 u 0x00 hua hud
    obtain ⟨t1, _, _, _⟩ := MiSTM32Fx.IRQHandle_transmit_frame u.UART_Handle.SR
      u.UART_Handle.CR1
      (MiSTM32Fx.IRQHandle_receive u.UART_Handle.SR u.UART_Handle.CR1 0x00 u).1
      (MiSTM32Fx.IRQHandle_receive u.UART_Handle.SR u.UART_Handle.CR1 0x00 u).2
    have hrec : (MiSTM32Fx.IRQHandle u).Receive
        = (u.Receive.InputWrite (u.UART_Handle.DR % 256)).2 := by
      rw [MiSTM32Fx.IRQHandle_eq, t1, r1]
    refine ⟨hrec, ?_, ?_⟩
    · intro hd
      apply hd
      show (MiSTM32Fx.IRQHandle u).UART_Handle.SR &&& MiSTM32Fx.USART_SR_RXNE = _
      rw [MiSTM32Fx.IRQHandle_eq, MiSTM32Fx.IRQHandle_transmit_SR, r2]
      exact MiSTM32Fx.RXNE_after_read _
    · intro hwf hroom
      have hw := GenBuffer.InputWrite_WF u.Receive (u.UART_Handle.DR % 256) hwf
      have hc := GenBuffer.InputWrite_count u.Receive (u.UART_Handle.DR % 256) hwf hroom
      have hq := GenBuffer.InputWrite_queued u.Receive (u.UART_Handle.DR % 256) hwf hroom
      rw [MiSTM32Fx.SingleRead_IT_times_eq_stm32, hrec]
      show (GenBuffer.OutputRead_times _ _).1 = _
      rw [(GenBuffer.OutputRead_times_queued _ _ hw hc).1, hq]
  · obtain ⟨v1, e1, e2, e3⟩ := MiRaspbPi.IRQHandle_ends rxBit txBit fuel tempdata v hvt hf
    obtain ⟨r1, r2⟩ := MiRaspbPi.IRQHandle_receive_armed_rpi rxBit v hva
    rw [MiRaspbPi.map_mod_of_bytes _ hvb] at r2
    have hrec : v1.Receive
        = v.UART_Handle.rx.foldl (fun b d => (b.InputWrite d).2) v.Receive := by
      rw [e2, r2]
    refine ⟨v1, e1, by rw [e3, r1], hrec, ?_⟩
    intro hwf hroom
    obtain ⟨f1, f2, f3, _⟩ :=
      GenBuffer.foldl_InputWrite_queued v.UART_Handle.rx v.Receive hwf hroom
    rw [MiRaspbPi.SingleRead_IT_times_eq_rpi, hrec]
    show (GenBuffer.OutputRead_times _ _).1 = _
    rw [(GenBuffer.OutputRead_times_queued _ _ f2 f3).1, f1]

/-- C8 at the concrete channels `stm32ArmedEmpty` (RXNE raised, data register 0x5A) and
`raspbPiArmedEmpty` (two bytes waiting): the reads return the byte queued before and then the
new bytes. -/
theorem C8_IRQHandle_receive_witness :
    (MiSTM32Fx.SingleRead_IT_times 2
        (MiSTM32Fx.IRQHandle (MiSTM32Fx.peripheral 0xA0 0x5A stm32ArmedEmpty))).1
        = [(GenBuffer_NewData, some 0x61), (GenBuffer_NewData, some 0x5A)] ∧
      (∃ v1, MiRaspbPi.IRQHandle 0 1 1 0 raspbPiArmedEmpty = some v1 ∧
        v1.UART_Handle.rx = [] ∧
        (MiRaspbPi.SingleRead_IT_times 3 v1).1
          = [(GenBuffer_NewData, some 0x61), (GenBuffer_NewData, some 0x62),
             (GenBuffer_NewData, some 0x63)]) :=
  have h := C8_IRQHandle_receive (MiSTM32Fx.peripheral 0xA0 0x5A stm32ArmedEmpty)
    raspbPiArmedEmpty 0 1 1 0 (by decide) (by decide) (by decide) (by decide) (by decide)
    (by decide)
  ⟨h.1.2.2 (by decide) (by decide),
    h.2.elim fun v1 hv1 => ⟨v1, hv1.1, hv1.2.1, hv1.2.2.2 (by decide) (by decide)⟩⟩

/-- C9: outbound FIFO through the channel.  The bytes `bs`, no more than the usable capacity
(`capacity - 1`) of a well formed, empty Transmit buffer, are enqueued by one
`SingleTransmit_IT` each.  Then `IRQHandle` is invoked until the transmit direction is
disarmed (on the STM32Fxx with TXE up at every invocation and at least one more invocation
than bytes; on the Raspberry Pi at least one invocation, with more fuel than bytes).  The run
ends with the direction disarmed, the buffer empty and the transport output grown by exactly
`bs`, each byte once, in the order enqueued. -/
theorem C9_outbound_FIFO (u : MiSTM32Fx.UARTDevice) (v : MiRaspbPi.UARTDevice)
    (rxBit txBit fuel tempdata : Nat) (bs : List Nat) (es : List (Nat × Nat))
    (as : List (List Nat))
    (hu : u.Transmit.WF) (hue : u.Transmit.isEmpty = true)
    (hufit : bs.length < u.Transmit.capacity)
    (hes : bs.length < es.length)
    (her : ∀ e ∈ es, e.1 &&& MiSTM32Fx.USART_SR_TXE ≠ MiSTM32Fx.RESET)
    (hv : v.Transmit.WF) (hve : v.Transmit.isEmpty = true)
    (hvfit : bs.length < v.Transmit.capacity)
    (has : as ≠ []) (hf : bs.length < fuel) :
    ((MiSTM32Fx.IRQHandle_untilDisarmed es
        (MiSTM32Fx.SingleTransmit_IT_each bs u)).UART_Handle.TDR = u.UART_Handle.TDR ++ bs ∧
      ¬ MiSTM32Fx.transmitArmed
        (MiSTM32Fx.IRQHandle_untilDisarmed es (MiSTM32Fx.SingleTransmit_IT_each bs u)) ∧
      (MiSTM32Fx.IRQHandle_untilDisarmed es
        (MiSTM32Fx.SingleTransmit_IT_each bs u)).Transmit.queued = []) ∧
    (∃ v1, MiRaspbPi.IRQHandle_untilDisarmed rxBit txBit fuel tempdata as
        (MiRaspbPi.SingleTransmit_IT_each txBit bs v) = some v1 ∧
      v1.UART_Handle.tx = v.UART_Handle.tx ++ bs ∧
      ¬ MiRaspbPi.transmitArmed txBit v1 ∧ v1.Transmit.queued = []) := by
  have huc : u.Transmit.count = 0 := (GenBuffer.isEmpty_iff _ hu).1 hue
  have hvc : v.Transmit.count = 0 := (GenBuffer.isEmpty_iff _ hv).1 hve
  have huq : u.Transmit.queued = [] := (GenBuffer.queued_eq_nil_iff _).2 huc
  have hvq : v.Transmit.queued = [] := (GenBuffer.queued_eq_nil_iff _).2 hvc
  constructor
  · obtain ⟨q1, q2, q3, q4, q5⟩ :=
      MiSTM32Fx.SingleTransmit_IT_each_queued_stm32 bs u hu (by omega)
    rw [huq, List.nil_append] at q1
    by_cases ha : MiSTM32Fx.transmitArmed (MiSTM32Fx.SingleTransmit_IT_each bs u)
    · obtain ⟨d1, d2, d3⟩ := MiSTM32Fx.IRQHandle_untilDisarmed_drain_stm32 bs es
        (MiSTM32Fx.SingleTransmit_IT_each bs u) hes her q2 q1 ha
      exact ⟨by rw [d2, q3], d3, d1⟩
    · have hb : bs = [] := by
        by_contra hb
        exact ha (q4 hb)
      rw [MiSTM32Fx.IRQHandle_untilDisarmed_of_disarmed_stm32 _ _ ha]
      refine ⟨by rw [q3, hb, List.append_nil], ha, ?_⟩
      rw [q1, hb]
  · obtain ⟨q1, q2, q3, q4, q5⟩ :=
      MiRaspbPi.SingleTransmit_IT_each_queued_rpi txBit bs v hv (by omega)
    rw [hvq, List.nil_append] at q1
    by_cases ha : MiRaspbPi.transmitArmed txBit (MiRaspbPi.SingleTransmit_IT_each txBit bs v)
    · have hcnt : (MiRaspbPi.SingleTransmit_IT_each txBit bs v).Transmit.count < fuel := by
        rw [← GenBuffer.queued_length, q1]; exact hf
      obtain ⟨v1, d1, d2, d3, d4⟩ := MiRaspbPi.IRQHandle_untilDisarmed_drain_rpi rxBit txBit fuel
        tempdata as (MiRaspbPi.SingleTransmit_IT_each txBit bs v) has ha q2 hcnt
      exact ⟨v1, d1, by rw [d2, q3, q1], d4, (GenBuffer.queued_eq_nil_iff _).2 d3⟩
    · have hb : bs = [] := by
        by_contra hb
        exact ha (q4 hb)
      refine ⟨_, MiRaspbPi.IRQHandle_untilDisarmed_of_disarmed_rpi _ _ _ _ _ _ ha, ?_, ha, ?_⟩
      · rw [q3, hb, List.append_nil]
      · rw [q1, hb]

/-- C9 at concrete channels: three bytes enqueued on fresh channels with buffers of capacity
4 and sent by the interrupt handler. -/
theorem C9_outbound_FIFO_witness :
    (MiSTM32Fx.IRQHandle_untilDisarmed [(0x80, 0), (0x80, 0), (0xC0, 0), (0x80, 0), (0x80, 0)]
        (MiSTM32Fx.SingleTransmit_IT_each [0x41, 0x00, 0x42]
          (MiSTM32Fx.UARTDevice.constructSized stm32Sample.UART_Handle 4))).UART_Handle.TDR
        = [9, 0x41, 0x00, 0x42] ∧
      (∃ v1, MiRaspbPi.IRQHandle_untilDisarmed 0 1 4 0 [[], [1]]
          (MiRaspbPi.SingleTransmit_IT_each 1 [0x41, 0x00, 0x42]
            (MiRaspbPi.UARTDevice.constructSized raspbPiSample.UART_Handle 4)) = some v1 ∧
        v1.UART_Handle.tx = [9, 0x41, 0x00, 0x42] ∧ ¬ MiRaspbPi.transmitArmed 1 v1 ∧
        v1.Transmit.queued = []) :=
  have h := C9_outbound_FIFO (MiSTM32Fx.UARTDevice.constructSized stm32Sample.UART_Handle 4)
    (MiRaspbPi.UARTDevice.constructSized raspbPiSample.UART_Handle 4) 0 1 4 0
    [0x41, 0x00, 0x42] [(0x80, 0), (0x80, 0), (0xC0, 0), (0x80, 0), (0x80, 0)] [[], [1]]
    (by decide) (by decide) (by decide) (by decide) (by decide) (by decide) (by decide)
    (by decide) (by decide) (by decide)
  ⟨h.1.1, h.2⟩

/-- C10: on both targets `UpdateBufferSize(n)` replaces the Receive buffer by its `SizeUpdate`
to `n` and the Transmit buffer by its `SizeUpdate` to `n`, each computed from that buffer
alone, and changes nothing else.  For a channel whose Receive buffer holds 10 bytes
(whatever its capacity, so also below 256) `UpdateBufferSize(256)` followed by 10 calls
of `SingleRead_IT` returns those 10 bytes in their order. -/
theorem C10_UpdateBufferSize (u : MiSTM32Fx.UARTDevice) (v : MiRaspbPi.UARTDevice)
    (hu10 : u.Receive.count = 10) (hv10 : v.Receive.count = 10) :
    (∀ (w : MiSTM32Fx.UARTDevice) (n : Nat), MiSTM32Fx.UpdateBufferSize w n
        = { w with Receive := w.Receive.SizeUpdate n, Transmit := w.Transmit.SizeUpdate n }) ∧
    (∀ (w : MiRaspbPi.UARTDevice) (n : Nat), MiRaspbPi.UpdateBufferSize w n
        = { w with Receive := w.Receive.SizeUpdate n, Transmit := w.Transmit.SizeUpdate n }) ∧
    (MiSTM32Fx.SingleRead_IT_times 10 (MiSTM32Fx.UpdateBufferSize u 256)).1
        = u.Receive.queued.map (fun x => (GenBuffer_NewData, some x)) ∧
    (MiRaspbPi.SingleRead_IT_times 10 (MiRaspbPi.UpdateBufferSize v 256)).1
        = v.Receive.queued.map (fun x => (GenBuffer_NewData, some x)) ∧
    u.Receive.queued.length = 10 ∧ v.Receive.queued.length = 10 := by
  refine ⟨fun _ _ => rfl, fun _ _ => rfl, ?_, ?_, ?_, ?_⟩
  · have hs : u.Receive.count < 256 := by omega
    have hr : ∀ n, (MiSTM32Fx.UpdateBufferSize u n).Receive = u.Receive.SizeUpdate n :=
      fun _ => rfl
    rw [MiSTM32Fx.SingleRead_IT_times_fst_stm32, hr]
    rw [(GenBuffer.OutputRead_times_queued 10 _ (GenBuffer.SizeUpdate_WF _ _ hs)
      (by rw [GenBuffer.SizeUpdate_count _ _ hs, hu10])).1, GenBuffer.SizeUpdate_queued _ _ hs]
  · have hs : v.Receive.count < 256 := by omega
    have hr : ∀ n, (MiRaspbPi.UpdateBufferSize v n).Receive = v.Receive.SizeUpdate n :=
      fun _ => rfl
    rw [MiRaspbPi.SingleRead_IT_times_fst_rpi, hr]
    rw [(GenBuffer.OutputRead_times_queued 10 _ (GenBuffer.SizeUpdate_WF _ _ hs)
      (by rw [GenBuffer.SizeUpdate_count _ _ hs, hv10])).1, GenBuffer.SizeUpdate_queued _ _ hs]
  · rw [GenBuffer.queued_length, hu10]
  · rw [GenBuffer.queued_length, hv10]

/-- C10 at concrete channels whose Receive buffer is `tenQueued` (capacity 16, the bytes
1..10 queued across the wrap). -/
theorem C10_UpdateBufferSize_witness :
    (MiSTM32Fx.SingleRead_IT_times 10
        (MiSTM32Fx.UpdateBufferSize { stm32Sample with Receive := tenQueued } 256)).1
        = [1, 2, 3, 4, 5, 6, 7, 8, 9, 10].map (fun x => (GenBuffer_NewData, some x)) ∧
      (MiRaspbPi.SingleRead_IT_times 10
        (MiRaspbPi.UpdateBufferSize { raspbPiSample with Receive := tenQueued } 256)).1
        = [1, 2, 3, 4, 5, 6, 7, 8, 9, 10].map (fun x => (GenBuffer_NewData, some x)) :=
  have h := C10_UpdateBufferSize { stm32Sample with Receive := tenQueued }
    { raspbPiSample with Receive := tenQueued } (by decide) (by decide)
  ⟨h.2.2.1, h.2.2.2.1⟩

/-- C11, the claim as stated fails for the constructor of the `#else` build: its body is
empty, so on the storage `noTargetStorage` the constructed object has fault state
`UART_NoFault`, not `UART_Initialised`, and a Receive buffer with ten bytes queued. -/
theorem C11_constructors_counterexample :
    (MiNoTarget.UARTDevice.construct noTargetStorage).Flt ≠ UART_Initialised ∧
      (MiNoTarget.UARTDevice.construct noTargetStorage).Receive.isEmpty = false ∧
      (MiNoTarget.UARTDevice.construct noTargetStorage).Receive.queued.length = 10 := by
  decide

/-- C11 (amended): each of the two STM32Fxx and the two Raspberry Pi constructors yields a
channel with fault state `UART_Initialised` whose Receive and Transmit buffers are both the
freshly created buffer of the same size, 128 when no size is given and `Buffersize`
otherwise; a freshly created buffer is empty and has the requested capacity.  On the
Raspberry Pi both directions are disarmed, whatever the two bit positions are. -/
theorem C11_constructors (h : MiSTM32Fx.USART_TypeDef) (port : MiRaspbPi.SerialPort)
    (Buffersize rxBit txBit : Nat) :
    ((MiSTM32Fx.UARTDevice.construct h).Flt = UART_Initialised ∧
      (MiSTM32Fx.UARTDevice.construct h).Receive = GenBuffer.create 128 ∧
      (MiSTM32Fx.UARTDevice.construct h).Transmit = GenBuffer.create 128) ∧
    ((MiSTM32Fx.UARTDevice.constructSized h Buffersize).Flt = UART_Initialised ∧
      (MiSTM32Fx.UARTDevice.constructSized h Buffersize).Receive
        = GenBuffer.create Buffersize ∧
      (MiSTM32Fx.UARTDevice.constructSized h Buffersize).Transmit
        = GenBuffer.create Buffersize) ∧
    ((MiRaspbPi.UARTDevice.construct port).Flt = UART_Initialised ∧
      (MiRaspbPi.UARTDevice.construct port).Receive = GenBuffer.create 128 ∧
      (MiRaspbPi.UARTDevice.construct port).Transmit = GenBuffer.create 128 ∧
      ¬ MiRaspbPi.receiveArmed rxBit (MiRaspbPi.UARTDevice.construct port) ∧
      ¬ MiRaspbPi.transmitArmed txBit (MiRaspbPi.UARTDevice.construct port)) ∧
    ((MiRaspbPi.UARTDevice.constructSized port Buffersize).Flt = UART_Initialised ∧
      (MiRaspbPi.UARTDevice.constructSized port Buffersize).Receive
        = GenBuffer.create Buffersize ∧
      (MiRaspbPi.UARTDevice.constructSized port Buffersize).Transmit
        = GenBuffer.create Buffersize ∧
      ¬ MiRaspbPi.receiveArmed rxBit (MiRaspbPi.UARTDevice.constructSized port Buffersize) ∧
      ¬ MiRaspbPi.transmitArmed txBit (MiRaspbPi.UARTDevice.constructSized port Buffersize)) ∧
    (∀ size : Nat, (GenBuffer.create size).isEmpty = true ∧
      (GenBuffer.create size).capacity = size ∧ (GenBuffer.create size).count = 0 ∧
      (GenBuffer.create size).queued = []) := by
  have hz : ∀ b : Nat, ¬ (0 &&& (0x01 <<< b) = (0x01 <<< b)) := by
    intro b hb
    rw [Nat.zero_and, Nat.one_shiftLeft] at hb
    exact (Nat.pos_pow_of_pos b (by decide)).ne hb
  refine ⟨⟨rfl, rfl, rfl⟩, ⟨rfl, rfl, rfl⟩, ⟨rfl, rfl, rfl, hz rxBit, hz txBit⟩,
    ⟨rfl, rfl, rfl, hz rxBit, hz txBit⟩, ?_⟩
  intro size
  have hc := GenBuffer.create_count size
  exact ⟨rfl, rfl, hc, (GenBuffer.queued_eq_nil_iff _).2 hc⟩

/-- C12: on both targets the fault state is left as it was (so `UART_DataError` stays
`UART_DataError`) by each of `PoleSingleRead`, `PoleSingleTransmit`, `SingleTransmit_IT`,
`SingleRead_IT`, `UpdateBufferSize`, `ReceiveITEnable`, `TransmitITEnable`,
`TransmitITDisable` and `IRQHandle`.  On the Raspberry Pi the wait of `PoleSingleRead` and
the drain loop of `IRQHandle` are run with fuel: whenever they return the fault state is as
before, and they do return once a byte is waiting or arrives, respectively once the fuel
exceeds the number of bytes queued in a well formed Transmit buffer.  A `PoleTransmit` that
returns leaves `UART_NoFault` exactly when it was called with a non-null pointer and
`size > 0`. -/
theorem C12_fault_state_only_PoleTransmit (u : MiSTM32Fx.UARTDevice)
    (v : MiRaspbPi.UARTDevice) (rxBit txBit fuel tempdata data newsize : Nat)
    (heap : List Nat) (pData : Option (List Nat)) (size : Nat) :
    ((MiSTM32Fx.PoleSingleRead u).2.Flt = u.Flt ∧
      (MiSTM32Fx.PoleSingleTransmit u data).Flt = u.Flt ∧
      (MiSTM32Fx.SingleTransmit_IT u data).Flt = u.Flt ∧
      (MiSTM32Fx.SingleRead_IT u).2.2.Flt = u.Flt ∧
      (MiSTM32Fx.UpdateBufferSize u newsize).Flt = u.Flt ∧
      (MiSTM32Fx.ReceiveITEnable u).Flt = u.Flt ∧
      (MiSTM32Fx.TransmitITEnable u).Flt = u.Flt ∧
      (MiSTM32Fx.TransmitITDisable u).Flt = u.Flt ∧
      (MiSTM32Fx.IRQHandle u).Flt = u.Flt) ∧
    ((∀ r, MiRaspbPi.PoleSingleRead fuel v = some r → r.2.Flt = v.Flt) ∧
      (MiRaspbPi.PoleSingleTransmit v data).Flt = v.Flt ∧
      (MiRaspbPi.SingleTransmit_IT txBit v data).Flt = v.Flt ∧
      (MiRaspbPi.SingleRead_IT v).2.2.Flt = v.Flt ∧
      (MiRaspbPi.UpdateBufferSize v newsize).Flt = v.Flt ∧
      (MiRaspbPi.ReceiveITEnable rxBit v).Flt = v.Flt ∧
      (MiRaspbPi.TransmitITEnable txBit v).Flt = v.Flt ∧
      (MiRaspbPi.TransmitITDisable txBit v).Flt = v.Flt ∧
      (∀ v1, MiRaspbPi.IRQHandle rxBit txBit fuel tempdata v = some v1 → v1.Flt = v.Flt)) ∧
    (((v.UART_Handle.rx ≠ [] ∨ ∃ b ∈ v.UART_Handle.later, b ≠ []) →
        v.UART_Handle.later.length < fuel → ∃ r, MiRaspbPi.PoleSingleRead fuel v = some r) ∧
      (v.Transmit.WF → v.Transmit.count < fuel →
        ∃ v1, MiRaspbPi.IRQHandle rxBit txBit fuel tempdata v = some v1)) ∧
    (∀ f u1, MiSTM32Fx.PoleTransmit u pData size = some (f, u1) →
      u1.Flt = f ∧ (u1.Flt = UART_NoFault ↔ (pData ≠ none ∧ 0 < size))) ∧
    (∀ f v1, MiRaspbPi.PoleTransmit heap v pData size = some (f, v1) →
      v1.Flt = f ∧ (v1.Flt = UART_NoFault ↔ (pData ≠ none ∧ 0 < size))) := by
  refine ⟨⟨rfl, rfl, rfl, rfl, rfl, rfl, rfl, rfl, MiSTM32Fx.IRQHandle_Flt_stm32 u⟩,
    ⟨?_, rfl, rfl, rfl, rfl, rfl, rfl, rfl, ?_⟩, ⟨?_, ?_⟩, ?_, ?_⟩
  · intro r hr
    unfold MiRaspbPi.PoleSingleRead at hr
    cases hl : MiRaspbPi.PoleSingleRead_loop fuel v.UART_Handle with
    | none => rw [hl] at hr; simp at hr
    | some q =>
      rw [hl] at hr
      simp only [Option.map_some', Option.some.injEq] at hr
      rw [← hr]
  · intro v1 hv1
    exact (MiRaspbPi.IRQHandle_returns rxBit txBit fuel tempdata v v1 hv1).1
  · intro hb hf
    obtain ⟨q, hq⟩ := MiRaspbPi.PoleSingleRead_loop_ends v.UART_Handle.later
      v.UART_Handle.rx v.UART_Handle.tx fuel hb hf
    have hq1 : MiRaspbPi.PoleSingleRead_loop fuel v.UART_Handle = some q := hq
    exact ⟨_, by unfold MiRaspbPi.PoleSingleRead; rw [hq1]; rfl⟩
  · intro hwf hf
    obtain ⟨v1, e1, _, _⟩ := MiRaspbPi.IRQHandle_ends rxBit txBit fuel tempdata v hwf hf
    exact ⟨v1, e1⟩
  · intro f u1 h
    cases pData with
    | none =>
      simp only [MiSTM32Fx.PoleTransmit, Option.some.injEq, Prod.mk.injEq] at h
      obtain ⟨hf, hu⟩ := h
      subst hf; subst hu
      simp
    | some p =>
      by_cases hs : size = 0
      · simp only [MiSTM32Fx.PoleTransmit, hs, if_true, Option.some.injEq,
          Prod.mk.injEq] at h
        obtain ⟨hf, hu⟩ := h
        subst hf; subst hu
        simp [hs]
      · simp only [MiSTM32Fx.PoleTransmit, hs, if_false] at h
        split at h
        · simp at h
        · simp only [Option.some.injEq, Prod.mk.injEq] at h
          obtain ⟨hf, hu⟩ := h
          subst hf; subst hu
          simp; omega
  · intro f v1 h
    cases pData with
    | none =>
      simp only [MiRaspbPi.PoleTransmit, Option.some.injEq, Prod.mk.injEq] at h
      obtain ⟨hf, hu⟩ := h
      subst hf; subst hu
      simp
    | some p =>
      by_cases hs : size = 0
      · simp only [MiRaspbPi.PoleTransmit, hs, if_true, Option.some.injEq,
          Prod.mk.injEq] at h
        obtain ⟨hf, hu⟩ := h
        subst hf; subst hu
        simp [hs]
      · simp only [MiRaspbPi.PoleTransmit, hs, if_false] at h
        split at h
        · simp at h
        · split at h
          · simp at h
          · simp only [Option.some.injEq, Prod.mk.injEq] at h
            obtain ⟨hf, hu⟩ := h
            subst hf; subst hu
            simp; omega

/-- C12 at the concrete channels `stm32ArmedEmpty` and `raspbPiArmedEmpty`, whose fault state
is `UART_DataError`: the interrupt handler leaves it, and on the Raspberry Pi the polling read
and the handler return. -/
theorem C12_fault_state_only_PoleTransmit_witness :
    (MiSTM32Fx.IRQHandle stm32ArmedEmpty).Flt = UART_DataError ∧
      (MiSTM32Fx.PoleSingleRead stm32ArmedEmpty).2.Flt = UART_DataError ∧
      (∃ r, MiRaspbPi.PoleSingleRead 1 raspbPiArmedEmpty = some r) ∧
      (∃ v1, MiRaspbPi.IRQHandle 0 1 1 0 raspbPiArmedEmpty = some v1) :=
  have h := C12_fault_state_only_PoleTransmit stm32ArmedEmpty raspbPiArmedEmpty 0 1 1 0 0x41
    16 [] (some [1]) 1
  ⟨h.1.2.2.2.2.2.2.2.2, h.1.1, h.2.2.1.1 (Or.inl (by decide)) (by decide),
    h.2.2.1.2 (by decide) (by decide)⟩

/-- C13, the claim as stated fails: on the channel `stm32ArmedEmpty`, whose fault state is
`UART_DataError`, `PoleSingleTransmit` of a byte puts the byte on the transport and
`SingleTransmit_IT` of a byte is accepted by the Transmit buffer, and after either call the
fault state is still `UART_DataError`, not `UART_NoFault`. -/
theorem C13_transmit_NoFault_counterexample :
    stm32ArmedEmpty.Flt = UART_DataError ∧
      (MiSTM32Fx.PoleSingleTransmit stm32ArmedEmpty 0x41).UART_Handle.TDR = [7, 0x41] ∧
      (MiSTM32Fx.PoleSingleTransmit stm32ArmedEmpty 0x41).Flt ≠ UART_NoFault ∧
      (stm32ArmedEmpty.Transmit.InputWrite 0x41).1 = GenBuffer_NewData ∧
      (MiSTM32Fx.SingleTransmit_IT stm32ArmedEmpty 0x41).Transmit.queued = [0x41] ∧
      (MiSTM32Fx.SingleTransmit_IT stm32ArmedEmpty 0x41).Flt ≠ UART_NoFault := by
  decide

/-- C13 (amended): a `PoleTransmit` with a non-null, non-empty payload ends with fault state
`UART_NoFault` and returns `UART_NoFault`, whatever the fault state was before (on the
Raspberry Pi whenever the call returns; it returns when the memory scanned by `serialPuts`
holds a NUL).  `PoleSingleTransmit` and `SingleTransmit_IT` leave the fault state as it was
before the call. -/
theorem C13_transmit_NoFault (u : MiSTM32Fx.UARTDevice) (v : MiRaspbPi.UARTDevice)
    (txBit data : Nat) (heap payload : List Nat) (h1 : 1 ≤ payload.length) :
    (∃ u1, MiSTM32Fx.PoleTransmit u (some payload) payload.length = some (UART_NoFault, u1) ∧
      u1.Flt = UART_NoFault) ∧
    (∀ r, MiRaspbPi.PoleTransmit heap v (some payload) payload.length = some r →
      r.1 = UART_NoFault ∧ r.2.Flt = UART_NoFault) ∧
    (0 ∈ payload ++ heap →
      ∃ v1, MiRaspbPi.PoleTransmit heap v (some payload) payload.length
        = some (UART_NoFault, v1) ∧ v1.Flt = UART_NoFault) ∧
    ((MiSTM32Fx.PoleSingleTransmit u data).Flt = u.Flt ∧
      (MiSTM32Fx.SingleTransmit_IT u data).Flt = u.Flt ∧
      (MiRaspbPi.PoleSingleTransmit v data).Flt = v.Flt ∧
      (MiRaspbPi.SingleTransmit_IT txBit v data).Flt = v.Flt) := by
  have hs : payload.length ≠ 0 := by omega
  refine ⟨?_, ?_, ?_, ⟨rfl, rfl, rfl, rfl⟩⟩
  · refine ⟨{ payload.foldl MiSTM32Fx.PoleSingleTransmit u with Flt := UART_NoFault }, ?_, rfl⟩
    simp [MiSTM32Fx.PoleTransmit, hs, MiSTM32Fx.PoleTransmit_loop_eq]
  · intro r hr
    simp only [MiRaspbPi.PoleTransmit, hs, if_false, MiRaspbPi.PoleTransmit_copy_eq] at hr
    split at hr
    · simp at hr
    · simp only [Option.some.injEq] at hr
      rw [← hr]
      exact ⟨rfl, rfl⟩
  · intro h0
    obtain ⟨s, hc⟩ := MiRaspbPi.cString_ends _ h0
    refine ⟨{ v with UART_Handle := { v.UART_Handle with tx := v.UART_Handle.tx ++ s },
                     Flt := UART_NoFault }, ?_, rfl⟩
    simp only [MiRaspbPi.PoleTransmit, hs, if_false, MiRaspbPi.PoleTransmit_copy_eq,
      MiRaspbPi.serialPuts, hc, Option.map_some']

/-- C13 (amended) at concrete channels whose fault state is `UART_DataError`: a two byte
payload, on the Raspberry Pi followed in memory by a NUL. -/
theorem C13_transmit_NoFault_witness :
    (∃ u1, MiSTM32Fx.PoleTransmit stm32ArmedEmpty (some [0x41, 0x42]) 2
        = some (UART_NoFault, u1) ∧ u1.Flt = UART_NoFault) ∧
      (∃ v1, MiRaspbPi.PoleTransmit [0] raspbPiArmedEmpty (some [0x41, 0x42]) 2
        = some (UART_NoFault, v1) ∧ v1.Flt = UART_NoFault) :=
  have h := C13_transmit_NoFault stm32ArmedEmpty raspbPiArmedEmpty 1 0x41 [0] [0x41, 0x42]
    (by decide)
  ⟨h.1, h.2.2.1 (by decide)⟩

/-- C14: in every state reached from a freshly constructed channel (either constructor; the
one without a size is the sized one at 128) by whole calls of `SingleTransmit_IT` and
`IRQHandle` in any order, with the transport acting in between, a disarmed transmit direction
comes with an empty Transmit buffer.  For a buffer size above zero the Transmit buffer stays
well formed, so that empty means that no byte is queued, and on the Raspberry Pi every
invocation of `IRQHandle` with more fuel than bytes queued returns. -/
theorem C14_disarmed_implies_empty (h : MiSTM32Fx.USART_TypeDef)
    (port : MiRaspbPi.SerialPort) (n m rxBit txBit : Nat)
    (u : MiSTM32Fx.UARTDevice) (v : MiRaspbPi.UARTDevice)
    (hu : MiSTM32Fx.Reachable (MiSTM32Fx.UARTDevice.constructSized h n) u)
    (hv : MiRaspbPi.Reachable rxBit txBit (MiRaspbPi.UARTDevice.constructSized port m) v) :
    (¬ MiSTM32Fx.transmitArmed u → u.Transmit.isEmpty = true) ∧
    (0 < n → u.Transmit.WF ∧ (¬ MiSTM32Fx.transmitArmed u → u.Transmit.queued = [])) ∧
    (¬ MiRaspbPi.transmitArmed txBit v → v.Transmit.isEmpty = true) ∧
    (0 < m → v.Transmit.WF ∧ (¬ MiRaspbPi.transmitArmed txBit v → v.Transmit.queued = []) ∧
      ∀ fuel tempdata, v.Transmit.count < fuel →
        ∃ v1, MiRaspbPi.IRQHandle rxBit txBit fuel tempdata v = some v1) ∧
    (MiSTM32Fx.UARTDevice.construct h = MiSTM32Fx.UARTDevice.constructSized h 128 ∧
      MiRaspbPi.UARTDevice.construct port = MiRaspbPi.UARTDevice.constructSized port 128) := by
  have ku := MiSTM32Fx.Reachable_keeps_stm32 (MiSTM32Fx.UARTDevice.constructSized h n) u
    (fun _ => rfl) hu
  have kv := MiRaspbPi.Reachable_keeps_rpi rxBit txBit
    (MiRaspbPi.UARTDevice.constructSized port m) v (fun _ => rfl) hv
  refine ⟨ku, ?_, kv, ?_, ⟨rfl, rfl⟩⟩
  · intro hn
    have hw := MiSTM32Fx.Reachable_WF_stm32 _ u (GenBuffer.create_WF n hn) hu
    refine ⟨hw, fun hd => ?_⟩
    exact (GenBuffer.queued_eq_nil_iff _).2 ((GenBuffer.isEmpty_iff _ hw).1 (ku hd))
  · intro hm
    have hw := MiRaspbPi.Reachable_WF_rpi rxBit txBit _ v (GenBuffer.create_WF m hm) hv
    refine ⟨hw, fun hd => ?_, fun fuel tempdata hf => ?_⟩
    · exact (GenBuffer.queued_eq_nil_iff _).2 ((GenBuffer.isEmpty_iff _ hw).1 (kv hd))
    · obtain ⟨v1, e1, _, _⟩ := MiRaspbPi.IRQHandle_ends rxBit txBit fuel tempdata v hw hf
      exact ⟨v1, e1⟩

/-- C14 at concrete runs: a byte is enqueued on a freshly constructed channel with buffers of
size 4 and the interrupt handler runs until the direction is disarmed (twice on the STM32Fxx,
once on the Raspberry Pi); the Transmit buffer is then empty. -/
theorem C14_disarmed_implies_empty_witness :
    (MiSTM32Fx.IRQHandle (MiSTM32Fx.peripheral 0x80 0
        (MiSTM32Fx.IRQHandle (MiSTM32Fx.peripheral 0x80 0
          (MiSTM32Fx.SingleTransmit_IT
            (MiSTM32Fx.UARTDevice.constructSized stm32Sample.UART_Handle 4)
            0x41))))).Transmit.isEmpty = true ∧
      raspbPiAfterSend.Transmit.queued = [] :=
  have h := C14_disarmed_implies_empty stm32Sample.UART_Handle raspbPiSample.UART_Handle 4 4
    0 1 _ raspbPiAfterSend
    (MiSTM32Fx.Reachable.interrupt _ (MiSTM32Fx.Reachable.hardware _ 0x80 0
      (MiSTM32Fx.Reachable.interrupt _ (MiSTM32Fx.Reachable.hardware _ 0x80 0
        (MiSTM32Fx.Reachable.enqueue _ 0x41 MiSTM32Fx.Reachable.start)))))
    (MiRaspbPi.Reachable.interrupt _ raspbPiAfterSend 2 0
      (MiRaspbPi.Reachable.enqueue _ 0x41 MiRaspbPi.Reachable.start) (by decide))
  ⟨h.1 (by decide), (h.2.2.2.1 (by decide)).2.1 (by decide)⟩

/-- C15: on both targets `TransmitITEnable` arms and `TransmitITDisable` disarms the transmit
direction, and both leave the receive arm flag, both buffers and the fault state as they
were; `ReceiveITEnable` arms the receive direction and leaves the transmit arm flag as it
was.  Each of the three is idempotent; `TransmitITDisable` after `TransmitITEnable` leaves
the direction disarmed and `TransmitITEnable` after `TransmitITDisable` leaves it armed.  The
Raspberry Pi part takes the two bit positions of the missing header as parameters, distinct
from each other. -/
theorem C15_arm_operations (u : MiSTM32Fx.UARTDevice) (v : MiRaspbPi.UARTDevice)
    (rxBit txBit : Nat) (hbits : rxBit ≠ txBit) :
    ((MiSTM32Fx.transmitArmed (MiSTM32Fx.TransmitITEnable u) ∧
        ¬ MiSTM32Fx.transmitArmed (MiSTM32Fx.TransmitITDisable u) ∧
        MiSTM32Fx.receiveArmed (MiSTM32Fx.ReceiveITEnable u)) ∧
      ((MiSTM32Fx.receiveArmed (MiSTM32Fx.TransmitITEnable u) ↔ MiSTM32Fx.receiveArmed u) ∧
        (MiSTM32Fx.receiveArmed (MiSTM32Fx.TransmitITDisable u) ↔ MiSTM32Fx.receiveArmed u) ∧
        (MiSTM32Fx.transmitArmed (MiSTM32Fx.ReceiveITEnable u) ↔
          MiSTM32Fx.transmitArmed u)) ∧
      ((MiSTM32Fx.TransmitITEnable u).Receive = u.Receive ∧
        (MiSTM32Fx.TransmitITEnable u).Transmit = u.Transmit ∧
        (MiSTM32Fx.TransmitITEnable u).Flt = u.Flt ∧
        (MiSTM32Fx.TransmitITDisable u).Receive = u.Receive ∧
        (MiSTM32Fx.TransmitITDisable u).Transmit = u.Transmit ∧
        (MiSTM32Fx.TransmitITDisable u).Flt = u.Flt) ∧
      (MiSTM32Fx.TransmitITEnable (MiSTM32Fx.TransmitITEnable u)
          = MiSTM32Fx.TransmitITEnable u ∧
        MiSTM32Fx.TransmitITDisable (MiSTM32Fx.TransmitITDisable u)
          = MiSTM32Fx.TransmitITDisable u ∧
        MiSTM32Fx.ReceiveITEnable (MiSTM32Fx.ReceiveITEnable u)
          = MiSTM32Fx.ReceiveITEnable u) ∧
      (¬ MiSTM32Fx.transmitArmed (MiSTM32Fx.TransmitITDisable (MiSTM32Fx.TransmitITEnable u)) ∧
        MiSTM32Fx.transmitArmed
          (MiSTM32Fx.TransmitITEnable (MiSTM32Fx.TransmitITDisable u)))) ∧
    ((MiRaspbPi.transmitArmed txBit (MiRaspbPi.TransmitITEnable txBit v) ∧
        ¬ MiRaspbPi.transmitArmed txBit (MiRaspbPi.TransmitITDisable txBit v) ∧
        MiRaspbPi.receiveArmed rxBit (MiRaspbPi.ReceiveITEnable rxBit v)) ∧
      ((MiRaspbPi.receiveArmed rxBit (MiRaspbPi.TransmitITEnable txBit v) ↔
          MiRaspbPi.receiveArmed rxBit v) ∧
        (MiRaspbPi.receiveArmed rxBit (MiRaspbPi.TransmitITDisable txBit v) ↔
          MiRaspbPi.receiveArmed rxBit v) ∧
        (MiRaspbPi.transmitArmed txBit (MiRaspbPi.ReceiveITEnable rxBit v) ↔
          MiRaspbPi.transmitArmed txBit v)) ∧
      ((MiRaspbPi.TransmitITEnable txBit v).Receive = v.Receive ∧
        (MiRaspbPi.TransmitITEnable txBit v).Transmit = v.Transmit ∧
        (MiRaspbPi.TransmitITEnable txBit v).Flt = v.Flt ∧
        (MiRaspbPi.TransmitITDisable txBit v).Receive = v.Receive ∧
        (MiRaspbPi.TransmitITDisable txBit v).Transmit = v.Transmit ∧
        (MiRaspbPi.TransmitITDisable txBit v).Flt = v.Flt) ∧
      (MiRaspbPi.TransmitITEnable txBit (MiRaspbPi.TransmitITEnable txBit v)
          = MiRaspbPi.TransmitITEnable txBit v ∧
        MiRaspbPi.TransmitITDisable txBit (MiRaspbPi.TransmitITDisable txBit v)
          = MiRaspbPi.TransmitITDisable txBit v ∧
        MiRaspbPi.ReceiveITEnable rxBit (MiRaspbPi.ReceiveITEnable rxBit v)
          = MiRaspbPi.ReceiveITEnable rxBit v) ∧
      (¬ MiRaspbPi.transmitArmed txBit
          (MiRaspbPi.TransmitITDisable txBit (MiRaspbPi.TransmitITEnable txBit v)) ∧
        MiRaspbPi.transmitArmed txBit
          (MiRaspbPi.TransmitITEnable txBit (MiRaspbPi.TransmitITDisable txBit v)))) := by
  have sEn : ∀ w : MiSTM32Fx.UARTDevice,
      MiSTM32Fx.transmitArmed (MiSTM32Fx.TransmitITEnable w) :=
    fun w => MiSTM32Fx.TXEIE_after_enable _
  have sDis : ∀ w : MiSTM32Fx.UARTDevice,
      ¬ MiSTM32Fx.transmitArmed (MiSTM32Fx.TransmitITDisable w) :=
    fun w hw => hw (MiSTM32Fx.TXEIE_after_disable _)
  have rEn : ∀ w : MiRaspbPi.UARTDevice,
      MiRaspbPi.transmitArmed txBit (MiRaspbPi.TransmitITEnable txBit w) :=
    fun w => MiRaspbPi.EnabInter_self _ _
  have rDis : ∀ w : MiRaspbPi.UARTDevice,
      ¬ MiRaspbPi.transmitArmed txBit (MiRaspbPi.TransmitITDisable txBit w) :=
    fun w => MiRaspbPi.TransmitITDisable_disarmed _ _
  refine ⟨⟨⟨sEn u, sDis u, MiSTM32Fx.RXNEIE_after_enable _⟩, ⟨?_, ?_, ?_⟩,
      ⟨rfl, rfl, rfl, rfl, rfl, rfl⟩, ⟨?_, ?_, ?_⟩, ⟨sDis _, sEn _⟩⟩,
    ⟨⟨rEn v, rDis v, MiRaspbPi.EnabInter_self _ _⟩, ⟨?_, ?_, ?_⟩,
      ⟨rfl, rfl, rfl, rfl, rfl, rfl⟩, ⟨?_, ?_, ?_⟩, ⟨rDis _, rEn _⟩⟩⟩
  · simp only [MiSTM32Fx.receiveArmed, MiSTM32Fx.TransmitITEnable,
      MiSTM32Fx.__HAL_UART_ENABLE_IT, MiSTM32Fx.UART_IT_TXE,
      MiSTM32Fx.RXNEIE_after_TXEIE_enable]
  · simp only [MiSTM32Fx.receiveArmed, MiSTM32Fx.TransmitITDisable,
      MiSTM32Fx.__HAL_UART_DISABLE_IT, MiSTM32Fx.UART_IT_TXE,
      MiSTM32Fx.RXNEIE_after_TXEIE_disable]
  · simp only [MiSTM32Fx.transmitArmed, MiSTM32Fx.ReceiveITEnable,
      MiSTM32Fx.__HAL_UART_ENABLE_IT, MiSTM32Fx.UART_IT_RXNE,
      MiSTM32Fx.TXEIE_after_RXNEIE_enable]
  · simp only [MiSTM32Fx.TransmitITEnable, MiSTM32Fx.__HAL_UART_ENABLE_IT, Nat.or_assoc,
      Nat.or_self]
  · simp only [MiSTM32Fx.TransmitITDisable, MiSTM32Fx.__HAL_UART_DISABLE_IT, Nat.and_assoc,
      Nat.and_self]
  · simp only [MiSTM32Fx.ReceiveITEnable, MiSTM32Fx.__HAL_UART_ENABLE_IT, Nat.or_assoc,
      Nat.or_self]
  · simp only [MiRaspbPi.receiveArmed, MiRaspbPi.TransmitITEnable]
    rw [MiRaspbPi.EnabInter_other _ _ _ (Ne.symm hbits)]
  · simp only [MiRaspbPi.receiveArmed, MiRaspbPi.TransmitITDisable]
    rw [MiRaspbPi.DisaInter_other _ _ _ (Ne.symm hbits)]
  · simp only [MiRaspbPi.transmitArmed, MiRaspbPi.ReceiveITEnable]
    rw [MiRaspbPi.EnabInter_other _ _ _ hbits]
  · simp only [MiRaspbPi.TransmitITEnable, MiRaspbPi.UARTD_EnabInter, Nat.or_assoc,
      Nat.or_self]
  · have : MiRaspbPi.UARTD_DisaInter (MiRaspbPi.UARTD_DisaInter v.pseudo_interrupt txBit) txBit
        = MiRaspbPi.UARTD_DisaInter v.pseudo_interrupt txBit := by
      simp only [MiRaspbPi.UARTD_DisaInter, Nat.one_shiftLeft]
      rw [xor_and_pow_and_self, Nat.xor_zero]
    simp only [MiRaspbPi.TransmitITDisable, this]
  · simp only [MiRaspbPi.ReceiveITEnable, MiRaspbPi.UARTD_EnabInter, Nat.or_assoc,
      Nat.or_self]

/-- C15 at the concrete channel `raspbPiArmedEmpty`, for a header with receive bit 0 and
transmit bit 1, and at `stm32ArmedEmpty`. -/
theorem C15_arm_operations_witness :
    ¬ MiSTM32Fx.transmitArmed (MiSTM32Fx.TransmitITDisable stm32ArmedEmpty) ∧
      (MiSTM32Fx.receiveArmed (MiSTM32Fx.TransmitITDisable stm32ArmedEmpty) ↔
        MiSTM32Fx.receiveArmed stm32ArmedEmpty) ∧
      ¬ MiRaspbPi.transmitArmed 1 (MiRaspbPi.TransmitITDisable 1 raspbPiArmedEmpty) ∧
      (MiRaspbPi.receiveArmed 0 (MiRaspbPi.TransmitITDisable 1 raspbPiArmedEmpty) ↔
        MiRaspbPi.receiveArmed 0 raspbPiArmedEmpty) :=
  have h := C15_arm_operations stm32ArmedEmpty raspbPiArmedEmpty 0 1 (by decide)
  ⟨h.1.1.2.1, h.1.2.1.2.1, h.2.1.2.1, h.2.2.1.2.1⟩

/-- C16: on both targets an invocation of `IRQHandle` that finds the receive and the transmit
direction disarmed yields the channel it was given, unchanged in every part: no byte is taken
from or put onto the transport, both buffers, both arm flags and the fault state are as
before.  This holds whatever status flags and data register the peripheral presents, and
whatever bytes are waiting at the device; on the Raspberry Pi the invocation returns with any
fuel. -/
theorem C16_IRQHandle_noop (u : MiSTM32Fx.UARTDevice) (v : MiRaspbPi.UARTDevice)
    (rxBit txBit fuel tempdata : Nat)
    (hur : ¬ MiSTM32Fx.receiveArmed u) (hut : ¬ MiSTM32Fx.transmitArmed u)
    (hvr : ¬ MiRaspbPi.receiveArmed rxBit v) (hvt : ¬ MiRaspbPi.transmitArmed txBit v) :
    MiSTM32Fx.IRQHandle u = u ∧
      (∀ sr dr, MiSTM32Fx.IRQHandle (MiSTM32Fx.peripheral sr dr u)
        = MiSTM32Fx.peripheral sr dr u) ∧
      MiRaspbPi.IRQHandle rxBit txBit fuel tempdata v = some v ∧
      (∀ bytes, MiRaspbPi.IRQHandle rxBit txBit fuel tempdata (MiRaspbPi.arrival bytes v)
        = some (MiRaspbPi.arrival bytes v)) :=
  ⟨MiSTM32Fx.IRQHandle_noop_stm32 u hur hut,
    fun sr dr => MiSTM32Fx.IRQHandle_noop_stm32 (MiSTM32Fx.peripheral sr dr u) hur hut,
    MiRaspbPi.IRQHandle_noop_rpi rxBit txBit fuel tempdata v hvr hvt,
    fun bytes => MiRaspbPi.IRQHandle_noop_rpi rxBit txBit fuel tempdata
      (MiRaspbPi.arrival bytes v) hvr hvt⟩

/-- C16 at the concrete channels `stm32Sample` and `raspbPiSample`, both with two bytes
queued for transmission and both directions disarmed: with RXNE and TXE raised, respectively
with three bytes waiting at the device, the invocation changes nothing. -/
theorem C16_IRQHandle_noop_witness :
    MiSTM32Fx.IRQHandle (MiSTM32Fx.peripheral 0xA0 0x55 stm32Sample)
        = MiSTM32Fx.peripheral 0xA0 0x55 stm32Sample ∧
      MiRaspbPi.IRQHandle 0 1 0 0 (MiRaspbPi.arrival [1, 2, 3] raspbPiSample)
        = some (MiRaspbPi.arrival [1, 2, 3] raspbPiSample) :=
  have h := C16_IRQHandle_noop stm32Sample raspbPiSample 0 1 0 0 (by decide) (by decide)
    (by decide) (by decide)
  ⟨h.2.1 0xA0 0x55, h.2.2.2 [1, 2, 3]⟩
